import Mathlib

/-!
# The structure (module) engine of librep: `src/structures.c`

A shallow embedding of the module system of librep and a verification of
its specification.

## Representation

* A Lisp value (`repv`, a machine word in C) is a term of the inductive type
  `repv`.  Symbols are identified by their address, which is what the C code
  compares and hashes.
* The C heap is explicit.  `State.structs` is the heap of `rep_struct` cells
  and `State.nodes` the heap of `rep_struct_node` cells; a pointer is an index
  into the respective list and allocation appends a cell.  Reading through a
  pointer that is not in the heap (undefined behaviour in C, never produced by
  the engine) yields a default cell and writing through it does nothing.
* The bucket array of a structure, together with its `total_buckets`, is a
  list of chains, each chain being the list of node pointers in `next` order.
* The two flag bits of `car` are the booleans `export_all` and `exclusion`.
* Lisp lists stored in a structure (`inherited`, `imports`, `accessible`) are
  Lean lists of values.
* A function that may signal an error returns `Except Err repv`; the C code
  returns `rep_NULL` there.
* The mutual recursion of `lookup_recursively` and `rep_search_imports` is
  defined by recursion on a fuel counter that bounds the nesting depth of
  `lookup_recursively`; `none` means that the fuel ran out.  Entry points use
  one more unit of fuel than there are structures, which is always enough
  (`lookup_recursively_ok`, `free_count_le`).
* Code that is not part of `structures.c` (the symbol table, the loader, the
  evaluator, the hash macro of `repint.h`) is a field of `Statics`.
-/

namespace Librep

/-! ## Values -/

/-- A Lisp value.  `null` is `rep_NULL`, the zero word. -/
inductive repv where
  | null
  | symbol (addr : Nat)
  | void
  | struct (ptr : Nat)
  | cons (car cdr : repv)
  | funarg (ptr : Nat)
  | other (tag : Nat)
  deriving DecidableEq, Repr

instance : Inhabited repv := ⟨repv.null⟩

/-- The machine word of a value, as far as the engine hashes it: only symbols
are ever hashed, and their word is their address. -/
def repv.word : repv → Nat
  | .symbol a => a
  | _ => 0

def rep_SYMBOLP : repv → Bool
  | .symbol _ => true
  | _ => false

def rep_STRUCTUREP : repv → Bool
  | .struct _ => true
  | _ => false

def rep_CONSP : repv → Bool
  | .cons _ _ => true
  | _ => false

def rep_FUNARGP : repv → Bool
  | .funarg _ => true
  | _ => false

def rep_VOIDP : repv → Bool
  | .void => true
  | _ => false

/-- The elements of a Lisp list: the cars of the chain of cons cells, as the
loops `while (rep_CONSP (tem))` of the source visit them. -/
def list_elems : repv → List repv
  | .cons a d => a :: list_elems d
  | _ => []

/-- Modelled from the spec: `Fmemq` of `lists.c`, which is not among the sources
(the spec: "requires `name ∈ current.accessible ∪ current.imports`").  The tail
that starts at the first element identical to `elt`, or the empty list (`Qnil`). -/
def Fmemq (elt : repv) : List repv → List repv
  | [] => []
  | a :: l => if a = elt then a :: l else Fmemq elt l

/-- Modelled from the spec: `Fdelq` of `lists.c`, which is not among the sources
(the spec: "removes it from `interface`").  Every element identical to `elt` is
removed. -/
def Fdelq (elt : repv) : List repv → List repv
  | [] => []
  | a :: l => if elt = a then Fdelq elt l else a :: Fdelq elt l

/-! ## Heap cells -/

/-- A binding record (`rep_struct_node`); its `next` link is the position in
the chain that holds it. -/
structure rep_struct_node where
  symbol : repv
  binding : repv
  is_constant : Bool
  is_exported : Bool
  deriving DecidableEq, Repr

instance : Inhabited rep_struct_node := ⟨⟨repv.null, repv.null, false, false⟩⟩

/-- A structure cell (`rep_struct`).  `total_buckets` is `buckets.length`. -/
structure rep_struct where
  name : repv
  inherited : List repv
  imports : List repv
  accessible : List repv
  special_env : repv
  export_all : Bool
  exclusion : Bool
  total_bindings : Nat
  buckets : List (List Nat)
  apply_bytecode : Nat
  deriving DecidableEq, Repr

instance : Inhabited rep_struct :=
  ⟨⟨repv.null, [], [], [], repv.null, false, false, 0, [], 0⟩⟩

def rep_struct.total_buckets (s : rep_struct) : Nat := s.buckets.length

/-- One line of the direct-mapped cache.  `s = none` is the null structure
pointer; `n` is only read while `s` is not null. -/
structure cache_line where
  s : Option Nat
  n : Nat
  deriving DecidableEq, Repr

instance : Inhabited cache_line := ⟨⟨none, 0⟩⟩

/-- The state of the engine: the two heaps, the cache and the four roots. -/
structure State where
  structs : List rep_struct
  nodes : List rep_struct_node
  ref_cache : List cache_line
  rep_structure : repv
  rep_default_structure : repv
  rep_specials_structure : repv
  rep_structures_structure : repv
  deriving DecidableEq, Repr

/-- The errors the engine signals.  `bad_arg` is a failed `rep_DECLARE`,
`thrown` an error raised by a thunk or by the loader, and `out_of_fuel` is not
an outcome of the C code: it marks an exhausted fuel counter, which does not
happen at the entry points. -/
inductive Err where
  | bad_arg
  | setting_constant
  | void_value
  | thrown
  | out_of_fuel
  deriving DecidableEq, Repr

instance : DecidableEq (Except Err repv) := fun a b =>
  match a, b with
  | .ok v, .ok w =>
    if h : v = w then isTrue (by rw [h]) else isFalse (fun e => h (by cases e; rfl))
  | .error v, .error w =>
    if h : v = w then isTrue (by rw [h]) else isFalse (fun e => h (by cases e; rfl))
  | .ok _, .error _ => isFalse (fun e => by cases e)
  | .error _, .ok _ => isFalse (fun e => by cases e)

/-- What `structures.c` takes from the rest of the interpreter: the addresses
of the static symbols, the function under the macro `rep_STRUCT_HASH`
(`hash(sym, n) = fn(identity(sym)) mod n`), the default bytecode hook, the
loader, the special-variable lookup, the evaluator's call of a thunk whose
home structure has just been set to `home`, and the evaluator's call of a
function with two arguments. -/
structure Statics where
  Qnil : Nat
  Qt : Nat
  Qfeatures : Nat
  Q_structures : Nat
  Q_meta : Nat
  Qrep : Nat
  Q_specials : Nat
  Q_root_structure_ : Nat
  hash_fn : Nat → Nat
  rep_apply_bytecode : Nat
  Fload : State → repv → Except Err repv × State
  Fsymbol_value : State → repv → repv
  rep_call_lisp0 : State → (thunk : repv) → (home : repv) → Except Err repv × State
  rep_call_lisp2 : State → (fn : repv) → (a : repv) → (b : repv) → Except Err repv × State

def CACHE_SETS : Nat := 256

def MIN_BUCKETS : Nat := 8

def MAX_MULTIPLIER : Nat := 2

def CACHE_HASH (x : repv) : Nat := (x.word >>> 4) % CACHE_SETS

/-- Modelled from the spec: the macro `rep_STRUCT_HASH` of `repint.h`, which is
not among the sources (the spec: "`hash(sym, n) = fn(identity(sym)) mod n`"). -/
def rep_STRUCT_HASH (K : Statics) (x : repv) (n : Nat) : Nat := K.hash_fn x.word % n

def Statics.nil (K : Statics) : repv := repv.symbol K.Qnil

/-- The predicate `rep_LISTP`: `nil` or a cons cell. -/
def rep_LISTP (K : Statics) (v : repv) : Bool := v = K.nil || rep_CONSP v

/-! ## Pointers -/

/-- Read the node cell at `n`. -/
def State.node (st : State) (n : Nat) : rep_struct_node := st.nodes.getD n default

/-- Read the structure cell at `p`. -/
def State.cell (st : State) (p : Nat) : rep_struct := st.structs.getD p default

/-- Write the structure cell at `p`. -/
def State.set_cell (st : State) (p : Nat) (S : rep_struct) : State :=
  { st with structs := st.structs.set p S }

/-- Write the node cell at `n`. -/
def State.set_node (st : State) (n : Nat) (N : rep_struct_node) : State :=
  { st with nodes := st.nodes.set n N }

/-- The macro `rep_STRUCTURE (v)`: the cell a structure value points to. -/
def rep_STRUCTURE (st : State) : repv → rep_struct
  | .struct p => st.cell p
  | _ => default

/-! ## The cache -/

def State.line (st : State) (i : Nat) : cache_line := st.ref_cache.getD i default

def enter_cache (st : State) (s : Nat) (binding : Nat) : State :=
  { st with ref_cache :=
      st.ref_cache.set (CACHE_HASH (st.node binding).symbol) ⟨some s, binding⟩ }

def lookup_cache (st : State) (s : Nat) (var : repv) : Option Nat :=
  let l := st.line (CACHE_HASH var)
  if l.s = some s ∧ (st.node l.n).symbol = var then some l.n else none

def cache_invalidate_symbol (st : State) (symbol : repv) : State :=
  let l := st.line (CACHE_HASH symbol)
  if l.s ≠ none ∧ (st.node l.n).symbol = symbol then
    { st with ref_cache := st.ref_cache.set (CACHE_HASH symbol) ⟨none, l.n⟩ }
  else st

def cache_invalidate_struct (st : State) (s : Nat) : State :=
  { st with ref_cache :=
      st.ref_cache.map (fun l => if l.s = some s then ⟨none, l.n⟩ else l) }

def cache_flush (st : State) : State :=
  { st with ref_cache := List.replicate CACHE_SETS ⟨none, 0⟩ }

/-! ## The binding table -/

def structure_exports_inherited_p (S : rep_struct) (var : repv) : Bool :=
  S.export_all || decide (var ∈ S.inherited)

/-- Follow a chain for the first node whose symbol is `var`. -/
def chain_find (st : State) (var : repv) : List Nat → Option Nat
  | [] => none
  | n :: rest => if (st.node n).symbol = var then some n else chain_find st var rest

def lookup (K : Statics) (st : State) (S : rep_struct) (var : repv) : Option Nat :=
  if S.buckets.length ≠ 0 then
    chain_find st var (S.buckets.getD (rep_STRUCT_HASH K var S.buckets.length) [])
  else none

/-- Push the nodes of one old chain onto the heads of their new chains. -/
def rehash_chain (K : Statics) (st : State) (new_total : Nat) :
    List (List Nat) → List Nat → List (List Nat)
  | buckets, [] => buckets
  | buckets, n :: rest =>
    rehash_chain K st new_total
      (buckets.set (rep_STRUCT_HASH K (st.node n).symbol new_total)
        (n :: buckets.getD (rep_STRUCT_HASH K (st.node n).symbol new_total) [])) rest

/-- The doubling loop of `lookup_or_add`. -/
def rehash (K : Statics) (st : State) (new_total : Nat) (old : List (List Nat)) :
    List (List Nat) :=
  old.foldl (rehash_chain K st new_total) (List.replicate new_total [])

/-- In `lookup_or_add`, first step of a miss: allocate `MIN_BUCKETS` buckets if
the table has none. -/
def alloc_buckets (S : rep_struct) : rep_struct :=
  if S.buckets.length = 0 then { S with buckets := List.replicate MIN_BUCKETS [] } else S

/-- In `lookup_or_add`, second step of a miss: double the table if
`total_bindings > total_buckets * MAX_MULTIPLIER`. -/
def double_buckets (K : Statics) (st : State) (S : rep_struct) : rep_struct :=
  if S.total_bindings > S.buckets.length * MAX_MULTIPLIER then
    { S with buckets := rehash K st (S.buckets.length * 2) S.buckets }
  else S

/-- In `lookup_or_add`, third step of a miss: link the new node `n` at the head of
the chain of `var` and count it. -/
def link_node (K : Statics) (S : rep_struct) (n : Nat) (var : repv) : rep_struct :=
  { S with
    buckets := S.buckets.set (rep_STRUCT_HASH K var S.buckets.length)
      (n :: S.buckets.getD (rep_STRUCT_HASH K var S.buckets.length) []),
    total_bindings := S.total_bindings + 1 }

/-- In `lookup_or_add`, fourth step of a miss: a symbol that is exported by
inheritance leaves the inherited list. -/
def migrate_export (S : rep_struct) (var : repv) : rep_struct :=
  if structure_exports_inherited_p S var then { S with inherited := Fdelq var S.inherited }
  else S

/-- The node `lookup_or_add` allocates in structure `S` for `var`.  The C code
leaves its `binding` unset and both callers store to it before anything reads
it; it is `void` here, as in the spec ("creates with `binding = void`"). -/
def new_node (S : rep_struct) (var : repv) : rep_struct_node :=
  { symbol := var, binding := repv.void, is_constant := false,
    is_exported := S.export_all || structure_exports_inherited_p S var }

/-- Allocate a node cell: it goes to the end of the node heap. -/
def State.alloc_node (st : State) (N : rep_struct_node) : State :=
  { st with nodes := st.nodes ++ [N] }

/-- Allocate a structure cell: it goes to the end of the structure heap. -/
def State.alloc_struct (st : State) (S : rep_struct) : State :=
  { st with structs := st.structs ++ [S] }

/-- The function `lookup_or_add (s, var)`: the state after the call and the node. -/
def lookup_or_add (K : Statics) (st : State) (s : Nat) (var : repv) : State × Nat :=
  match lookup K st (st.cell s) var with
  | some n => (st, n)
  | none =>
    (cache_invalidate_symbol
      ((st.set_cell s
        (migrate_export
          (link_node K (double_buckets K st (alloc_buckets (st.cell s))) st.nodes.length var)
          var)).alloc_node
        (new_node (double_buckets K st (alloc_buckets (st.cell s))) var))
      var,
     st.nodes.length)

/-! ## The resolver -/

def F_get_structure (K : Statics) (st : State) (name : repv) : Except Err repv :=
  if rep_SYMBOLP name then
    match lookup K st (rep_STRUCTURE st st.rep_structures_structure) name with
    | some n => .ok (st.node n).binding
    | none => .ok K.nil
  else .error Err.bad_arg

/-- The loop of `rep_search_imports` over the import list of `s`, with the
recursive call to `lookup_recursively` as the argument `look`. -/
def search_loop (look : State → repv → Option (State × Option Nat)) (s : Nat) :
    State → List repv → Option (State × Option Nat)
  | st, [] => some (st, none)
  | st, name :: imports =>
    match look st name with
    | none => none
    | some (st1, some n) => some (enter_cache st1 s n, some n)
    | some (st1, none) => search_loop look s st1 imports

/-- The body of `rep_search_imports`, with the recursive call as `look`. -/
def search_imports_with (look : State → repv → Option (State × Option Nat))
    (st : State) (s : Nat) : repv → Option (State × Option Nat) := fun var =>
  match lookup_cache st s var with
  | some n => some (st, some n)
  | none => search_loop look s st (st.cell s).imports

/-- Store to the EXCLUSION flag of the structure at `p`. -/
def State.set_exclusion (st : State) (p : Nat) (b : Bool) : State :=
  st.set_cell p { st.cell p with exclusion := b }

/-- The end of `lookup_recursively`: clear the EXCLUSION flag of `p` and
return what the search returned. -/
def clear_exclusion (p : Nat) : Option (State × Option Nat) → Option (State × Option Nat)
  | none => none
  | some (st, n) => some (st.set_exclusion p false, n)

/-- What `lookup_recursively` does once `lookup` has found no binding in the structure at
`p`: set the flag, search the imports if `var` is exported by inheritance,
clear the flag. -/
def search_inherited (look : State → repv → Option (State × Option Nat))
    (st : State) (p : Nat) (var : repv) : Option (State × Option Nat) :=
  clear_exclusion p
    (if structure_exports_inherited_p ((st.set_exclusion p true).cell p) var then
      search_imports_with look (st.set_exclusion p true) p var
    else some (st.set_exclusion p true, none))

/-- The body of `lookup_recursively`, with the nested calls as `look`. -/
def lookup_recursively_with (K : Statics) (look : State → repv → Option (State × Option Nat))
    (st : State) (name var : repv) : Option (State × Option Nat) :=
  match F_get_structure K st name with
  | .ok (.struct p) =>
    if (st.cell p).exclusion then some (st, none)
    else
      match lookup K st (st.cell p) var with
      | some n => some (st, if (st.node n).is_exported then some n else none)
      | none => search_inherited look st p var
  | _ => some (st, none)

/-- The function `lookup_recursively (name, var)` with at most `fuel` nested calls. -/
def lookup_recursively (K : Statics) : Nat → State → repv → repv → Option (State × Option Nat)
  | 0, _, _, _ => none
  | fuel + 1, st, name, var =>
    lookup_recursively_with K (fun st2 nm => lookup_recursively K fuel st2 nm var) st name var

/-- The function `rep_search_imports (s, var)`, its calls to `lookup_recursively` having the
fuel `fuel`. -/
def rep_search_imports (K : Statics) (fuel : Nat) (st : State) (s : Nat) (var : repv) :
    Option (State × Option Nat) :=
  search_imports_with (fun st2 nm => lookup_recursively K fuel st2 nm var) st s var

/-- The fuel of the entry points: one more than the number of structures. -/
def State.fuel (st : State) : Nat := st.structs.length + 1

/-- Apply `f` to the cell a structure value points to (a store through
`rep_STRUCTURE (v)`). -/
def State.update_struct (st : State) (v : repv) (f : rep_struct → rep_struct) : State :=
  match v with
  | .struct p => st.set_cell p (f (st.cell p))
  | _ => st

/-! ## Lisp functions -/

def F_structure_ref (K : Statics) (st : State) (structure_ var : repv) :
    Except Err repv × State :=
  match structure_ with
  | .struct s =>
    if rep_SYMBOLP var then
      match lookup K st (st.cell s) var with
      | some n => (.ok (st.node n).binding, st)
      | none =>
        match rep_search_imports K st.fuel st s var with
        | some (st1, some n) => (.ok (st1.node n).binding, st1)
        | some (st1, none) => (.ok repv.void, st1)
        | none => (.error Err.out_of_fuel, st)
    else (.error Err.bad_arg, st)
  | _ => (.error Err.bad_arg, st)

def F_structure_bound_p (K : Statics) (st : State) (structure_ var : repv) :
    Except Err repv × State :=
  match F_structure_ref K st structure_ var with
  | (.ok tem, st1) => (.ok (if rep_VOIDP tem then K.nil else repv.symbol K.Qt), st1)
  | (.error e, st1) => (.error e, st1)

def F_structure_set (K : Statics) (st : State) (structure_ var value : repv) :
    Except Err repv × State :=
  match structure_ with
  | .struct s =>
    if rep_SYMBOLP var then
      let r := lookup_or_add K st s var
      if !(r.1.node r.2).is_constant then
        (.ok value, r.1.set_node r.2 { r.1.node r.2 with binding := value })
      else (.error Err.setting_constant, r.1)
    else (.error Err.bad_arg, st)
  | _ => (.error Err.bad_arg, st)

def F_external_structure_ref (K : Statics) (st : State) (name var : repv) :
    Except Err repv × State :=
  if rep_SYMBOLP name && rep_SYMBOLP var then
    let tem := Fmemq name (rep_STRUCTURE st st.rep_structure).accessible
    let tem := if tem = [] then Fmemq name (rep_STRUCTURE st st.rep_structure).imports else tem
    if tem ≠ [] then
      match lookup_recursively K st.fuel st name var with
      | some (st1, some n) =>
        if !rep_VOIDP (st1.node n).binding then (.ok (st1.node n).binding, st1)
        else (.error Err.void_value, st1)
      | some (st1, none) => (.error Err.void_value, st1)
      | none => (.error Err.out_of_fuel, st)
    else (.error Err.void_value, st)
  else (.error Err.bad_arg, st)

def F_name_structure (K : Statics) (st : State) (structure_ name : repv) :
    Except Err repv × State :=
  if rep_STRUCTUREP structure_ && rep_SYMBOLP name then
    let st1 :=
      if name ≠ K.nil then
        let st2 := (F_structure_set K st st.rep_structures_structure name structure_).2
        if (rep_STRUCTURE st2 structure_).name = K.nil then
          st2.update_struct structure_ (fun S => { S with name := name })
        else st2
      else if (rep_STRUCTURE st structure_).name ≠ K.nil then
        (F_structure_set K st st.rep_structures_structure
          (rep_STRUCTURE st structure_).name K.nil).2
      else st
    (.ok name, cache_flush st1)
  else (.error Err.bad_arg, st)

/-- The function `F_make_structure`.  The new cell is allocated at the end of
the structure heap.  A thunk is run by the evaluator (`Statics.rep_call_lisp0`)
after its home structure has been set to the new structure. -/
def F_make_structure (K : Statics) (st : State) (sig header_thunk body_thunk name : repv) :
    Except Err repv × State :=
  if rep_LISTP K sig
      && (header_thunk = K.nil || rep_FUNARGP header_thunk)
      && (body_thunk = K.nil || rep_FUNARGP body_thunk)
      && (name = K.nil || rep_SYMBOLP name) then
    let p := st.structs.length
    let S : rep_struct :=
      { name := name, inherited := list_elems sig, imports := [], accessible := [],
        special_env := repv.symbol K.Qt, export_all := false, exclusion := false,
        total_bindings := 0, buckets := [],
        apply_bytecode :=
          if st.rep_structure ≠ repv.null then (rep_STRUCTURE st st.rep_structure).apply_bytecode
          else K.rep_apply_bytecode }
    let st1 : State := st.alloc_struct S
    let st2 := if name ≠ K.nil then (F_name_structure K st1 (repv.struct p) name).2 else st1
    let h : Except Err repv × State :=
      if header_thunk ≠ K.nil then
        let st3 := st2.set_cell p
          { st2.cell p with imports := repv.symbol K.Q_meta :: (st2.cell p).imports }
        let r := K.rep_call_lisp0 st3 header_thunk (repv.struct p)
        (r.1, r.2.set_cell p
          { r.2.cell p with imports := Fdelq (repv.symbol K.Q_meta) (r.2.cell p).imports })
      else (.ok K.nil, st2)
    match h with
    | (.error e, st4) => (.error e, st4)
    | (.ok _, st4) =>
      if body_thunk ≠ K.nil then
        match K.rep_call_lisp0 st4 body_thunk (repv.struct p) with
        | (.error e, st5) => (.error e, st5)
        | (.ok _, st5) => (.ok (repv.struct p), st5)
      else (.ok (repv.struct p), st4)
  else (.error Err.bad_arg, st)

def F_structure_exports_p (K : Statics) (st : State) (structure_ var : repv) : Except Err repv :=
  if rep_STRUCTUREP structure_ && rep_SYMBOLP var then
    match lookup K st (rep_STRUCTURE st structure_) var with
    | some n => .ok (if (st.node n).is_exported then repv.symbol K.Qt else K.nil)
    | none =>
      .ok (if structure_exports_inherited_p (rep_STRUCTURE st structure_) var
        then repv.symbol K.Qt else K.nil)
  else .error Err.bad_arg

/-- One iteration of the loop of `F_set_interface`, at node `n` of structure `p`. -/
def set_interface_step (p : Nat) (st : State) (n : Nat) : State :=
  if structure_exports_inherited_p (st.cell p) (st.node n).symbol then
    (st.set_node n { st.node n with is_exported := true }).set_cell p
      { st.cell p with inherited := Fdelq (st.node n).symbol (st.cell p).inherited }
  else st.set_node n { st.node n with is_exported := false }

def F_set_interface (K : Statics) (st : State) (structure_ sig : repv) :
    Except Err repv × State :=
  match structure_ with
  | .struct p =>
    if rep_LISTP K sig then
      let st1 := st.set_cell p
        { st.cell p with inherited := list_elems sig, export_all := false }
      let st2 := (st1.cell p).buckets.flatten.foldl (set_interface_step p) st1
      (.ok (repv.symbol K.Qt), cache_flush st2)
    else (.error Err.bad_arg, st)
  | _ => (.error Err.bad_arg, st)

def F_intern_structure (K : Statics) (st : State) (name : repv) : Except Err repv × State :=
  match F_get_structure K st name with
  | .error e => (.error e, st)
  | .ok tem =>
    if tem = K.nil then
      let old := st.rep_structure
      let st1 : State := { st with rep_structure := st.rep_default_structure }
      let root := K.Fsymbol_value st1 (repv.symbol K.Q_root_structure_)
      let st2 : State :=
        if !rep_VOIDP root then
          match F_get_structure K st1 root with
          | .ok (.struct q) => { st1 with rep_structure := repv.struct q }
          | _ => st1
        else st1
      match K.Fload st2 name with
      | (.error e, st3) => (.error e, { st3 with rep_structure := old })
      | (.ok v, st3) =>
        if rep_STRUCTUREP v then
          (.ok v, { (F_name_structure K st3 v name).2 with rep_structure := old })
        else (.ok K.nil, { st3 with rep_structure := old })
    else (.ok tem, st)

/-- The loop of `F_open_structures`; it ends early when `F_intern_structure`
fails. -/
def open_loop (K : Statics) (dst : repv) : State → List repv → State
  | st, [] => st
  | st, a :: args =>
    if Fmemq a (rep_STRUCTURE st dst).imports = [] then
      match F_intern_structure K st a with
      | (.error _, st1) => st1
      | (.ok s, st1) =>
        open_loop K dst
          (if rep_STRUCTUREP s then
            st1.update_struct dst (fun S => { S with imports := a :: S.imports })
          else st1) args
    else open_loop K dst st args

def F_open_structures (K : Statics) (st : State) (args : repv) : Except Err repv × State :=
  if rep_LISTP K args then
    (.ok K.nil, cache_flush (open_loop K st.rep_structure st (list_elems args)))
  else (.error Err.bad_arg, st)

/-- The loop of `F_access_structures`; it ends early when `F_intern_structure`
fails or does not return a structure. -/
def access_loop (K : Statics) (dst : repv) : State → List repv → State
  | st, [] => st
  | st, a :: args =>
    if Fmemq a (rep_STRUCTURE st dst).accessible = [] then
      match F_intern_structure K st a with
      | (.error _, st1) => st1
      | (.ok s, st1) =>
        if rep_STRUCTUREP s then
          access_loop K dst
            (st1.update_struct dst (fun S => { S with accessible := a :: S.accessible })) args
        else st1
    else access_loop K dst st args

def F_access_structures (K : Statics) (st : State) (args : repv) : Except Err repv × State :=
  if rep_LISTP K args then
    (.ok K.nil, cache_flush (access_loop K st.rep_structure st (list_elems args)))
  else (.error Err.bad_arg, st)

def Fmake_binding_immutable (K : Statics) (st : State) (var : repv) : Except Err repv × State :=
  if rep_SYMBOLP var then
    match lookup K st (rep_STRUCTURE st st.rep_structure) var with
    | some n => (.ok var, st.set_node n { st.node n with is_constant := true })
    | none => (.error Err.void_value, st)
  else (.error Err.bad_arg, st)

/-- The loop of `Fmemq` on a Lisp value: the first cons cell whose car is
identical to `elt`, or `nil`. -/
def memq_loop (K : Statics) (elt : repv) : repv → repv
  | .cons a d => if elt = a then repv.cons a d else memq_loop K elt d
  | _ => K.nil

/-- Modelled from the spec: `Fmemq` of `lists.c`, which is not among the sources,
on a Lisp value (the spec: "true iff `f` appears in the current structure's
`features`").  A value that is not a list fails the declaration. -/
def Fmemq_value (K : Statics) (elt list : repv) : Except Err repv :=
  if rep_LISTP K list then .ok (memq_loop K elt list) else .error Err.bad_arg

def F_structure_interface (st : State) (structure_ : repv) : Except Err (List repv) :=
  match structure_ with
  | .struct p =>
    .ok ((st.cell p).buckets.flatten.foldl
      (fun list n => if (st.node n).is_exported then (st.node n).symbol :: list else list)
      (st.cell p).inherited)
  | _ => .error Err.bad_arg

/-- The `next` link of node `n` as the chain `c` gives it, if `n` is in `c`. -/
def chain_next (n : Nat) : List Nat → Option (Option Nat)
  | [] => none
  | m :: rest => if m = n then some rest.head? else chain_next n rest

/-- The `next` link of node `n` in the table of `S`: the node after `n` in the
chain that holds `n`. -/
def next_link (S : rep_struct) (n : Nat) : Option Nat :=
  (S.buckets.findSome? (chain_next n)).join

/-- The two loops of `F_structure_walk` over structure `s`, at bucket `i` and
node `ptr` (`none` at the end of a chain), with the value `ret` of the last
call.  Every iteration reads the table as the last call left it.  The third
component lists the calls made, each with the symbol and the binding passed;
`fuel` bounds the number of iterations, which a function that keeps adding
bindings to the structure can make endless. -/
def walk_loop (K : Statics) (fn : repv) (s : Nat) :
    Nat → State → Nat → Option Nat → repv → List (repv × repv) →
      Except Err repv × State × List (repv × repv)
  | 0, st, _, _, _, calls => (.error Err.out_of_fuel, st, calls)
  | fuel + 1, st, i, none, ret, calls =>
    if i + 1 < (st.cell s).buckets.length then
      walk_loop K fn s fuel st (i + 1) ((st.cell s).buckets.getD (i + 1) []).head? ret calls
    else (.ok ret, st, calls)
  | fuel + 1, st, i, some n, ret, calls =>
    if !rep_VOIDP (st.node n).binding then
      match K.rep_call_lisp2 st fn (st.node n).symbol (st.node n).binding with
      | (.error e, st1) =>
        (.error e, st1, calls ++ [((st.node n).symbol, (st.node n).binding)])
      | (.ok r, st1) =>
        walk_loop K fn s fuel st1 i (next_link (st1.cell s) n) r
          (calls ++ [((st.node n).symbol, (st.node n).binding)])
    else walk_loop K fn s fuel st i (next_link (st.cell s) n) ret calls

/-- The function `F_structure_walk`, with the list of the calls it makes. -/
def F_structure_walk (K : Statics) (fuel : Nat) (st : State) (fn structure_ : repv) :
    Except Err repv × State × List (repv × repv) :=
  match structure_ with
  | .struct s =>
    if 0 < (st.cell s).buckets.length then
      walk_loop K fn s fuel st 0 ((st.cell s).buckets.getD 0 []).head? K.nil []
    else (.ok K.nil, st, [])
  | _ => (.error Err.bad_arg, st, [])

def Fbinding_immutable_p (K : Statics) (st : State) (var structure_ : repv) : Except Err repv :=
  if rep_SYMBOLP var && (structure_ = K.nil || rep_STRUCTUREP structure_) then
    match lookup K st
        (rep_STRUCTURE st (if structure_ ≠ K.nil then structure_ else st.rep_structure)) var with
    | some n => .ok (if (st.node n).is_constant then repv.symbol K.Qt else K.nil)
    | none => .ok K.nil
  else .error Err.bad_arg

/-! ## Features -/

def Ffeaturep (K : Statics) (st : State) (feature : repv) : Except Err repv × State :=
  if rep_SYMBOLP feature then
    match F_structure_ref K st st.rep_structure (repv.symbol K.Qfeatures) with
    | (.ok value, st1) =>
      if rep_VOIDP value then (.ok K.nil, st1) else (Fmemq_value K feature value, st1)
    | (.error e, st1) => (.error e, st1)
  else (.error Err.bad_arg, st)

/-- The value `Fprovide` stores: `value` with `feature` in front unless `Fmemq`
finds it there (or fails). -/
def provide_value (K : Statics) (feature value : repv) : repv :=
  if Fmemq_value K feature value = .ok K.nil then repv.cons feature value else value

def Fprovide (K : Statics) (st : State) (feature : repv) : Except Err repv × State :=
  if rep_SYMBOLP feature then
    match F_structure_ref K st st.rep_structure (repv.symbol K.Qfeatures) with
    | (.ok value, st1) =>
      (.ok feature,
        (F_structure_set K st1 st1.rep_structure (repv.symbol K.Qfeatures)
          (provide_value K feature (if rep_VOIDP value then K.nil else value))).2)
    | (.error _, st1) =>
      (.ok feature,
        (F_structure_set K st1 st1.rep_structure (repv.symbol K.Qfeatures) repv.null).2)
  else (.error Err.bad_arg, st)

/-- The end of `Frequire`, once `tem` is the structure found or the value that
the load returned: a structure is added to the imports of `dst` and provided. -/
def require_finish (K : Statics) (st : State) (dst feature tem : repv) :
    Except Err repv × State :=
  if rep_STRUCTUREP tem then
    (.ok (repv.symbol K.Qt),
      cache_flush
        (Fprovide K (st.update_struct dst (fun S => { S with imports := feature :: S.imports }))
          feature).2)
  else (.ok (repv.symbol K.Qt), st)

def Frequire (K : Statics) (st : State) (feature : repv) : Except Err repv × State :=
  if rep_SYMBOLP feature then
    match Ffeaturep K st feature with
    | (r, st1) =>
      if r ≠ .ok K.nil then (.ok feature, st1)
      else if Fmemq feature (rep_STRUCTURE st1 st.rep_structure).imports = [] then
        match F_get_structure K st1 feature with
        | .ok (.struct q) => require_finish K st1 st.rep_structure feature (repv.struct q)
        | _ =>
          match K.Fload st1 feature with
          | (.error e, st2) => (.error e, st2)
          | (.ok v, st2) =>
            require_finish K
              (if rep_STRUCTUREP v then (F_name_structure K st2 v feature).2 else st2)
              st.rep_structure feature v
      else (.ok (repv.symbol K.Qt), st1)
  else (.error Err.bad_arg, st)

/-! ## The C interface -/

/-- The function `rep_push_structure`; `sym` is the symbol that `Fintern` returns for the
name.  Returns the structure that was current. -/
def rep_push_structure (K : Statics) (st : State) (sym : repv) : repv × State :=
  match F_get_structure K st sym with
  | .error _ => (st.rep_structure, { st with rep_structure := repv.null })
  | .ok s =>
    if s = K.nil then
      match F_make_structure K st K.nil K.nil K.nil sym with
      | (.ok s1, st1) => (st.rep_structure, { st1 with rep_structure := s1 })
      | (.error _, st1) => (st.rep_structure, { st1 with rep_structure := repv.null })
    else (st.rep_structure, { st with rep_structure := s })

def rep_pop_structure (st : State) (old : repv) : repv × State :=
  (st.rep_structure, { st with rep_structure := old })

/-- The function `rep_add_subr`; `sym` is the symbol that `Fintern` returns for the name of
the subr and `subr` the value `rep_VAL (subr)`. -/
def rep_add_subr (K : Statics) (st : State) (sym subr : repv) (exported : Bool) :
    repv × State :=
  if sym ≠ repv.null then
    match st.rep_structure with
    | .struct s =>
      let r := lookup_or_add K st s sym
      (sym, r.1.set_node r.2 { r.1.node r.2 with binding := subr, is_exported := exported })
    | _ => (sym, st)
  else (sym, st)

def rep_structure_exports_all (st : State) (s : repv) (status : Bool) : State :=
  st.update_struct s (fun S => { S with export_all := status })

def F_structure_exports_all (K : Statics) (st : State) (s status : repv) :
    Except Err repv × State :=
  if rep_STRUCTUREP s then (.ok s, rep_structure_exports_all st s (status ≠ K.nil))
  else (.error Err.bad_arg, st)

/-! ## Start-up -/

/-- The state of a process before `rep_pre_structures_init`: empty heaps, and
the static variables zero. -/
def zero_state : State :=
  { structs := [], nodes := [], ref_cache := List.replicate CACHE_SETS ⟨none, 0⟩,
    rep_structure := repv.null, rep_default_structure := repv.null,
    rep_specials_structure := repv.null, rep_structures_structure := repv.null }

/-- The value a call returns, `rep_NULL` when it failed. -/
def ret_val (r : Except Err repv × State) : repv :=
  match r.1 with
  | .ok v => v
  | .error _ => repv.null

def rep_pre_structures_init (K : Statics) (st : State) : State :=
  let r1 := F_make_structure K st K.nil K.nil K.nil K.nil
  let st1 : State := { r1.2 with rep_default_structure := ret_val r1 }
  let r2 := F_make_structure K st1 K.nil K.nil K.nil K.nil
  let st2 : State := { r2.2 with rep_specials_structure := ret_val r2 }
  let r3 := F_make_structure K st2 K.nil K.nil K.nil K.nil
  { r3.2 with rep_structures_structure := ret_val r3 }

/-! ## Operations and reachable states -/

/-- The operations of the engine that a client may call once
`rep_pre_structures_init` has run. -/
inductive Op where
  | make_structure (sig header_thunk body_thunk name : repv)
  | name_structure (s name : repv)
  | structure_ref (s var : repv)
  | structure_bound_p (s var : repv)
  | structure_set (s var value : repv)
  | external_structure_ref (name var : repv)
  | set_interface (s sig : repv)
  | intern_structure (name : repv)
  | open_structures (args : repv)
  | access_structures (args : repv)
  | make_binding_immutable (var : repv)
  | push_structure (sym : repv)
  | pop_structure (old : repv)
  | add_subr (sym subr : repv) (exported : Bool)
  | structure_exports_all (s status : repv)
  | featurep (feature : repv)
  | provide (feature : repv)
  | require (feature : repv)
  | structure_walk (fuel : Nat) (fn s : repv)

/-- The state after one operation. -/
def Op.exec (K : Statics) (st : State) : Op → State
  | .make_structure sig h b name => (F_make_structure K st sig h b name).2
  | .name_structure s name => (F_name_structure K st s name).2
  | .structure_ref s var => (F_structure_ref K st s var).2
  | .structure_bound_p s var => (F_structure_bound_p K st s var).2
  | .structure_set s var value => (F_structure_set K st s var value).2
  | .external_structure_ref name var => (F_external_structure_ref K st name var).2
  | .set_interface s sig => (F_set_interface K st s sig).2
  | .intern_structure name => (F_intern_structure K st name).2
  | .open_structures args => (F_open_structures K st args).2
  | .access_structures args => (F_access_structures K st args).2
  | .make_binding_immutable var => (Fmake_binding_immutable K st var).2
  | .push_structure sym => (rep_push_structure K st sym).2
  | .pop_structure old => (rep_pop_structure st old).2
  | .add_subr sym subr exported => (rep_add_subr K st sym subr exported).2
  | .structure_exports_all s status => (F_structure_exports_all K st s status).2
  | .featurep feature => (Ffeaturep K st feature).2
  | .provide feature => (Fprovide K st feature).2
  | .require feature => (Frequire K st feature).2
  | .structure_walk fuel fn s => (F_structure_walk K fuel st fn s).2.1

/-- The state after a sequence of operations. -/
def run (K : Statics) (st : State) (ops : List Op) : State := ops.foldl (Op.exec K) st

/-- The states the engine can be in: those that a sequence of operations
reaches from the state `rep_pre_structures_init` leaves. -/
def Reachable (K : Statics) (st : State) : Prop :=
  ∃ ops : List Op, run K (rep_pre_structures_init K zero_state) ops = st

/-! ## A concrete interpreter -/

/-- A concrete choice of the external parts: `rep_STRUCT_HASH (x, n)` is
`(x >> 3) % n` as in `repint.h`, the static symbols have distinct addresses,
no file can be loaded, `*root-structure*` is void and no thunk or function can
be run. -/
def K0 : Statics :=
  { Qnil := 16, Qt := 32, Qfeatures := 48, Q_structures := 64, Q_meta := 80, Qrep := 96,
    Q_specials := 112, Q_root_structure_ := 128,
    hash_fn := fun x => x >>> 3,
    rep_apply_bytecode := 1,
    Fload := fun st _ => (.error Err.thrown, st),
    Fsymbol_value := fun _ _ => repv.void,
    rep_call_lisp0 := fun st _ _ => (.error Err.thrown, st),
    rep_call_lisp2 := fun st _ _ _ => (.error Err.thrown, st) }

/-- The Lisp list of the given values. -/
def mk_list (K : Statics) : List repv → repv
  | [] => K.nil
  | a :: l => repv.cons a (mk_list K l)

/-! ## Predicates of the verification -/

/-- The number of structures whose EXCLUSION flag is clear. -/
def free_count (st : State) : Nat := st.structs.countP (fun S => !S.exclusion)

/-- The lookups write to the cache only. -/
def cache_only (st st2 : State) : Prop :=
  st2.structs = st.structs ∧ st2.nodes = st.nodes ∧ st2.rep_structure = st.rep_structure ∧
  st2.rep_default_structure = st.rep_default_structure ∧
  st2.rep_specials_structure = st.rep_specials_structure ∧
  st2.rep_structures_structure = st.rep_structures_structure

/-- What a terminating lookup guarantees: a result, a state that differs from
the one before in the cache only, and the same state when nothing was found. -/
def lookup_ok (st : State) (res : Option (State × Option Nat)) : Prop :=
  ∃ st2 r, res = some (st2, r) ∧ cache_only st st2 ∧ (r = none → st2 = st)

/-- Whatever `look` returns, `look2` returns too. -/
def look_le (look look2 : State → repv → Option (State × Option Nat)) : Prop :=
  ∀ st nm r, look st nm = some r → look2 st nm = some r

/-- The outcome of `external-structure-ref` once `lookup_recursively` has
returned. -/
def external_result (st : State) : Option (State × Option Nat) → Except Err repv × State
  | some (st1, some n) =>
    if !rep_VOIDP (st1.node n).binding then (.ok (st1.node n).binding, st1)
    else (.error Err.void_value, st1)
  | some (st1, none) => (.error Err.void_value, st1)
  | none => (.error Err.out_of_fuel, st)

/-- Every line of the cache is empty. -/
def cache_empty (st : State) : Prop := ∀ l ∈ st.ref_cache, l.s = none

instance (st : State) : Decidable (cache_empty st) := by unfold cache_empty; infer_instance

/-- The result of the lookup of `var` under the name `nm`, in state `st`. -/
def found_under (K : Statics) (fuel : Nat) (st : State) (var : repv) (nm : repv) : Option Nat :=
  (lookup_recursively K fuel st nm var).bind Prod.snd

/-- A line of the cache is sound when a resolution of its structure and
symbol that starts from an empty cache returns its record. -/
def line_sound (K : Statics) (st : State) (l : cache_line) : Prop :=
  match l.s with
  | none => True
  | some s =>
    (rep_search_imports K st.fuel (cache_flush st) s (st.node l.n).symbol).map Prod.snd
      = some (some l.n)

instance (K : Statics) (st : State) (l : cache_line) : Decidable (line_sound K st l) := by
  unfold line_sound
  cases l.s <;> infer_instance

/-- Cache soundness: every populated line is sound. -/
def cache_sound (K : Statics) (st : State) : Prop := ∀ l ∈ st.ref_cache, line_sound K st l

instance (K : Statics) (st : State) : Decidable (cache_sound K st) := by
  unfold cache_sound; infer_instance

/-! ## Concrete scenarios -/

/-- The state after `rep_pre_structures_init`, for the concrete interpreter:
the default structure is at 0, the structure of the specials at 1 and the
registry at 2. -/
def boot : State := rep_pre_structures_init K0 zero_state

/-- The symbol `x` of the scenarios. -/
def sym_x : repv := repv.symbol 1600

def sym_S : repv := repv.symbol 160
def sym_X : repv := repv.symbol 176
def sym_P : repv := repv.symbol 192
def sym_T : repv := repv.symbol 208
def sym_M : repv := repv.symbol 224
def sym_Q : repv := repv.symbol 240

/-- A cyclic import graph.  `S` (3) opens `X`; `X` (4) opens `P` and `M`; `P` (5)
opens `X` and `T`; `T` (6) opens `P` and `Q`; `X`, `P` and `T` have the
interface `(x)` and no binding of `x`; `M` (7) binds `x` to 1 and `Q` (8) binds
`x` to 2, both exported. -/
def cyc_ops : List Op :=
  [ .name_structure (repv.struct 0) (repv.symbol K0.Qrep),
    .name_structure (repv.struct 1) (repv.symbol K0.Q_specials),
    .name_structure (repv.struct 2) (repv.symbol K0.Q_structures),
    .make_structure K0.nil K0.nil K0.nil sym_S,
    .make_structure (mk_list K0 [sym_x]) K0.nil K0.nil sym_X,
    .make_structure (mk_list K0 [sym_x]) K0.nil K0.nil sym_P,
    .make_structure (mk_list K0 [sym_x]) K0.nil K0.nil sym_T,
    .make_structure (mk_list K0 [sym_x]) K0.nil K0.nil sym_M,
    .make_structure (mk_list K0 [sym_x]) K0.nil K0.nil sym_Q,
    .structure_set (repv.struct 7) sym_x (repv.other 1),
    .structure_set (repv.struct 8) sym_x (repv.other 2),
    .push_structure sym_X, .open_structures (mk_list K0 [sym_M, sym_P]),
    .push_structure sym_P, .open_structures (mk_list K0 [sym_T, sym_X]),
    .push_structure sym_T, .open_structures (mk_list K0 [sym_Q, sym_P]),
    .push_structure sym_S, .open_structures (mk_list K0 [sym_X]) ]

def cyc_state : State := run K0 boot cyc_ops

/-- The cyclic graph after `structure-ref (T, x)`, which enters `(T, x)` in the
cache. -/
def warm_state : State := run K0 boot (cyc_ops ++ [.structure_ref (repv.struct 6) sym_x])

def sym_A : repv := repv.symbol 256
def sym_B : repv := repv.symbol 272
def sym_C : repv := repv.symbol 288

/-- A re-export through EXPORT_ALL.  `A` (3) gets an exported binding of `x`
from `rep_add_subr`; `C` (4) opens `A` and exports everything; `B` (5) opens
`C`; `structure-ref (B, x)` enters `(B, x)` in the cache; `A` is current. -/
def reexport_ops : List Op :=
  [ .name_structure (repv.struct 0) (repv.symbol K0.Qrep),
    .name_structure (repv.struct 1) (repv.symbol K0.Q_specials),
    .name_structure (repv.struct 2) (repv.symbol K0.Q_structures),
    .make_structure K0.nil K0.nil K0.nil sym_A,
    .make_structure K0.nil K0.nil K0.nil sym_C,
    .make_structure K0.nil K0.nil K0.nil sym_B,
    .push_structure sym_A, .add_subr sym_x (repv.other 7) true,
    .push_structure sym_C, .open_structures (mk_list K0 [sym_A]),
    .structure_exports_all (repv.struct 4) (repv.symbol K0.Qt),
    .push_structure sym_B, .open_structures (mk_list K0 [sym_C]),
    .structure_ref (repv.struct 5) sym_x,
    .push_structure sym_A ]

def reexport_state : State := run K0 boot reexport_ops

/-- A constant record in the registry.  The registry (2) is made current, `A`
(3) is made under the name `A`, and the binding of `A` in the current
structure, which is the record of the registry, is made immutable. -/
def const_ops : List Op :=
  [ .name_structure (repv.struct 0) (repv.symbol K0.Qrep),
    .name_structure (repv.struct 1) (repv.symbol K0.Q_specials),
    .name_structure (repv.struct 2) (repv.symbol K0.Q_structures),
    .push_structure (repv.symbol K0.Q_structures),
    .make_structure K0.nil K0.nil K0.nil sym_A,
    .make_binding_immutable sym_A ]

def const_state : State := run K0 boot const_ops

/-- A shadowing binding.  `A` (3) exports its binding of `x`; `B` (4) binds `x`
without exporting it, then exports everything and opens `A`. -/
def shadow_ops : List Op :=
  [ .name_structure (repv.struct 0) (repv.symbol K0.Qrep),
    .name_structure (repv.struct 1) (repv.symbol K0.Q_specials),
    .name_structure (repv.struct 2) (repv.symbol K0.Q_structures),
    .make_structure (mk_list K0 [sym_x]) K0.nil K0.nil sym_A,
    .structure_set (repv.struct 3) sym_x (repv.other 1),
    .make_structure K0.nil K0.nil K0.nil sym_B,
    .structure_set (repv.struct 4) sym_x (repv.other 2),
    .structure_exports_all (repv.struct 4) (repv.symbol K0.Qt),
    .push_structure sym_B, .open_structures (mk_list K0 [sym_A]) ]

def shadow_state : State := run K0 boot shadow_ops

/-! ## Further scenarios and predicates -/

def sym_f : repv := repv.symbol 320

/-- An inherited list of features.  `A` (3) has the interface `(features)` and
provides `f`; `B` (4) opens `A`, is current, and has no binding of its own. -/
def feature_ops : List Op :=
  [ .name_structure (repv.struct 0) (repv.symbol K0.Qrep),
    .name_structure (repv.struct 1) (repv.symbol K0.Q_specials),
    .name_structure (repv.struct 2) (repv.symbol K0.Q_structures),
    .make_structure (mk_list K0 [repv.symbol K0.Qfeatures]) K0.nil K0.nil sym_A,
    .push_structure sym_A, .provide sym_f,
    .make_structure K0.nil K0.nil K0.nil sym_B,
    .push_structure sym_B, .open_structures (mk_list K0 [sym_A]) ]

def feature_state : State := run K0 boot feature_ops

/-- The registry is named and the default structure `rep` (0) is current. -/
def named_ops : List Op :=
  [ .name_structure (repv.struct 0) (repv.symbol K0.Qrep),
    .name_structure (repv.struct 1) (repv.symbol K0.Q_specials),
    .name_structure (repv.struct 2) (repv.symbol K0.Q_structures),
    .push_structure (repv.symbol K0.Qrep) ]

def named_state : State := run K0 boot named_ops

/-- Two structures `A` (3) and `B` (4) are registered and `rep` (0) is current. -/
def two_ops : List Op :=
  named_ops ++
  [ .make_structure K0.nil K0.nil K0.nil sym_A,
    .make_structure K0.nil K0.nil K0.nil sym_B ]

def two_state : State := run K0 boot two_ops

/-- The imports after `open-structures` of `names`, all of them registered
structures, when the imports were `old`: each name that is not yet in the list
goes to its front. -/
def open_imports (old : List repv) (names : List repv) : List repv :=
  names.foldl (fun acc a => if a ∈ acc then acc else a :: acc) old

/-- The current structure `rep` (0) binds `features` to a value that is not a
list. -/
def badfeat_ops : List Op :=
  named_ops ++ [ .structure_set (repv.struct 0) (repv.symbol K0.Qfeatures) (repv.other 42) ]

def badfeat_state : State := run K0 boot badfeat_ops

/-- A property of states that the lookups keep: `enter_cache` keeps it and the
stores to the EXCLUSION flag keep it. -/
def lookup_stable (P : State → Prop) : Prop :=
  (∀ st s n, P st → P (enter_cache st s n)) ∧ (∀ st p b, P st → P (st.set_exclusion p b))

/-- A result of a lookup of `x`: the state it leaves has `P`, and a node it
returns is a record of `x`. -/
def lookup_good (P : State → Prop) (x : repv) (res : Option (State × Option Nat)) : Prop :=
  ∀ st2 r, res = some (st2, r) → P st2 ∧ ∀ n, r = some n → (st2.node n).symbol = x

/-- A loader for a file of bare code: each load allocates one
anonymous structure and returns `nil`, which is not a structure. -/
def K_plain : Statics :=
  { K0 with
    Fload := fun st _ => (.ok K0.nil, (F_make_structure K0 st K0.nil K0.nil K0.nil K0.nil).2) }

/-- An evaluator whose functions of two arguments return `nil` and change
nothing. -/
def K_ok : Statics := { K0 with rep_call_lisp2 := fun st _ _ _ => (.ok K0.nil, st) }

/-- An evaluator whose functions of two arguments bind `z` to 9 in
the structure `rep` (0) and return `nil`. -/
def K_grow (z : repv) : Statics :=
  { K0 with rep_call_lisp2 := fun st _ _ _ =>
      (.ok K0.nil, (F_structure_set K0 st (repv.struct 0) z (repv.other 9)).2) }

def sym_y : repv := repv.symbol 1608
def sym_z : repv := repv.symbol 1664
def sym_w : repv := repv.symbol 1616

/-- The structure `rep` (0) binds `x` to 1 and has a record of `y` whose binding
is void. -/
def walk_ops : List Op :=
  named_ops ++ [ .structure_set (repv.struct 0) sym_x (repv.other 1),
    .structure_set (repv.struct 0) sym_y repv.void ]

def walk_state : State := run K0 boot walk_ops

/-- The calls `structure-walk` owes to the nodes `l`, read in the state `st`:
one for each node whose binding is not void, with its symbol and binding. -/
def walk_calls (st : State) (l : List Nat) : List (repv × repv) :=
  (l.filter (fun n => !rep_VOIDP (st.node n).binding)).map
    (fun n => ((st.node n).symbol, (st.node n).binding))

/-- A well formed binding table, on the data it is made of: the chains `B`,
the symbol `sym n` of each node, the size `len` of the node heap and the
inherited list `inh`.  Every node is in the chain its symbol hashes to, no two
records have the same symbol, every node is a node of the heap, and no record
has a symbol of the inherited list. -/
def tbl_ok (K : Statics) (sym : Nat → repv) (len : Nat) (B : List (List Nat))
    (inh : List repv) : Prop :=
  (∀ i n, n ∈ B.getD i [] → rep_STRUCT_HASH K (sym n) B.length = i) ∧
  (B.flatten.map sym).Nodup ∧
  (∀ n ∈ B.flatten, n < len) ∧
  (∀ n ∈ B.flatten, sym n ∉ inh)

/-- The binding table of the structure at `p` is well formed. -/
def table_wf (K : Statics) (st : State) (p : Nat) : Prop :=
  tbl_ok K (fun n => (st.node n).symbol) st.nodes.length (st.cell p).buckets
    (st.cell p).inherited

/-- Every binding table of the state is well formed. -/
def wf (K : Statics) (st : State) : Prop := ∀ p, table_wf K st p

/-- The external parts keep the property `P` of states. -/
def externals_keep (K : Statics) (P : State → Prop) : Prop :=
  (∀ st name, P st → P (K.Fload st name).2) ∧
  (∀ st thunk home, P st → P (K.rep_call_lisp0 st thunk home).2) ∧
  (∀ st fn a b, P st → P (K.rep_call_lisp2 st fn a b).2)

/-- The structure `A` (3) is made with the interface `(x y)`, and `x` is bound in
it afterwards. -/
def iface_ops : List Op :=
  named_ops ++
  [ .make_structure (mk_list K0 [sym_x, sym_y]) K0.nil K0.nil sym_A,
    .structure_set (repv.struct 3) sym_x (repv.other 1),
    .structure_set (repv.struct 3) sym_z (repv.other 2) ]

def iface_state : State := run K0 boot iface_ops

/-! ## The resolver with the list of the structures it enters -/

/-- The loop of `rep_search_imports` (`search_loop`), where a lookup also
returns the list of the entries it made. -/
def search_loop_tr (look : State → repv → Option (State × Option Nat × List (List Nat × Nat)))
    (s : Nat) : State → List repv → Option (State × Option Nat × List (List Nat × Nat))
  | st, [] => some (st, none, [])
  | st, name :: imports =>
    match look st name with
    | none => none
    | some (st1, some n, tr) => some (enter_cache st1 s n, some n, tr)
    | some (st1, none, tr) =>
      (search_loop_tr look s st1 imports).map (fun r => (r.1, r.2.1, tr ++ r.2.2))

/-- The body of `rep_search_imports` (`search_imports_with`), with the entries made. -/
def search_imports_tr (look : State → repv → Option (State × Option Nat × List (List Nat × Nat)))
    (st : State) (s : Nat) (var : repv) : Option (State × Option Nat × List (List Nat × Nat)) :=
  match lookup_cache st s var with
  | some n => some (st, some n, [])
  | none => search_loop_tr look s st (st.cell s).imports

/-- The end of `lookup_recursively` (`clear_exclusion`), with the entries made. -/
def clear_exclusion_tr (p : Nat) :
    Option (State × Option Nat × List (List Nat × Nat)) →
      Option (State × Option Nat × List (List Nat × Nat))
  | none => none
  | some (st, n, tr) => some (st.set_exclusion p false, n, tr)

/-- The search below the structure at `p` (`search_inherited`), with the
entries made. -/
def search_inherited_tr
    (look : State → repv → Option (State × Option Nat × List (List Nat × Nat)))
    (st : State) (p : Nat) (var : repv) : Option (State × Option Nat × List (List Nat × Nat)) :=
  clear_exclusion_tr p
    (if structure_exports_inherited_p ((st.set_exclusion p true).cell p) var then
      search_imports_tr look (st.set_exclusion p true) p var
    else some (st.set_exclusion p true, none, []))

/-- The body of `lookup_recursively` (`lookup_recursively_with`), with the
entries made.  A call enters the structure at `p` when the name is registered to
it and its EXCLUSION flag is clear; the entry is listed with `path`, the
structures whose search is in progress, innermost first.  The nested calls get
the structure entered as the first argument of `look`. -/
def lookup_recursively_with_tr (K : Statics)
    (look : Nat → State → repv → Option (State × Option Nat × List (List Nat × Nat)))
    (path : List Nat) (st : State) (name var : repv) :
    Option (State × Option Nat × List (List Nat × Nat)) :=
  match F_get_structure K st name with
  | .ok (.struct p) =>
    if (st.cell p).exclusion then some (st, none, [])
    else
      match lookup K st (st.cell p) var with
      | some n => some (st, if (st.node n).is_exported then some n else none, [(path, p)])
      | none =>
        (search_inherited_tr (look p) st p var).map (fun r => (r.1, r.2.1, (path, p) :: r.2.2))
  | _ => some (st, none, [])

/-- The function `lookup_recursively (name, var)` with at most `fuel` nested
calls, with the entries made: each is a pair of the structures whose search was
in progress and the structure entered. -/
def lookup_recursively_tr (K : Statics) :
    Nat → List Nat → State → repv → repv → Option (State × Option Nat × List (List Nat × Nat))
  | 0, _, _, _, _ => none
  | fuel + 1, path, st, name, var =>
    lookup_recursively_with_tr K
      (fun p st2 nm => lookup_recursively_tr K fuel (p :: path) st2 nm var) path st name var

/-- The function `rep_search_imports (s, var)` with the entries made. -/
def rep_search_imports_tr (K : Statics) (fuel : Nat) (st : State) (s : Nat) (var : repv) :
    Option (State × Option Nat × List (List Nat × Nat)) :=
  search_imports_tr (fun st2 nm => lookup_recursively_tr K fuel [] st2 nm var) st s var

/-- Forget the entries. -/
def untrace (r : Option (State × Option Nat × List (List Nat × Nat))) :
    Option (State × Option Nat) :=
  r.map (fun q => (q.1, q.2.1))

/-- The structures entered, in the order of the entries. -/
def entered (r : Option (State × Option Nat × List (List Nat × Nat))) : Option (List Nat) :=
  r.map (fun q => q.2.2.map Prod.snd)

/-- What the entries of a lookup that starts while the structures of `path` are
searched satisfy: the lookup returns, it changes the cache only, and every entry
is into a structure that is not among those whose search is in progress, which
are pairwise distinct. -/
def entries_ok (st : State) (r : Option (State × Option Nat × List (List Nat × Nat))) : Prop :=
  ∃ st1 n tr, r = some (st1, n, tr) ∧ cache_only st st1 ∧ (n = none → st1 = st) ∧
    ∀ v ∈ tr, v.2 ∉ v.1 ∧ v.1.Nodup

/-- Every structure of `path` is a structure whose EXCLUSION flag is set. -/
def flags_set (st : State) (path : List Nat) : Prop :=
  path.Nodup ∧ ∀ q ∈ path, (st.cell q).exclusion = true

def sym_D : repv := repv.symbol 304

/-- A diamond.  `S` (3) opens `A` and `B`; `A` (4) and `B` (5) open `D` (6); `S`,
`A` and `B` have the interface `(x)`; no structure binds `x`. -/
def diamond_ops : List Op :=
  [ .name_structure (repv.struct 0) (repv.symbol K0.Qrep),
    .name_structure (repv.struct 1) (repv.symbol K0.Q_specials),
    .name_structure (repv.struct 2) (repv.symbol K0.Q_structures),
    .make_structure (mk_list K0 [sym_x]) K0.nil K0.nil sym_S,
    .make_structure (mk_list K0 [sym_x]) K0.nil K0.nil sym_A,
    .make_structure (mk_list K0 [sym_x]) K0.nil K0.nil sym_B,
    .make_structure K0.nil K0.nil K0.nil sym_D,
    .push_structure sym_A, .open_structures (mk_list K0 [sym_D]),
    .push_structure sym_B, .open_structures (mk_list K0 [sym_D]),
    .push_structure sym_S, .open_structures (mk_list K0 [sym_B, sym_A]) ]

def diamond_state : State := run K0 boot diamond_ops

/-! ## Invariants of the reachable states -/

/-- What makes a property `P` of states an invariant of the engine: the steps
that the operations are made of keep it.  These are a change of the roots, the
flush of the cache, a store to a structure cell that keeps the binding table, a
store to a node that keeps the symbol, the allocation of a structure with an
empty table, `lookup_or_add`, `enter_cache` for a record of a symbol, and the
external parts. -/
structure Kit (K : Statics) (P : State → Prop) : Prop where
  roots : ∀ st st2 : State, st2.structs = st.structs → st2.nodes = st.nodes →
    st2.ref_cache = st.ref_cache → P st → P st2
  flush : ∀ st, P st → P (cache_flush st)
  cell : ∀ st p (S : rep_struct), S.buckets = (st.cell p).buckets →
    S.total_bindings = (st.cell p).total_bindings → P st → P (st.set_cell p S)
  node : ∀ st n (N : rep_struct_node), N.symbol = (st.node n).symbol → P st → P (st.set_node n N)
  alloc : ∀ st (S : rep_struct), S.buckets = [] → S.total_bindings = 0 → P st →
    P (st.alloc_struct S)
  add : ∀ st s x, P st → P (lookup_or_add K st s x).1
  enter : ∀ st s n x, rep_SYMBOLP x = true → (st.node n).symbol = x → P st →
    P (enter_cache st s n)
  externals : externals_keep K P

/-- The sizes of a binding table: `total_bindings` counts the records, the number
of buckets is 0 or `MIN_BUCKETS` times a power of two, it is 0 exactly when
there is no record, and there is at most one record more than `MAX_MULTIPLIER`
for each bucket. -/
def size_ok (S : rep_struct) : Prop :=
  S.total_bindings = S.buckets.flatten.length ∧
  (S.buckets.length = 0 ∨ ∃ k, S.buckets.length = MIN_BUCKETS * 2 ^ k) ∧
  (S.buckets.length = 0 ↔ S.total_bindings = 0) ∧
  S.total_bindings ≤ S.buckets.length * MAX_MULTIPLIER + 1

/-- Every binding table of the state has the sizes of `size_ok`. -/
def sized (st : State) : Prop := ∀ p, size_ok (st.cell p)

/-- No structure has fewer buckets in `st` than in `st0`. -/
def grows_from (st0 st : State) : Prop :=
  ∀ p, (st0.cell p).buckets.length ≤ (st.cell p).buckets.length

/-- Seventeen bindings in one structure.  `A` (3) is made and then
`structure-set` binds seventeen symbols in it, at the addresses 4096, 4112, ...,
4352. -/
def load_ops : List Op :=
  named_ops ++ [ .make_structure K0.nil K0.nil K0.nil sym_A ] ++
  (List.range 17).map (fun i => Op.structure_set (repv.struct 3) (repv.symbol (4096 + 16 * i))
    (repv.other i))

def load_state : State := run K0 boot load_ops

/-- Every populated line of the cache holds a node of the heap whose symbol
hashes to the index of the line. -/
def cache_ok (st : State) : Prop :=
  ∀ i, (st.line i).s ≠ none →
    (st.line i).n < st.nodes.length ∧ CACHE_HASH (st.node (st.line i).n).symbol = i

/-! ## Lists -/

theorem getD_set_eq {α} (l : List α) (i : Nat) (a d : α) (h : i < l.length) :
    (l.set i a).getD i d = a := by
  simp [List.getD_eq_getElem?_getD, List.getElem?_set, h]

theorem getD_set_ne {α} (l : List α) (i j : Nat) (a d : α) (h : i ≠ j) :
    (l.set i a).getD j d = l.getD j d := by
  simp [List.getD_eq_getElem?_getD, List.getElem?_set, h]

theorem getD_append_length {α} (l : List α) (a d : α) :
    (l ++ [a]).getD l.length d = a := by
  simp [List.getD_eq_getElem?_getD]

theorem getD_append_lt {α} (l : List α) (a d : α) (i : Nat) (h : i < l.length) :
    (l ++ [a]).getD i d = l.getD i d := by
  simp [List.getD_eq_getElem?_getD, List.getElem?_append_left h]

theorem getD_ge {α} (l : List α) (d : α) (i : Nat) (h : l.length ≤ i) :
    l.getD i d = d := by
  simp [List.getD_eq_getElem?_getD, List.getElem?_eq_none h]

theorem set_getD_self {α} (l : List α) (p : Nat) (d : α) : l.set p (l.getD p d) = l := by
  induction l generalizing p with
  | nil => rfl
  | cons a l ih =>
    cases p with
    | zero => rfl
    | succ p => simp only [List.set, List.getD_cons_succ, ih]

/-! ## Heap accesses -/

theorem node_invalid {st : State} {n : Nat} (h : st.nodes.length ≤ n) : st.node n = default :=
  getD_ge _ _ _ h

theorem cell_invalid {st : State} {p : Nat} (h : st.structs.length ≤ p) : st.cell p = default :=
  getD_ge _ _ _ h

theorem cell_set_cell_eq {st : State} {p : Nat} (S : rep_struct) (h : p < st.structs.length) :
    (st.set_cell p S).cell p = S :=
  getD_set_eq _ _ _ _ h

theorem cell_set_cell_ne {st : State} {p q : Nat} (S : rep_struct) (h : p ≠ q) :
    (st.set_cell p S).cell q = st.cell q :=
  getD_set_ne _ _ _ _ _ h

theorem node_set_node_eq {st : State} {n : Nat} (N : rep_struct_node) (h : n < st.nodes.length) :
    (st.set_node n N).node n = N :=
  getD_set_eq _ _ _ _ h

theorem node_set_node_ne {st : State} {n m : Nat} (N : rep_struct_node) (h : n ≠ m) :
    (st.set_node n N).node m = st.node m :=
  getD_set_ne _ _ _ _ _ h

/-- A store to a node that keeps its symbol keeps the symbol of every node. -/
theorem symbol_set_node {st : State} {n : Nat} (N : rep_struct_node)
    (h : N.symbol = (st.node n).symbol) (m : Nat) :
    ((st.set_node n N).node m).symbol = (st.node m).symbol := by
  by_cases hm : n = m
  · subst hm
    by_cases hl : n < st.nodes.length
    · rw [node_set_node_eq N hl, h]
    · have h1 : (st.set_node n N).nodes.length ≤ n := by
        simp only [State.set_node, List.length_set]; omega
      rw [node_invalid h1, node_invalid (Nat.le_of_not_lt hl)]
  · rw [node_set_node_ne N hm]

/-- The default node has no symbol: a node whose symbol is a symbol is in the heap. -/
theorem symbol_node_valid {st : State} {var : repv} {n : Nat}
    (hv : rep_SYMBOLP var = true) (h : (st.node n).symbol = var) : n < st.nodes.length := by
  by_contra hn
  rw [node_invalid (Nat.le_of_not_lt hn)] at h
  rw [← h] at hv
  cases hv

theorem cell_alloc_struct_lt (st : State) (S : rep_struct) {q : Nat}
    (h : q < st.structs.length) : (st.alloc_struct S).cell q = st.cell q :=
  getD_append_lt _ _ _ _ h

theorem cell_alloc_struct_last (st : State) (S : rep_struct) :
    (st.alloc_struct S).cell st.structs.length = S :=
  getD_append_length _ _ _

/-! ## The binding table -/

theorem rehash_chain_length (K : Statics) (st : State) (nt : Nat) (c : List Nat) :
    ∀ b : List (List Nat), (rehash_chain K st nt b c).length = b.length := by
  induction c with
  | nil => intro b; rfl
  | cons n rest ih => intro b; simp only [rehash_chain, ih, List.length_set]

theorem rehash_length (K : Statics) (st : State) (nt : Nat) (old : List (List Nat)) :
    (rehash K st nt old).length = nt := by
  have key : ∀ (old b : List (List Nat)),
      (old.foldl (rehash_chain K st nt) b).length = b.length := by
    intro old
    induction old with
    | nil => intro b; rfl
    | cons c rest ih => intro b; simp only [List.foldl, ih, rehash_chain_length]
  unfold rehash
  rw [key, List.length_replicate]

theorem alloc_buckets_pos (S : rep_struct) : 0 < (alloc_buckets S).buckets.length := by
  unfold alloc_buckets
  split
  · simp [MIN_BUCKETS]
  · omega

theorem double_buckets_pos (K : Statics) (st : State) (S : rep_struct)
    (h : 0 < S.buckets.length) : 0 < (double_buckets K st S).buckets.length := by
  unfold double_buckets
  split
  · simp only [rehash_length]; omega
  · exact h

theorem cache_invalidate_symbol_nodes (st : State) (x : repv) :
    (cache_invalidate_symbol st x).nodes = st.nodes := by
  unfold cache_invalidate_symbol; dsimp only; split <;> rfl

theorem cache_invalidate_symbol_structs (st : State) (x : repv) :
    (cache_invalidate_symbol st x).structs = st.structs := by
  unfold cache_invalidate_symbol; dsimp only; split <;> rfl

theorem chain_find_some {st : State} {var : repv} {c : List Nat} {n : Nat}
    (h : chain_find st var c = some n) : (st.node n).symbol = var := by
  induction c with
  | nil => cases h
  | cons m rest ih =>
    unfold chain_find at h
    split at h
    · cases h; assumption
    · exact ih h

theorem lookup_some {K : Statics} {st : State} {S : rep_struct} {var : repv}
    {n : Nat} (h : lookup K st S var = some n) : (st.node n).symbol = var := by
  unfold lookup at h
  split at h
  · exact chain_find_some h
  · cases h

theorem chain_find_congr {st st2 : State} (var : repv)
    (h : ∀ m, (st2.node m).symbol = (st.node m).symbol) (c : List Nat) :
    chain_find st2 var c = chain_find st var c := by
  induction c with
  | nil => rfl
  | cons m rest ih => simp only [chain_find, h, ih]

/-- The function `lookup` reads the buckets of the structure and the symbols of the nodes only. -/
theorem lookup_congr (K : Statics) {st st2 : State} {S S2 : rep_struct} (var : repv)
    (h : ∀ m, (st2.node m).symbol = (st.node m).symbol) (hb : S2.buckets = S.buckets) :
    lookup K st2 S2 var = lookup K st S var := by
  unfold lookup
  rw [hb, chain_find_congr var h]

theorem lookup_or_add_found {K : Statics} {st : State} {s : Nat} {var : repv} {n : Nat}
    (h : lookup K st (st.cell s) var = some n) : lookup_or_add K st s var = (st, n) := by
  unfold lookup_or_add; rw [h]

theorem migrate_export_buckets (S : rep_struct) (var : repv) :
    (migrate_export S var).buckets = S.buckets := by
  unfold migrate_export; split <;> rfl

theorem rep_STRUCT_HASH_lt (K : Statics) (x : repv) {n : Nat} (h : 0 < n) :
    rep_STRUCT_HASH K x n < n :=
  Nat.mod_lt _ h

theorem link_node_length (K : Statics) (S : rep_struct) (n : Nat) (var : repv) :
    (link_node K S n var).buckets.length = S.buckets.length := by
  simp only [link_node, List.length_set]

theorem link_node_chain (K : Statics) (S : rep_struct) (n : Nat) (var : repv)
    (h : 0 < S.buckets.length) :
    (link_node K S n var).buckets.getD (rep_STRUCT_HASH K var S.buckets.length) []
      = n :: S.buckets.getD (rep_STRUCT_HASH K var S.buckets.length) [] := by
  simp only [link_node]
  exact getD_set_eq _ _ _ _ (rep_STRUCT_HASH_lt K var h)

/-- A miss of `lookup_or_add` allocates the node at the end of the heap, with
the symbol `var` and not constant, and `lookup` finds it afterwards. -/
theorem lookup_or_add_new {K : Statics} {st : State} {s : Nat} {var : repv}
    (h : lookup K st (st.cell s) var = none) (hs : s < st.structs.length) :
    (lookup_or_add K st s var).2 = st.nodes.length ∧
    (lookup_or_add K st s var).1.nodes.length = st.nodes.length + 1 ∧
    ((lookup_or_add K st s var).1.node st.nodes.length).symbol = var ∧
    ((lookup_or_add K st s var).1.node st.nodes.length).is_constant = false ∧
    lookup K (lookup_or_add K st s var).1 ((lookup_or_add K st s var).1.cell s) var
      = some st.nodes.length := by
  unfold lookup_or_add; rw [h]
  dsimp only
  have hn : ∀ N S, ((cache_invalidate_symbol ((st.set_cell s S).alloc_node N) var).node
      st.nodes.length) = N := by
    intro N S
    simp only [State.node, cache_invalidate_symbol_nodes, State.alloc_node, State.set_cell]
    exact getD_append_length _ _ _
  have hc : ∀ N S, ((cache_invalidate_symbol ((st.set_cell s S).alloc_node N) var).cell s) = S := by
    intro N S
    simp only [State.cell, cache_invalidate_symbol_structs, State.alloc_node, State.set_cell]
    exact getD_set_eq _ _ _ _ hs
  refine ⟨rfl, ?_, ?_, ?_, ?_⟩
  · simp [cache_invalidate_symbol_nodes, State.alloc_node, State.set_cell]
  · rw [hn]; rfl
  · rw [hn]; rfl
  · rw [hc]
    have hpos := double_buckets_pos K st _ (alloc_buckets_pos (st.cell s))
    unfold lookup
    rw [migrate_export_buckets, link_node_length, link_node_chain K _ _ _ hpos,
      if_pos (by omega)]
    unfold chain_find
    rw [hn]
    exact if_pos rfl

/-- After `lookup_or_add`, `lookup` finds the node it returned, and that node
is in the heap. -/
theorem lookup_or_add_lookup (K : Statics) (st : State) {s : Nat} {var : repv}
    (hs : s < st.structs.length) (hv : rep_SYMBOLP var = true) :
    lookup K (lookup_or_add K st s var).1 ((lookup_or_add K st s var).1.cell s) var
      = some (lookup_or_add K st s var).2 ∧
    (lookup_or_add K st s var).2 < (lookup_or_add K st s var).1.nodes.length := by
  cases h : lookup K st (st.cell s) var with
  | some n =>
    rw [lookup_or_add_found h]
    exact ⟨h, symbol_node_valid hv (lookup_some h)⟩
  | none =>
    obtain ⟨h1, h2, -, -, h5⟩ := lookup_or_add_new h hs
    rw [h1, h2]
    exact ⟨h5, Nat.lt_succ_self _⟩

/-- The node `lookup_or_add` returns is constant only if it was there before
and constant. -/
theorem lookup_or_add_constant {K : Statics} {st : State} {s : Nat} {var : repv}
    (hc : ((lookup_or_add K st s var).1.node (lookup_or_add K st s var).2).is_constant = true) :
    lookup_or_add K st s var = (st, (lookup_or_add K st s var).2) ∧
    lookup K st (st.cell s) var = some (lookup_or_add K st s var).2 := by
  cases h : lookup K st (st.cell s) var with
  | some n => rw [lookup_or_add_found h]; exact ⟨rfl, rfl⟩
  | none =>
    exfalso
    unfold lookup_or_add at hc
    rw [h] at hc
    dsimp only at hc
    simp only [State.node, cache_invalidate_symbol_nodes, State.alloc_node, State.set_cell] at hc
    rw [getD_append_length] at hc
    cases hc

theorem alloc_buckets_name (S : rep_struct) : (alloc_buckets S).name = S.name := by
  unfold alloc_buckets; split <;> rfl

theorem double_buckets_name (K : Statics) (st : State) (S : rep_struct) :
    (double_buckets K st S).name = S.name := by
  unfold double_buckets; split <;> rfl

theorem migrate_export_name (S : rep_struct) (x : repv) :
    (migrate_export S x).name = S.name := by
  unfold migrate_export; split <;> rfl

/-- The call `lookup_or_add (s, x)` keeps the size of the structure heap, every
structure but `s`, the name of `s`, the nodes that were there, and the roots. -/
theorem lookup_or_add_frame (K : Statics) (st : State) (s : Nat) (x : repv) :
    (lookup_or_add K st s x).1.structs.length = st.structs.length ∧
    (∀ q, q ≠ s → (lookup_or_add K st s x).1.cell q = st.cell q) ∧
    ((lookup_or_add K st s x).1.cell s).name = (st.cell s).name ∧
    (∀ m, m < st.nodes.length → (lookup_or_add K st s x).1.node m = st.node m) ∧
    (lookup_or_add K st s x).1.rep_structures_structure = st.rep_structures_structure := by
  cases h : lookup K st (st.cell s) x with
  | some n => rw [lookup_or_add_found h]; exact ⟨rfl, fun _ _ => rfl, rfl, fun _ _ => rfl, rfl⟩
  | none =>
    unfold lookup_or_add
    rw [h]
    dsimp only
    refine ⟨?_, ?_, ?_, ?_, ?_⟩
    · simp only [cache_invalidate_symbol_structs, State.alloc_node, State.set_cell,
        List.length_set]
    · intro q hq
      simp only [State.cell, cache_invalidate_symbol_structs, State.alloc_node, State.set_cell]
      exact getD_set_ne _ _ _ _ _ (Ne.symm hq)
    · simp only [State.cell, cache_invalidate_symbol_structs, State.alloc_node, State.set_cell]
      by_cases hs : s < st.structs.length
      · rw [getD_set_eq _ _ _ _ hs, migrate_export_name]
        simp only [link_node, double_buckets_name, alloc_buckets_name]
      · rw [List.set_eq_of_length_le (Nat.le_of_not_lt hs)]
    · intro m hm
      simp only [State.node, cache_invalidate_symbol_nodes, State.alloc_node, State.set_cell]
      exact getD_append_lt _ _ _ _ hm
    · unfold cache_invalidate_symbol
      dsimp only
      split <;> rfl

/-! ## `structure-set` and `structure-ref` (C1, C2) -/

theorem F_structure_set_ok {K : Statics} {st st2 : State} {s : Nat} {x v r : repv}
    (h : F_structure_set K st (repv.struct s) x v = (.ok r, st2)) :
    rep_SYMBOLP x = true ∧ r = v ∧
    ((lookup_or_add K st s x).1.node (lookup_or_add K st s x).2).is_constant = false ∧
    st2 = (lookup_or_add K st s x).1.set_node (lookup_or_add K st s x).2
      { (lookup_or_add K st s x).1.node (lookup_or_add K st s x).2 with binding := v } := by
  unfold F_structure_set at h
  dsimp only at h
  split at h
  · rename_i hx
    split at h
    · rename_i hc
      simp only [Prod.mk.injEq, Except.ok.injEq] at h
      simp only [Bool.not_eq_true', ] at hc
      exact ⟨hx, h.1.symm, hc, h.2.symm⟩
    · simp at h
  · simp at h

/-- The call `structure-set (s, x, v)` on a structure of the state, for a symbol whose
record is not constant: it returns `v`; afterwards `lookup` finds a record for
`x` that holds `v` and is not constant; every other structure, the name of
`s` and the registry root are as before. -/
theorem F_structure_set_spec (K : Statics) (st : State) (s : Nat) (x v : repv)
    (hs : s < st.structs.length) (hx : rep_SYMBOLP x = true)
    (hnc : ∀ m, lookup K st (st.cell s) x = some m → (st.node m).is_constant = false) :
    ∃ st2 n, F_structure_set K st (repv.struct s) x v = (.ok v, st2) ∧
      lookup K st2 (st2.cell s) x = some n ∧
      (st2.node n).binding = v ∧ (st2.node n).is_constant = false ∧
      st2.structs.length = st.structs.length ∧
      (∀ q, q ≠ s → st2.cell q = st.cell q) ∧
      (st2.cell s).name = (st.cell s).name ∧
      st2.rep_structures_structure = st.rep_structures_structure := by
  have hconst : ((lookup_or_add K st s x).1.node (lookup_or_add K st s x).2).is_constant
      = false := by
    cases hc : ((lookup_or_add K st s x).1.node (lookup_or_add K st s x).2).is_constant with
    | false => rfl
    | true =>
      obtain ⟨h1, h2⟩ := lookup_or_add_constant hc
      rw [h1] at hc
      rw [hnc _ h2] at hc
      exact hc.symm
  obtain ⟨hl, hn⟩ := lookup_or_add_lookup K st hs hx
  obtain ⟨f1, f2, f3, -, f5⟩ := lookup_or_add_frame K st s x
  refine ⟨(lookup_or_add K st s x).1.set_node (lookup_or_add K st s x).2
      { (lookup_or_add K st s x).1.node (lookup_or_add K st s x).2 with binding := v },
    (lookup_or_add K st s x).2, ?_, ?_, ?_, ?_, f1, f2, f3, f5⟩
  · unfold F_structure_set
    simp only [hx, if_true, hconst, Bool.not_false]
  · rw [← hl]
    exact lookup_congr K x (symbol_set_node _ rfl) rfl
  · rw [node_set_node_eq _ hn]
  · rw [node_set_node_eq _ hn]
    exact hconst

/-- C1. For every structure `s` of the state, symbol `x` and value `v`: if
`structure-set (s, x, v)` succeeds it returns `v`, and `structure-ref (s, x)`
in the state it leaves returns `v`, whatever `s` imports and whatever the
cache holds. -/
theorem structure_set_then_ref (K : Statics) (st st2 : State) (s : Nat) (x v r : repv)
    (hs : s < st.structs.length)
    (h : F_structure_set K st (repv.struct s) x v = (.ok r, st2)) :
    r = v ∧ (F_structure_ref K st2 (repv.struct s) x).1 = .ok v := by
  obtain ⟨hx, hr, -, hst⟩ := F_structure_set_ok h
  obtain ⟨hl, hn⟩ := lookup_or_add_lookup K st hs hx
  refine ⟨hr, ?_⟩
  have hl2 : lookup K st2 (st2.cell s) x = some (lookup_or_add K st s x).2 := by
    rw [← hl, hst]
    exact lookup_congr K x (symbol_set_node _ rfl) rfl
  unfold F_structure_ref
  simp only [hx, if_true, hl2]
  rw [hst, node_set_node_eq _ hn]

set_option maxRecDepth 1000000 in
/-- C1 at a concrete input: in `warm_state`, where `S` imports a structure that
exports `x` and the cache holds an entry for `x`, `structure-set (S, x, 5)`
returns 5 and `structure-ref (S, x)` returns 5 afterwards. -/
theorem structure_set_then_ref_witness :
    3 < warm_state.structs.length ∧
    F_structure_set K0 warm_state (repv.struct 3) sym_x (repv.other 5)
      = (.ok (repv.other 5),
          (F_structure_set K0 warm_state (repv.struct 3) sym_x (repv.other 5)).2) ∧
    (repv.other 5 = repv.other 5 ∧
      (F_structure_ref K0 (F_structure_set K0 warm_state (repv.struct 3) sym_x (repv.other 5)).2
        (repv.struct 3) sym_x).1 = .ok (repv.other 5)) :=
  ⟨by decide, by decide,
    structure_set_then_ref K0 warm_state _ 3 sym_x (repv.other 5) (repv.other 5)
      (by decide) (by decide)⟩

/-- C2. For every structure `s` and symbol `x`: `structure-set (s, x, v)`
signals `setting_constant` exactly when `s` has a record for `x` that is
flagged constant, and then, for every `v`, it leaves the state as it was, so
that `structure-ref (s, x)` still returns the binding of that record.  No
other call of `structure-set` signals `setting_constant`. -/
theorem structure_set_constant (K : Statics) (st : State) (s : Nat) (x v : repv)
    (hx : rep_SYMBOLP x = true) :
    ((F_structure_set K st (repv.struct s) x v).1 = .error Err.setting_constant ↔
      ∃ n, lookup K st (st.cell s) x = some n ∧ (st.node n).is_constant = true) ∧
    (∀ n, lookup K st (st.cell s) x = some n → (st.node n).is_constant = true →
      F_structure_set K st (repv.struct s) x v = (.error Err.setting_constant, st) ∧
      F_structure_ref K (F_structure_set K st (repv.struct s) x v).2 (repv.struct s) x
        = (.ok (st.node n).binding, st)) ∧
    (∀ sv y w, (F_structure_set K st sv y w).1 = .error Err.setting_constant →
      ∃ p n, sv = repv.struct p ∧ rep_SYMBOLP y = true ∧
        lookup K st (st.cell p) y = some n ∧ (st.node n).is_constant = true) := by
  have fwd : ∀ n, lookup K st (st.cell s) x = some n → (st.node n).is_constant = true →
      F_structure_set K st (repv.struct s) x v = (.error Err.setting_constant, st) := by
    intro n hl hc
    unfold F_structure_set
    simp only [hx, if_true, lookup_or_add_found hl, hc, Bool.not_true, Bool.false_eq_true,
      if_false]
  have bwd : ∀ (p : Nat) (y w : repv), rep_SYMBOLP y = true →
      (F_structure_set K st (repv.struct p) y w).1 = .error Err.setting_constant →
      ∃ n, lookup K st (st.cell p) y = some n ∧ (st.node n).is_constant = true := by
    intro p y w hy h
    unfold F_structure_set at h
    simp only [hy, if_true] at h
    split at h
    · cases h
    · rename_i hc
      have hc : ((lookup_or_add K st p y).1.node (lookup_or_add K st p y).2).is_constant
          = true := by
        simpa using hc
      obtain ⟨h1, h2⟩ := lookup_or_add_constant hc
      refine ⟨_, h2, ?_⟩
      rw [h1] at hc
      exact hc
  refine ⟨⟨bwd s x v hx, ?_⟩, ?_, ?_⟩
  · rintro ⟨n, hl, hc⟩
    rw [fwd n hl hc]
  · intro n hl hc
    refine ⟨fwd n hl hc, ?_⟩
    rw [fwd n hl hc]
    unfold F_structure_ref
    simp only [hx, if_true, hl]
  · intro sv y w h
    cases sv with
    | struct p =>
      cases hy : rep_SYMBOLP y with
      | true =>
        obtain ⟨n, h1, h2⟩ := bwd p y w hy h
        exact ⟨p, n, rfl, rfl, h1, h2⟩
      | false =>
        unfold F_structure_set at h
        simp only [hy, Bool.false_eq_true, if_false] at h
        cases h
    | _ =>
      unfold F_structure_set at h
      cases h

set_option maxRecDepth 1000000 in
/-- C2 at a concrete input: in `const_state` the record of `A` in the registry
(node 3) is constant; `structure-set` on it signals `setting_constant`, the state
is the one before, and `structure-ref` returns the old binding. -/
theorem structure_set_constant_witness :
    rep_SYMBOLP sym_A = true ∧
    lookup K0 const_state (const_state.cell 2) sym_A = some 3 ∧
    (const_state.node 3).is_constant = true ∧
    F_structure_set K0 const_state (repv.struct 2) sym_A (repv.other 5)
      = (.error Err.setting_constant, const_state) ∧
    F_structure_ref K0
        (F_structure_set K0 const_state (repv.struct 2) sym_A (repv.other 5)).2
        (repv.struct 2) sym_A
      = (.ok (const_state.node 3).binding, const_state) :=
  ⟨rfl, by decide, by decide,
    (structure_set_constant K0 const_state 2 sym_A (repv.other 5) rfl).2.1 3
      (by decide) (by decide)⟩

/-! ## The lookups return and write to the cache only -/

theorem cache_only_refl (st : State) : cache_only st st := ⟨rfl, rfl, rfl, rfl, rfl, rfl⟩

theorem cache_only_trans {a b c : State} (h1 : cache_only a b) (h2 : cache_only b c) :
    cache_only a c :=
  ⟨h2.1.trans h1.1, h2.2.1.trans h1.2.1, h2.2.2.1.trans h1.2.2.1,
    h2.2.2.2.1.trans h1.2.2.2.1, h2.2.2.2.2.1.trans h1.2.2.2.2.1,
    h2.2.2.2.2.2.trans h1.2.2.2.2.2⟩

theorem cache_only_enter (st : State) (s n : Nat) : cache_only st (enter_cache st s n) :=
  ⟨rfl, rfl, rfl, rfl, rfl, rfl⟩

theorem State.ext_cache {a b : State} (h : cache_only a b) (hc : b.ref_cache = a.ref_cache) :
    b = a := by
  cases a
  cases b
  simp only [cache_only] at h
  simp only at hc
  simp only [h.1, h.2.1, h.2.2.1, h.2.2.2.1, h.2.2.2.2.1, h.2.2.2.2.2, hc]

theorem countP_set_flag (l : List rep_struct) :
    ∀ (p : Nat) (S : rep_struct), p < l.length → (l.getD p default).exclusion = false →
      S.exclusion = true →
      (l.set p S).countP (fun S => !S.exclusion) + 1 = l.countP (fun S => !S.exclusion) := by
  induction l with
  | nil => intro p S hp; cases hp
  | cons a l ih =>
    intro p S hp h0 h1
    cases p with
    | zero =>
      simp only [List.getD_cons_zero] at h0
      simp [List.set, List.countP_cons, h0, h1]
    | succ p =>
      simp only [List.getD_cons_succ] at h0
      simp only [List.set, List.countP_cons]
      have := ih p S (Nat.lt_of_succ_lt_succ hp) h0 h1
      omega

theorem free_count_set_flag {st : State} {p : Nat} (hp : p < st.structs.length)
    (h : (st.cell p).exclusion = false) :
    free_count (st.set_exclusion p true) + 1 = free_count st :=
  countP_set_flag st.structs p _ hp h rfl

theorem free_count_le (st : State) : free_count st < st.fuel := by
  unfold free_count State.fuel
  exact Nat.lt_succ_of_le (List.countP_le_length _)

/-- Setting the EXCLUSION flag of a structure whose flag is clear and clearing
it again restores the structure heap. -/
theorem clear_flag_restores {st st3 : State} {p : Nat}
    (h0 : (st.cell p).exclusion = false)
    (h3 : st3.structs = (st.set_exclusion p true).structs) :
    (st3.set_exclusion p false).structs = st.structs := by
  simp only [State.set_exclusion, State.set_cell, State.cell] at *
  rw [h3]
  by_cases hp : p < st.structs.length
  · rw [List.set_set]
    have : (st.structs.set p { st.structs.getD p default with exclusion := true }).getD p default
        = { st.structs.getD p default with exclusion := true } := by
      simp [List.getD_eq_getElem?_getD, List.getElem?_set, hp]
    rw [this]
    have h5 : ({ ({ st.structs.getD p default with exclusion := true } : rep_struct) with
        exclusion := false } : rep_struct) = st.structs.getD p default := by
      cases hc : st.structs.getD p default
      rw [hc] at h0
      simp only at h0
      simp only [h0]
    rw [h5, set_getD_self]
  · have hp2 : st.structs.length ≤ p := Nat.le_of_not_lt hp
    rw [List.set_eq_of_length_le hp2, List.set_eq_of_length_le hp2]

theorem structure_exports_inherited_p_default (var : repv) :
    structure_exports_inherited_p default var = false := by
  simp [structure_exports_inherited_p, default]

theorem search_loop_ok (look : State → repv → Option (State × Option Nat)) (s c : Nat)
    (hlook : ∀ st nm, free_count st = c → lookup_ok st (look st nm)) :
    ∀ (imports : List repv) (st : State), free_count st = c →
      lookup_ok st (search_loop look s st imports) := by
  intro imports
  induction imports with
  | nil => intro st _; exact ⟨st, none, rfl, cache_only_refl st, fun _ => rfl⟩
  | cons nm rest ih =>
    intro st hc
    obtain ⟨st1, r, h1, h2, h3⟩ := hlook st nm hc
    unfold search_loop
    rw [h1]
    cases r with
    | some n =>
      exact ⟨_, some n, rfl, cache_only_trans h2 (cache_only_enter st1 s n), fun h => by cases h⟩
    | none =>
      dsimp only
      rw [h3 rfl]
      exact ih st hc

theorem search_imports_with_ok (look : State → repv → Option (State × Option Nat)) (s c : Nat)
    (hlook : ∀ st nm, free_count st = c → lookup_ok st (look st nm))
    (st : State) (var : repv) (hc : free_count st = c) :
    lookup_ok st (search_imports_with look st s var) := by
  unfold search_imports_with
  cases lookup_cache st s var with
  | some n => exact ⟨st, some n, rfl, cache_only_refl st, fun h => by cases h⟩
  | none => exact search_loop_ok look s c hlook _ st hc

/-- The search below a structure whose flag is clear returns if the nested
lookups do, changes the cache only, and nothing when it finds nothing. -/
theorem search_inherited_ok (look : State → repv → Option (State × Option Nat))
    (st : State) (p : Nat) (var : repv) (hex : (st.cell p).exclusion = false)
    (hlook : ∀ st2 nm, free_count st2 + 1 = free_count st → lookup_ok st2 (look st2 nm)) :
    lookup_ok st (search_inherited look st p var) := by
  unfold search_inherited
  have hrest : ∀ st3 : State, cache_only (st.set_exclusion p true) st3 →
      cache_only st (st3.set_exclusion p false) := by
    intro st3 h
    exact ⟨clear_flag_restores hex h.1, h.2.1, h.2.2.1, h.2.2.2.1, h.2.2.2.2.1, h.2.2.2.2.2⟩
  split
  · rename_i hinh
    have hp : p < st.structs.length := by
      by_contra hp
      have h1 : (st.set_exclusion p true).cell p = default := by
        apply cell_invalid
        simp only [State.set_exclusion, State.set_cell, List.length_set]
        omega
      rw [h1, structure_exports_inherited_p_default] at hinh
      cases hinh
    have hfc : free_count (st.set_exclusion p true) + 1 = free_count st :=
      free_count_set_flag hp hex
    obtain ⟨st3, r, h1, h2, h3⟩ := search_imports_with_ok look p
      (free_count (st.set_exclusion p true)) (fun st2 nm hc => hlook st2 nm (by omega))
      (st.set_exclusion p true) var rfl
    rw [h1]
    refine ⟨_, r, rfl, hrest st3 h2, ?_⟩
    intro hr
    apply State.ext_cache (hrest st3 h2)
    rw [h3 hr]
    rfl
  · exact ⟨_, none, rfl, hrest _ (cache_only_refl _),
      fun _ => State.ext_cache (hrest _ (cache_only_refl _)) rfl⟩

theorem lookup_recursively_with_ok (K : Statics)
    (look : State → repv → Option (State × Option Nat)) (st : State) (name var : repv)
    (hlook : ∀ st2 nm, free_count st2 + 1 = free_count st → lookup_ok st2 (look st2 nm)) :
    lookup_ok st (lookup_recursively_with K look st name var) := by
  have triv : ∀ r, lookup_ok st (some (st, r)) :=
    fun r => ⟨st, r, rfl, cache_only_refl st, fun _ => rfl⟩
  unfold lookup_recursively_with
  split
  · rename_i p hget
    split
    · exact triv _
    · rename_i hex
      have hex : (st.cell p).exclusion = false := by simpa using hex
      split
      · exact triv _
      · exact search_inherited_ok look st p var hex hlook
  · exact triv _

/-- The core of termination: with more fuel than there are structures whose
EXCLUSION flag is clear, `lookup_recursively` returns, and it changes the cache
only, and nothing when it finds nothing. -/
theorem lookup_recursively_ok (K : Statics) (var : repv) :
    ∀ (fuel : Nat) (st : State) (name : repv), free_count st < fuel →
      lookup_ok st (lookup_recursively K fuel st name var) := by
  intro fuel
  induction fuel with
  | zero => intro st name h; cases h
  | succ fuel ih =>
    intro st name hf
    unfold lookup_recursively
    exact lookup_recursively_with_ok K _ st name var (fun st2 nm hc => ih st2 nm (by omega))

theorem rep_search_imports_ok (K : Statics) (fuel : Nat) (st : State) (s : Nat) (var : repv)
    (hf : free_count st < fuel) : lookup_ok st (rep_search_imports K fuel st s var) :=
  search_imports_with_ok _ s (free_count st)
    (fun st2 nm hc => lookup_recursively_ok K var fuel st2 nm (by omega)) st var rfl

theorem lookup_ok_some {st : State} {res : Option (State × Option Nat)} (h : lookup_ok st res) :
    ∃ r, res = some r := by
  obtain ⟨st2, r, h1, -, -⟩ := h
  exact ⟨_, h1⟩

/-! ## More fuel does not change a result -/

theorem search_loop_mono {look look2 : State → repv → Option (State × Option Nat)}
    (h : look_le look look2) (s : Nat) :
    ∀ (imports : List repv) (st : State) (r : State × Option Nat),
      search_loop look s st imports = some r → search_loop look2 s st imports = some r := by
  intro imports
  induction imports with
  | nil => intro st r hr; exact hr
  | cons nm rest ih =>
    intro st r hr
    unfold search_loop at hr ⊢
    cases hl : look st nm with
    | none => rw [hl] at hr; cases hr
    | some q =>
      rw [hl] at hr
      rw [h st nm q hl]
      obtain ⟨st1, o⟩ := q
      cases o with
      | some n => exact hr
      | none => exact ih st1 r hr

theorem lookup_recursively_with_mono (K : Statics)
    {look look2 : State → repv → Option (State × Option Nat)} (h : look_le look look2)
    (var : repv) : look_le (fun st nm => lookup_recursively_with K look st nm var)
      (fun st nm => lookup_recursively_with K look2 st nm var) := by
  intro st nm r hr
  dsimp only at hr ⊢
  unfold lookup_recursively_with at hr ⊢
  split
  · rename_i p hget
    rw [hget] at hr
    dsimp only at hr
    split
    · rename_i hex; rw [if_pos hex] at hr; exact hr
    · rename_i hex
      rw [if_neg hex] at hr
      split
      · rename_i n hl; rw [hl] at hr; exact hr
      · rename_i hl
        rw [hl] at hr
        dsimp only at hr
        unfold search_inherited at hr ⊢
        split
        · rename_i hinh
          rw [if_pos hinh] at hr
          unfold search_imports_with at hr ⊢
          split
          · rename_i n hc; rw [hc] at hr; exact hr
          · rename_i hc
            rw [hc] at hr
            dsimp only at hr
            cases hs : search_loop look p (st.set_exclusion p true)
                ((st.set_exclusion p true).cell p).imports with
            | none => rw [hs] at hr; cases hr
            | some q => rw [hs] at hr; rw [search_loop_mono h p _ _ q hs]; exact hr
        · rename_i hinh; rw [if_neg hinh] at hr; exact hr
  · rename_i hne
    split at hr
    · rename_i p hget; exact absurd hget (hne p)
    · exact hr

theorem lookup_recursively_succ_mono (K : Statics) (var : repv) :
    ∀ fuel, look_le (fun st nm => lookup_recursively K fuel st nm var)
      (fun st nm => lookup_recursively K (fuel + 1) st nm var) := by
  intro fuel
  induction fuel with
  | zero => intro st nm r hr; cases hr
  | succ fuel ih =>
    intro st nm r hr
    dsimp only at hr ⊢
    rw [lookup_recursively] at hr ⊢
    exact lookup_recursively_with_mono K ih var st nm r hr

theorem lookup_recursively_mono (K : Statics) (var : repv) {fuel fuel2 : Nat}
    (h : fuel ≤ fuel2) : look_le (fun st nm => lookup_recursively K fuel st nm var)
      (fun st nm => lookup_recursively K fuel2 st nm var) := by
  induction h with
  | refl => intro st nm r hr; exact hr
  | step _ ih => intro st nm r hr; exact lookup_recursively_succ_mono K var _ st nm r (ih st nm r hr)

/-- Two amounts of fuel that are both enough give the same result. -/
theorem lookup_recursively_fuel (K : Statics) (st : State) (name var : repv) {fuel fuel2 : Nat}
    (h1 : free_count st < fuel) (h2 : free_count st < fuel2) :
    lookup_recursively K fuel2 st name var = lookup_recursively K fuel st name var := by
  obtain ⟨sa, ra, ha, -, -⟩ := lookup_recursively_ok K var fuel st name h1
  obtain ⟨sb, rb, hb, -, -⟩ := lookup_recursively_ok K var fuel2 st name h2
  rcases Nat.le_total fuel fuel2 with h | h
  · have := lookup_recursively_mono K var h st name _ ha
    dsimp only at this
    rw [this, ha]
  · have := lookup_recursively_mono K var h st name _ hb
    dsimp only at this
    rw [hb, this]

/-! ## The order of the imports and the export gate (C3, C4, C5) -/

theorem line_empty {st : State} (h : cache_empty st) (i : Nat) : (st.line i).s = none := by
  unfold State.line
  rw [List.getD_eq_getElem?_getD]
  cases hi : st.ref_cache[i]? with
  | none => rfl
  | some l => exact h l (List.getElem?_mem hi)

theorem lookup_cache_miss (st : State) {var : repv} (h : (st.line (CACHE_HASH var)).s = none)
    (s : Nat) : lookup_cache st s var = none := by
  unfold lookup_cache
  dsimp only
  rw [h]
  simp

/-- The loop of `rep_search_imports` returns the first result that is not
none, every lookup being the one made in the state at the start of the loop. -/
theorem search_loop_first (look : State → repv → Option (State × Option Nat)) (s : Nat)
    (st : State) (hlook : ∀ nm, lookup_ok st (look st nm)) :
    ∀ imports : List repv, ∃ st2, cache_only st st2 ∧
      search_loop look s st imports
        = some (st2, imports.findSome? (fun nm => (look st nm).bind Prod.snd)) := by
  intro imports
  induction imports with
  | nil => exact ⟨st, cache_only_refl st, rfl⟩
  | cons nm rest ih =>
    obtain ⟨st1, r, h1, h2, h3⟩ := hlook nm
    unfold search_loop
    rw [List.findSome?_cons, h1]
    cases r with
    | some n => exact ⟨_, cache_only_trans h2 (cache_only_enter st1 s n), rfl⟩
    | none =>
      dsimp only [Option.bind]
      rw [h3 rfl]
      exact ih

/-- C3. Earlier imports win.  In a state whose cache is empty, for every
structure `s` and symbol `x`, `rep_search_imports (s, x)` returns, and its
result is the result of `lookup_recursively (n, x)` for the first name `n` in
the import list of `s` for which that result is not none, and none if there
is no such name.  (The EXCLUSION flags need not be clear.) -/
theorem earlier_imports_win (K : Statics) (st : State) (s : Nat) (x : repv)
    (hc : cache_empty st) :
    ∃ st2, rep_search_imports K st.fuel st s x
      = some (st2, (st.cell s).imports.findSome? (found_under K st.fuel st x)) := by
  unfold rep_search_imports search_imports_with
  rw [lookup_cache_miss st (line_empty hc _)]
  obtain ⟨st2, -, h⟩ := search_loop_first (fun st2 nm => lookup_recursively K st.fuel st2 nm x) s st
    (fun nm => lookup_recursively_ok K x st.fuel st nm (free_count_le st)) (st.cell s).imports
  exact ⟨st2, h⟩

set_option maxRecDepth 1000000 in
/-- C3 at a concrete input: the imports of `T` in the cyclic graph, with an empty
cache. -/
theorem earlier_imports_win_witness :
    cache_empty cyc_state ∧
    ∃ st2, rep_search_imports K0 cyc_state.fuel cyc_state 6 sym_x
      = some (st2, (cyc_state.cell 6).imports.findSome?
          (found_under K0 cyc_state.fuel cyc_state sym_x)) :=
  ⟨by decide, earlier_imports_win K0 cyc_state 6 sym_x (by decide)⟩

/-- C4. Local shadowing.  If the name `name` is registered to the structure at
`p` and that structure has a local record for `x` that is not exported, then
`lookup_recursively (name, x)` returns none and leaves the state as it was,
whatever the structure imports or inherits and whether or not EXPORT_ALL is
set. -/
theorem local_binding_shadows (K : Statics) (st : State) (name x : repv) (p n fuel : Nat)
    (hreg : F_get_structure K st name = .ok (repv.struct p))
    (hl : lookup K st (st.cell p) x = some n)
    (hne : (st.node n).is_exported = false) :
    lookup_recursively K (fuel + 1) st name x = some (st, none) ∧
    lookup_recursively K st.fuel st name x = some (st, none) := by
  have key : ∀ look, lookup_recursively_with K look st name x = some (st, none) := by
    intro look
    unfold lookup_recursively_with
    rw [hreg]
    dsimp only
    split
    · rfl
    · rw [hl]
      dsimp only
      rw [hne]
      rfl
  exact ⟨key _, key _⟩

set_option maxRecDepth 1000000 in
/-- C4 at a concrete input: in `shadow_state` the structure `B` has EXPORT_ALL
set and imports `A`, which exports `x`, and `B` has its own record for `x`
(node 6) that is not exported; the lookup of `x` under the name `B` returns
none. -/
theorem local_binding_shadows_witness :
    F_get_structure K0 shadow_state sym_B = .ok (repv.struct 4) ∧
    lookup K0 shadow_state (shadow_state.cell 4) sym_x = some 6 ∧
    (shadow_state.node 6).is_exported = false ∧
    (shadow_state.cell 4).export_all = true ∧
    (shadow_state.cell 4).imports = [sym_A] ∧
    F_structure_exports_p K0 shadow_state (repv.struct 3) sym_x = .ok (repv.symbol K0.Qt) ∧
    (lookup_recursively K0 (0 + 1) shadow_state sym_B sym_x = some (shadow_state, none) ∧
      lookup_recursively K0 shadow_state.fuel shadow_state sym_B sym_x
        = some (shadow_state, none)) :=
  ⟨by decide, by decide, by decide, by decide, by decide, by decide,
    local_binding_shadows K0 shadow_state sym_B sym_x 4 6 0 (by decide) (by decide) (by decide)⟩

theorem F_structure_exports_p_local {K : Statics} {st : State} {T n : Nat} {x : repv}
    (hx : rep_SYMBOLP x = true) (hl : lookup K st (st.cell T) x = some n)
    (he : (st.node n).is_exported = true) :
    F_structure_exports_p K st (repv.struct T) x = .ok (repv.symbol K.Qt) := by
  unfold F_structure_exports_p
  simp only [rep_STRUCTUREP, hx, Bool.and_self, if_true, rep_STRUCTURE, hl, he]

theorem F_structure_exports_p_inherited {K : Statics} {st : State} {T : Nat} {x : repv}
    (hx : rep_SYMBOLP x = true) (hl : lookup K st (st.cell T) x = none)
    (he : structure_exports_inherited_p (st.cell T) x = true) :
    F_structure_exports_p K st (repv.struct T) x = .ok (repv.symbol K.Qt) := by
  unfold F_structure_exports_p
  simp only [rep_STRUCTUREP, hx, Bool.and_self, if_true, rep_STRUCTURE, hl, he]

theorem set_exclusion_inherited (st : State) (p : Nat) (b : Bool) (x : repv)
    (h : structure_exports_inherited_p ((st.set_exclusion p b).cell p) x = true) :
    structure_exports_inherited_p (st.cell p) x = true := by
  by_cases hp : p < st.structs.length
  · unfold State.set_exclusion at h
    rw [cell_set_cell_eq _ hp] at h
    exact h
  · have h1 : (st.set_exclusion p b).cell p = default := by
      apply cell_invalid
      simp only [State.set_exclusion, State.set_cell, List.length_set]
      omega
    rw [h1, structure_exports_inherited_p_default] at h
    cases h

theorem clear_exclusion_some {p : Nat} {res : Option (State × Option Nat)} {st2 : State}
    {r : Option Nat} (h : clear_exclusion p res = some (st2, r)) :
    ∃ st3, res = some (st3, r) := by
  cases res with
  | none => cases h
  | some q =>
    obtain ⟨st3, r3⟩ := q
    simp only [clear_exclusion, Option.some.injEq, Prod.mk.injEq] at h
    exact ⟨st3, by rw [h.2]⟩

/-- A result of the loop of `rep_search_imports` is the result of the lookup
under one of the names in the list. -/
theorem search_loop_found (look : State → repv → Option (State × Option Nat)) (s : Nat)
    (st st2 : State) (n : Nat) (hlook : ∀ nm, lookup_ok st (look st nm)) (imports : List repv)
    (h : search_loop look s st imports = some (st2, some n)) :
    ∃ nm ∈ imports, ∃ st1, look st nm = some (st1, some n) := by
  obtain ⟨st3, -, h3⟩ := search_loop_first look s st hlook imports
  rw [h3] at h
  simp only [Option.some.injEq, Prod.mk.injEq] at h
  obtain ⟨nm, hm, hf⟩ := List.exists_of_findSome?_eq_some h.2
  refine ⟨nm, hm, ?_⟩
  cases hq : look st nm with
  | none => rw [hq] at hf; cases hf
  | some q =>
    obtain ⟨st1, r⟩ := q
    rw [hq] at hf
    simp only [Option.bind] at hf
    exact ⟨st1, by rw [hf]⟩

/-- What `lookup_recursively` finds while the cache line of `x` is empty: a
record for `x` that is exported, under a name registered to a structure that
exports `x`. -/
theorem lookup_recursively_found (K : Statics) (x : repv) (hx : rep_SYMBOLP x = true) :
    ∀ (fuel : Nat) (st : State) (nm : repv) (st2 : State) (n : Nat),
      free_count st < fuel → (st.line (CACHE_HASH x)).s = none →
      lookup_recursively K fuel st nm x = some (st2, some n) →
      (st.node n).symbol = x ∧ (st.node n).is_exported = true ∧
      ∃ T, F_get_structure K st nm = .ok (repv.struct T) ∧
        F_structure_exports_p K st (repv.struct T) x = .ok (repv.symbol K.Qt) := by
  intro fuel
  induction fuel with
  | zero => intro st nm st2 n h; cases h
  | succ fuel ih =>
    intro st nm st2 n hf hline h
    unfold lookup_recursively lookup_recursively_with at h
    split at h
    · rename_i T hget
      split at h
      · cases h
      · rename_i hex
        have hex : (st.cell T).exclusion = false := by simpa using hex
        split at h
        · rename_i m hl
          simp only [Option.some.injEq, Prod.mk.injEq] at h
          obtain ⟨-, h2⟩ := h
          split at h2
          · rename_i he
            cases h2
            exact ⟨lookup_some hl, he, T, hget, F_structure_exports_p_local hx hl he⟩
          · cases h2
        · rename_i hl
          unfold search_inherited at h
          obtain ⟨st3, h3⟩ := clear_exclusion_some h
          split at h3
          · rename_i hinh
            have hinh2 := set_exclusion_inherited st T true x hinh
            have hp : T < st.structs.length := by
              by_contra hp
              rw [cell_invalid (Nat.le_of_not_lt hp), structure_exports_inherited_p_default] at hinh2
              cases hinh2
            have hfc : free_count (st.set_exclusion T true) + 1 = free_count st :=
              free_count_set_flag hp hex
            unfold search_imports_with at h3
            rw [lookup_cache_miss (st.set_exclusion T true) hline T] at h3
            obtain ⟨nm2, -, st4, h4⟩ := search_loop_found _ T _ st3 n
              (fun nm2 => lookup_recursively_ok K x fuel (st.set_exclusion T true) nm2 (by omega))
              _ h3
            obtain ⟨h5, h6, -⟩ := ih (st.set_exclusion T true) nm2 st4 n (by omega) hline h4
            exact ⟨h5, h6, T, hget, F_structure_exports_p_inherited hx hl hinh2⟩
          · cases h3
    · cases h

/-- C5. Export gate.  In a state whose cache is empty, for every structure `s`
and symbol `x`, `rep_search_imports (s, x)` returns, and if it returns a
record then that record has the symbol `x` and is exported, and a name in the list
of imports of `s` is registered to a structure `T` for which
`structure-exports-p (T, x)` is `t`. -/
theorem export_gate (K : Statics) (st : State) (s : Nat) (x : repv)
    (hx : rep_SYMBOLP x = true) (hc : cache_empty st) :
    ∃ st2 r, rep_search_imports K st.fuel st s x = some (st2, r) ∧
      ∀ n, r = some n →
        (st2.node n).symbol = x ∧ (st2.node n).is_exported = true ∧
        ∃ nm ∈ (st.cell s).imports, ∃ T, F_get_structure K st nm = .ok (repv.struct T) ∧
          F_structure_exports_p K st (repv.struct T) x = .ok (repv.symbol K.Qt) := by
  obtain ⟨st2, r, h1, h2, -⟩ := rep_search_imports_ok K st.fuel st s x (free_count_le st)
  refine ⟨st2, r, h1, ?_⟩
  intro n hr
  subst hr
  unfold rep_search_imports search_imports_with at h1
  rw [lookup_cache_miss st (line_empty hc _)] at h1
  obtain ⟨nm, hm, st1, h4⟩ := search_loop_found _ s st st2 n
    (fun nm => lookup_recursively_ok K x st.fuel st nm (free_count_le st)) _ h1
  obtain ⟨h5, h6, T, h7, h8⟩ := lookup_recursively_found K x hx st.fuel st nm st1 n
    (free_count_le st) (line_empty hc _) h4
  have hn : st2.node n = st.node n := by unfold State.node; rw [h2.2.1]
  rw [hn]
  exact ⟨h5, h6, nm, hm, T, h7, h8⟩

set_option maxRecDepth 1000000 in
/-- C5 at a concrete input: the imports of `S` in the cyclic graph, with an empty
cache. -/
theorem export_gate_witness :
    rep_SYMBOLP sym_x = true ∧ cache_empty cyc_state ∧
    ∃ st2 r, rep_search_imports K0 cyc_state.fuel cyc_state 3 sym_x = some (st2, r) ∧
      ∀ n, r = some n →
        (st2.node n).symbol = sym_x ∧ (st2.node n).is_exported = true ∧
        ∃ nm ∈ (cyc_state.cell 3).imports, ∃ T,
          F_get_structure K0 cyc_state nm = .ok (repv.struct T) ∧
          F_structure_exports_p K0 cyc_state (repv.struct T) sym_x = .ok (repv.symbol K0.Qt) :=
  ⟨rfl, by decide, export_gate K0 cyc_state 3 sym_x rfl (by decide)⟩

/-! ## `external-structure-ref` (C6) -/

theorem Fmemq_eq_nil (a : repv) (l : List repv) : Fmemq a l = [] ↔ a ∉ l := by
  induction l with
  | nil => simp [Fmemq]
  | cons b l ih =>
    unfold Fmemq
    by_cases h : b = a
    · simp [h]
    · rw [if_neg h, ih]
      simp [Ne.symm h]

/-- The function `F_external_structure_ref` by cases: a failed declaration, a name that is
neither accessible nor imported, and the lookup. -/
theorem F_external_structure_ref_eq (K : Statics) (st : State) (name x : repv) :
    F_external_structure_ref K st name x =
      if rep_SYMBOLP name && rep_SYMBOLP x then
        if name ∈ (rep_STRUCTURE st st.rep_structure).accessible ∨
            name ∈ (rep_STRUCTURE st st.rep_structure).imports then
          external_result st (lookup_recursively K st.fuel st name x)
        else (.error Err.void_value, st)
      else (.error Err.bad_arg, st) := by
  unfold F_external_structure_ref
  dsimp only
  split
  · by_cases ha : name ∈ (rep_STRUCTURE st st.rep_structure).accessible
    · have h1 : Fmemq name (rep_STRUCTURE st st.rep_structure).accessible ≠ [] := by
        rw [Ne, Fmemq_eq_nil]; exact fun h => h ha
      rw [if_neg h1, if_pos h1, if_pos (Or.inl ha)]
      unfold external_result
      rfl
    · have h1 : Fmemq name (rep_STRUCTURE st st.rep_structure).accessible = [] := by
        rw [Fmemq_eq_nil]; exact ha
      rw [if_pos h1]
      by_cases hi : name ∈ (rep_STRUCTURE st st.rep_structure).imports
      · have h2 : Fmemq name (rep_STRUCTURE st st.rep_structure).imports ≠ [] := by
          rw [Ne, Fmemq_eq_nil]; exact fun h => h hi
        rw [if_pos h2, if_pos (Or.inr hi)]
        unfold external_result
        rfl
      · have h2 : Fmemq name (rep_STRUCTURE st st.rep_structure).imports = [] := by
          rw [Fmemq_eq_nil]; exact hi
        rw [if_neg (by rw [h2]; exact fun h => h rfl), if_neg (by tauto)]
  · rfl

/-- C6. For symbols `name` and `x`, `external-structure-ref (name, x)` returns
the value `v` exactly when `name` is in the accessible list or in the import
list of the current structure and `lookup_recursively (name, x)` returns a
record whose binding is `v` and not void; in every other case it signals
`void_value`. -/
theorem external_structure_ref_spec (K : Statics) (st : State) (name x : repv)
    (hname : rep_SYMBOLP name = true) (hx : rep_SYMBOLP x = true) :
    (∀ v, (F_external_structure_ref K st name x).1 = .ok v ↔
      ((name ∈ (rep_STRUCTURE st st.rep_structure).accessible ∨
          name ∈ (rep_STRUCTURE st st.rep_structure).imports) ∧
        rep_VOIDP v = false ∧
        ∃ st2 n, lookup_recursively K st.fuel st name x = some (st2, some n) ∧
          (st2.node n).binding = v)) ∧
    ((∀ v, (F_external_structure_ref K st name x).1 ≠ .ok v) →
      (F_external_structure_ref K st name x).1 = .error Err.void_value) := by
  rw [F_external_structure_ref_eq]
  simp only [hname, hx, Bool.and_self, if_true]
  obtain ⟨st1, r, hr, -, -⟩ := lookup_recursively_ok K x st.fuel st name (free_count_le st)
  rw [hr]
  by_cases hm : name ∈ (rep_STRUCTURE st st.rep_structure).accessible ∨
      name ∈ (rep_STRUCTURE st st.rep_structure).imports
  · rw [if_pos hm]
    cases r with
    | none =>
      simp [external_result]
    | some n =>
      unfold external_result
      by_cases hv : rep_VOIDP (st1.node n).binding = true
      · simp only [hv, Bool.not_true, Bool.false_eq_true, if_false]
        constructor
        · intro v
          constructor
          · intro h; cases h
          · rintro ⟨-, h1, st2, n2, h2, h3⟩
            simp only [Option.some.injEq, Prod.mk.injEq] at h2
            obtain ⟨h4, h5⟩ := h2
            subst h4; subst h5
            rw [h3, h1] at hv
            cases hv
        · intro _; trivial
      · have hv : rep_VOIDP (st1.node n).binding = false := by simpa using hv
        simp only [hv, Bool.not_false, if_true]
        constructor
        · intro v
          constructor
          · intro h
            simp only [Except.ok.injEq] at h
            subst h
            exact ⟨hm, hv, st1, n, rfl, rfl⟩
          · rintro ⟨-, -, st2, n2, h2, h3⟩
            simp only [Option.some.injEq, Prod.mk.injEq] at h2
            obtain ⟨h4, h5⟩ := h2
            subst h4; subst h5
            rw [h3]
        · intro h
          exact absurd rfl (h _)
  · rw [if_neg hm]
    constructor
    · intro v
      constructor
      · intro h; cases h
      · rintro ⟨h, -⟩; exact absurd h hm
    · intro _; rfl

set_option maxRecDepth 1000000 in
/-- C6 at a concrete input: in the cyclic graph `S` is current and imports `X`;
`external-structure-ref (X, x)` returns 2. -/
theorem external_structure_ref_spec_witness :
    rep_SYMBOLP sym_X = true ∧ rep_SYMBOLP sym_x = true ∧
    (F_external_structure_ref K0 cyc_state sym_X sym_x).1 = .ok (repv.other 2) ∧
    ((sym_X ∈ (rep_STRUCTURE cyc_state cyc_state.rep_structure).accessible ∨
        sym_X ∈ (rep_STRUCTURE cyc_state cyc_state.rep_structure).imports) ∧
      rep_VOIDP (repv.other 2) = false ∧
      ∃ st2 n, lookup_recursively K0 cyc_state.fuel cyc_state sym_X sym_x = some (st2, some n) ∧
        (st2.node n).binding = repv.other 2) :=
  ⟨rfl, rfl, by decide,
    ((external_structure_ref_spec K0 cyc_state sym_X sym_x rfl rfl).1 (repv.other 2)).1
      (by decide)⟩

/-! ## The cache is not transparent (C7, C8) -/

set_option maxRecDepth 1000000 in
/-- C7 (fails on the code). The cache is not an optimization only.  The state
`warm_state` is reachable: it is the cyclic graph of `cyc_ops` after the lookup
`structure-ref (T, x)`.  In it `structure-ref (S, x)` returns 1 and
`rep_search_imports (S, x)` returns node 9, the record of `M`; in the same state
with every line of the cache empty they return 2 and node 10, the record of `Q`.
The nested search of the imports of `T`, which runs while `X` and `P` are
excluded, takes from the cache the result of a search that ran while no
structure was excluded. -/
theorem cache_changes_result : Reachable K0 warm_state ∧
    (F_structure_ref K0 warm_state (repv.struct 3) sym_x).1 = .ok (repv.other 1) ∧
    (F_structure_ref K0 (cache_flush warm_state) (repv.struct 3) sym_x).1 = .ok (repv.other 2) ∧
    (rep_search_imports K0 warm_state.fuel warm_state 3 sym_x).map Prod.snd = some (some 9) ∧
    (rep_search_imports K0 warm_state.fuel (cache_flush warm_state) 3 sym_x).map Prod.snd
      = some (some 10) :=
  ⟨⟨_, rfl⟩, by decide, by decide, by decide, by decide⟩

set_option maxRecDepth 1000000 in
/-- C8 (fails on the code). Cache soundness is not preserved.  In the reachable
state `reexport_state` the cache is sound; it is not sound after
`structure-exports-all (C, nil)`, and it is not sound after `rep_add_subr`
registers `x` again in `A` without exporting it.  In the reachable state
`warm_state` the cache is sound, and it is not sound after the lookup
`structure-ref (S, x)`. -/
theorem cache_soundness_broken :
    (Reachable K0 reexport_state ∧ cache_sound K0 reexport_state ∧
      ¬ cache_sound K0
        (Op.exec K0 reexport_state (.structure_exports_all (repv.struct 4) K0.nil)) ∧
      ¬ cache_sound K0 (Op.exec K0 reexport_state (.add_subr sym_x (repv.other 7) false))) ∧
    (Reachable K0 warm_state ∧ cache_sound K0 warm_state ∧
      ¬ cache_sound K0 (Op.exec K0 warm_state (.structure_ref (repv.struct 3) sym_x))) :=
  ⟨⟨⟨_, rfl⟩, by decide, by decide, by decide⟩, ⟨_, rfl⟩, by decide, by decide⟩

/-! ## Termination (C9) -/

/-- C9. Cycle termination.  For every state (so for every registry and every graph
of imports, cyclic ones included), every name, structure and symbol:
`lookup_recursively` and `rep_search_imports` return a result as soon as the
fuel exceeds the number of structures whose EXCLUSION flag is clear, the
result is the same for every such amount of fuel, the fuel of the entry points
is such an amount, and `structure-ref` and `external-structure-ref` never stop
for lack of fuel. -/
theorem lookup_terminates (K : Statics) (st : State) (name x sv : repv) (s fuel : Nat)
    (hf : free_count st < fuel) :
    (∃ r, lookup_recursively K fuel st name x = some r) ∧
    (∃ r, rep_search_imports K fuel st s x = some r) ∧
    (∀ fuel2, free_count st < fuel2 →
      lookup_recursively K fuel2 st name x = lookup_recursively K fuel st name x) ∧
    free_count st < st.fuel ∧
    (F_structure_ref K st sv x).1 ≠ .error Err.out_of_fuel ∧
    (F_external_structure_ref K st name x).1 ≠ .error Err.out_of_fuel := by
  refine ⟨lookup_ok_some (lookup_recursively_ok K x fuel st name hf),
    lookup_ok_some (rep_search_imports_ok K fuel st s x hf),
    fun fuel2 h2 => lookup_recursively_fuel K st name x hf h2, free_count_le st, ?_, ?_⟩
  · unfold F_structure_ref
    split
    · rename_i p
      split
      · split
        · simp
        · obtain ⟨r, hr⟩ := lookup_ok_some (rep_search_imports_ok K st.fuel st p x (free_count_le st))
          rw [hr]
          obtain ⟨st1, o⟩ := r
          cases o <;> simp
      · simp
    · simp
  · rw [F_external_structure_ref_eq]
    obtain ⟨r, hr⟩ := lookup_ok_some (lookup_recursively_ok K x st.fuel st name (free_count_le st))
    rw [hr]
    obtain ⟨st1, o⟩ := r
    unfold external_result
    split
    · split
      · cases o with
        | none => simp
        | some n => dsimp only; split <;> simp
      · simp
    · simp

set_option maxRecDepth 1000000 in
/-- C9 at a concrete input: the cyclic graph has nine structures, none excluded;
ten units of fuel are enough. -/
theorem lookup_terminates_witness :
    free_count cyc_state < 10 ∧
    ((∃ r, lookup_recursively K0 10 cyc_state sym_X sym_x = some r) ∧
    (∃ r, rep_search_imports K0 10 cyc_state 3 sym_x = some r) ∧
    (∀ fuel2, free_count cyc_state < fuel2 →
      lookup_recursively K0 fuel2 cyc_state sym_X sym_x
        = lookup_recursively K0 10 cyc_state sym_X sym_x) ∧
    free_count cyc_state < cyc_state.fuel ∧
    (F_structure_ref K0 cyc_state (repv.struct 3) sym_x).1 ≠ .error Err.out_of_fuel ∧
    (F_external_structure_ref K0 cyc_state sym_X sym_x).1 ≠ .error Err.out_of_fuel) :=
  ⟨by decide, lookup_terminates K0 cyc_state sym_X sym_x (repv.struct 3) 3 10 (by decide)⟩

/-! ## The registry (C10) -/

/-- A `make-structure` without thunks and without a name allocates one cell, with
the name `nil`, and changes nothing else. -/
theorem F_make_structure_plain (K : Statics) (st : State) (sig : repv)
    (hsig : rep_LISTP K sig = true) :
    ∃ S : rep_struct, S.name = K.nil ∧
      F_make_structure K st sig K.nil K.nil K.nil
        = (.ok (repv.struct st.structs.length), st.alloc_struct S) := by
  unfold F_make_structure
  simp only [hsig, decide_True, Bool.true_or, Bool.and_self, if_true, ne_eq, not_true_eq_false,
    if_false]
  exact ⟨_, rfl, rfl⟩

/-- The call `name-structure (s, name)` for a name that is not `nil`, on an anonymous
structure `s`, when the registry has no constant record for `name`:
`get-structure (name)` returns `s` afterwards, the name of `s` is `name`, and
the record of `name` in the registry is not constant. -/
theorem F_name_structure_set (K : Statics) (st : State) (p r : Nat) (name : repv)
    (hreg : st.rep_structures_structure = repv.struct r)
    (hr : r < st.structs.length) (hp : p < st.structs.length)
    (hname : rep_SYMBOLP name = true) (hnil : name ≠ K.nil)
    (hanon : (st.cell p).name = K.nil)
    (hnc : ∀ m, lookup K st (st.cell r) name = some m → (st.node m).is_constant = false) :
    ∃ st2, F_name_structure K st (repv.struct p) name = (.ok name, st2) ∧
      F_get_structure K st2 name = .ok (repv.struct p) ∧
      (st2.cell p).name = name ∧
      st2.rep_structures_structure = repv.struct r ∧
      st2.structs.length = st.structs.length ∧
      (∀ m, lookup K st2 (st2.cell r) name = some m → (st2.node m).is_constant = false) := by
  obtain ⟨st1, n, h1, h2, h3, h4, h5, h6, h7, h8⟩ :=
    F_structure_set_spec K st r name (repv.struct p) hr hname hnc
  have hp1 : p < st1.structs.length := by rw [h5]; exact hp
  have hanon1 : (st1.cell p).name = K.nil := by
    by_cases hpr : p = r
    · subst hpr; rw [h7]; exact hanon
    · rw [h6 p hpr]; exact hanon
  have hb : ((st1.set_cell p { st1.cell p with name := name }).cell r).buckets
      = (st1.cell r).buckets := by
    by_cases hpr : p = r
    · subst hpr; rw [cell_set_cell_eq _ hp1]
    · rw [cell_set_cell_ne _ hpr]
  have hl : lookup K (cache_flush (st1.set_cell p { st1.cell p with name := name }))
      ((cache_flush (st1.set_cell p { st1.cell p with name := name })).cell r) name = some n := by
    rw [← h2]
    exact lookup_congr K name (fun _ => rfl) hb
  refine ⟨cache_flush (st1.set_cell p { st1.cell p with name := name }), ?_, ?_, ?_, ?_, ?_, ?_⟩
  · unfold F_name_structure
    simp only [rep_STRUCTUREP, hname, Bool.and_self, if_true, ne_eq, hnil, not_false_eq_true,
      hreg, h1, rep_STRUCTURE, hanon1, State.update_struct]
  · unfold F_get_structure
    simp only [hname, if_true]
    have hreg2 : (cache_flush (st1.set_cell p { st1.cell p with name := name })).rep_structures_structure
        = repv.struct r := by
      show st1.rep_structures_structure = _
      rw [h8, hreg]
    rw [hreg2]
    simp only [rep_STRUCTURE]
    rw [hl]
    show Except.ok (st1.node n).binding = _
    rw [h3]
  · show ((st1.set_cell p { st1.cell p with name := name }).cell p).name = name
    rw [cell_set_cell_eq _ hp1]
  · show st1.rep_structures_structure = _
    rw [h8, hreg]
  · show (st1.structs.set p _).length = _
    rw [List.length_set, h5]
  · intro m hm
    rw [hl] at hm
    cases hm
    exact h4

/-- The call `name-structure (s, nil)` on a structure named `name`, when the record of
`name` in the registry is not constant: `get-structure (name)` returns `nil`
afterwards. -/
theorem F_name_structure_clear (K : Statics) (st : State) (p r : Nat) (name : repv)
    (hreg : st.rep_structures_structure = repv.struct r)
    (hr : r < st.structs.length)
    (hname : rep_SYMBOLP name = true) (hnil : name ≠ K.nil)
    (hnamed : (st.cell p).name = name)
    (hnc : ∀ m, lookup K st (st.cell r) name = some m → (st.node m).is_constant = false) :
    ∃ st2, F_name_structure K st (repv.struct p) K.nil = (.ok K.nil, st2) ∧
      F_get_structure K st2 name = .ok K.nil := by
  obtain ⟨st1, n, h1, h2, h3, h4, h5, h6, h7, h8⟩ :=
    F_structure_set_spec K st r name K.nil hr hname hnc
  refine ⟨cache_flush st1, ?_, ?_⟩
  · unfold F_name_structure
    have hn : rep_SYMBOLP K.nil = true := rfl
    simp only [rep_STRUCTUREP, hn, Bool.and_self, if_true, ne_eq, not_true_eq_false, if_false,
      rep_STRUCTURE, hnamed, hnil, not_false_eq_true, hreg, h1]
  · unfold F_get_structure
    simp only [hname, if_true]
    have hreg2 : (cache_flush st1).rep_structures_structure = repv.struct r := by
      show st1.rep_structures_structure = _
      rw [h8, hreg]
    rw [hreg2]
    simp only [rep_STRUCTURE]
    have hl : lookup K (cache_flush st1) ((cache_flush st1).cell r) name = some n := by
      rw [← h2]
      exact lookup_congr K name (fun _ => rfl) rfl
    rw [hl]
    show Except.ok (st1.node n).binding = _
    rw [h3]

set_option maxRecDepth 1000000 in
/-- C10 as stated fails.  The state `const_state` is reachable; in it the record
of the registry for the name `A` is constant and holds structure 3.
`make-structure` without thunks and without a name returns structure 4, and
after `name-structure (4, A)`, `get-structure (A)` still returns structure 3. -/
theorem name_round_trip_fails_on_constant :
    Reachable K0 const_state ∧
    (F_make_structure K0 const_state K0.nil K0.nil K0.nil K0.nil).1 = .ok (repv.struct 4) ∧
    F_get_structure K0
      (F_name_structure K0 (F_make_structure K0 const_state K0.nil K0.nil K0.nil K0.nil).2
        (repv.struct 4) sym_A).2 sym_A = .ok (repv.struct 3) :=
  ⟨⟨_, rfl⟩, by decide, by decide⟩

/-- C10, amended. Name round-trip.  Let the registry be a structure of the
state and hold no constant record for the symbol `n`, `n` not being `nil`.
For the structure `s` that `make-structure` returns when it is given no
thunks and no name: after `name-structure (s, n)`, `get-structure (n)` returns
`s` and the name of `s` is `n`; after a following `name-structure (s, nil)`,
`get-structure (n)` returns `nil`. -/
theorem name_round_trip (K : Statics) (st : State) (sig n : repv) (r : Nat)
    (hreg : st.rep_structures_structure = repv.struct r) (hr : r < st.structs.length)
    (hsig : rep_LISTP K sig = true) (hn : rep_SYMBOLP n = true) (hnil : n ≠ K.nil)
    (hnc : ∀ m, lookup K st (st.cell r) n = some m → (st.node m).is_constant = false) :
    ∃ s st1 st2 st3,
      F_make_structure K st sig K.nil K.nil K.nil = (.ok s, st1) ∧
      F_name_structure K st1 s n = (.ok n, st2) ∧
      F_get_structure K st2 n = .ok s ∧ (rep_STRUCTURE st2 s).name = n ∧
      F_name_structure K st2 s K.nil = (.ok K.nil, st3) ∧
      F_get_structure K st3 n = .ok K.nil := by
  obtain ⟨S, hS, hmake⟩ := F_make_structure_plain K st sig hsig
  have hlen : (st.alloc_struct S).structs.length = st.structs.length + 1 := by
    simp [State.alloc_struct]
  have hnc1 : ∀ m, lookup K (st.alloc_struct S) ((st.alloc_struct S).cell r) n = some m →
      ((st.alloc_struct S).node m).is_constant = false := by
    intro m hm
    have : lookup K (st.alloc_struct S) ((st.alloc_struct S).cell r) n
        = lookup K st (st.cell r) n :=
      lookup_congr K n (fun _ => rfl) (by rw [cell_alloc_struct_lt st S hr])
    rw [this] at hm
    exact hnc m hm
  obtain ⟨st2, h1, h2, h3, h4, h5, h6⟩ := F_name_structure_set K (st.alloc_struct S)
    st.structs.length r n hreg (by omega) (by omega) hn hnil
    (by rw [cell_alloc_struct_last, hS]) hnc1
  obtain ⟨st3, h7, h8⟩ := F_name_structure_clear K st2 st.structs.length r n h4
    (by omega) hn hnil h3 h6
  exact ⟨_, _, st2, st3, hmake, h1, h2, h3, h7, h8⟩

set_option maxRecDepth 1000000 in
/-- C10, amended, at a concrete input: the state after `rep_pre_structures_init`,
whose registry has no record for the name `S`. -/
theorem name_round_trip_witness :
    boot.rep_structures_structure = repv.struct 2 ∧ 2 < boot.structs.length ∧
    rep_LISTP K0 K0.nil = true ∧ rep_SYMBOLP sym_S = true ∧ sym_S ≠ K0.nil ∧
    lookup K0 boot (boot.cell 2) sym_S = none ∧
    ∃ s st1 st2 st3,
      F_make_structure K0 boot K0.nil K0.nil K0.nil K0.nil = (.ok s, st1) ∧
      F_name_structure K0 st1 s sym_S = (.ok sym_S, st2) ∧
      F_get_structure K0 st2 sym_S = .ok s ∧ (rep_STRUCTURE st2 s).name = sym_S ∧
      F_name_structure K0 st2 s K0.nil = (.ok K0.nil, st3) ∧
      F_get_structure K0 st3 sym_S = .ok K0.nil :=
  ⟨by decide, by decide, by decide, rfl, by decide, by decide,
    name_round_trip K0 boot K0.nil sym_S 2 (by decide) (by decide) (by decide) rfl (by decide)
      (fun m h => by
        have h0 : lookup K0 boot (boot.cell 2) sym_S = none := by decide
        rw [h0] at h
        cases h)⟩

/-! ## Features seen through an import (C15) -/

set_option maxRecDepth 1000000 in
/-- C15 (fails on the code). The state `feature_state` is reachable; in it `B`
(4) is the current structure and has no binding of the symbol `features`, and
`featurep (f)` returns the list `(f)`, which is not `nil`: `Ffeaturep` reads the
list through `F_structure_ref`, which finds the binding that the
imported structure `A` exports. -/
theorem featurep_reads_imported_features :
    Reachable K0 feature_state ∧
    feature_state.rep_structure = repv.struct 4 ∧
    lookup K0 feature_state (feature_state.cell 4) (repv.symbol K0.Qfeatures) = none ∧
    (feature_state.cell 4).imports = [sym_A] ∧
    (Ffeaturep K0 feature_state sym_f).1 = .ok (repv.cons sym_f K0.nil) :=
  ⟨⟨_, rfl⟩, by decide, by decide, by decide, by decide⟩

/-! ## A failed `make-structure` (C18) -/

set_option maxRecDepth 1000000 in
/-- C18 (fails on the code). The state `named_state` is reachable and
`get-structure (A)` returns `nil` in it.  `make-structure` with the name `A` and
a body thunk that fails returns the failure, and so does `make-structure` with a
header thunk that fails; after either, `get-structure (A)` returns the
new structure 3: `F_name_structure` has registered it before the thunks run and
nothing removes it. -/
theorem failed_make_structure_stays_registered :
    Reachable K0 named_state ∧
    F_get_structure K0 named_state sym_A = .ok K0.nil ∧
    (F_make_structure K0 named_state K0.nil K0.nil (repv.funarg 0) sym_A).1
      = .error Err.thrown ∧
    F_get_structure K0
        (F_make_structure K0 named_state K0.nil K0.nil (repv.funarg 0) sym_A).2 sym_A
      = .ok (repv.struct 3) ∧
    (F_make_structure K0 named_state K0.nil (repv.funarg 0) K0.nil sym_A).1
      = .error Err.thrown ∧
    F_get_structure K0
        (F_make_structure K0 named_state K0.nil (repv.funarg 0) K0.nil sym_A).2 sym_A
      = .ok (repv.struct 3) :=
  ⟨⟨_, rfl⟩, by decide, by decide, by decide, by decide, by decide⟩

/-! ## Arguments that fail a declaration (C19) -/

set_option maxRecDepth 1000000 in
/-- C19 as stated fails.  The state `two_state` is reachable; in it `rep` (0) is
current and imports nothing.  `open-structures` of the list `(A 42 B)`, whose
second element is not a symbol, returns `nil` and leaves `A` in the imports of
`rep`; `access-structures` of the same list leaves `A` in its accessible list. -/
theorem open_structures_keeps_earlier_names :
    Reachable K0 two_state ∧
    (two_state.cell 0).imports = [] ∧ (two_state.cell 0).accessible = [] ∧
    (F_open_structures K0 two_state (mk_list K0 [sym_A, repv.other 42, sym_B])).1
      = .ok K0.nil ∧
    ((F_open_structures K0 two_state (mk_list K0 [sym_A, repv.other 42, sym_B])).2.cell 0).imports
      = [sym_A] ∧
    ((F_access_structures K0 two_state
        (mk_list K0 [sym_A, repv.other 42, sym_B])).2.cell 0).accessible
      = [sym_A] :=
  ⟨⟨_, rfl⟩, by decide, by decide, by decide, by decide, by decide⟩

/-- C19, amended. An argument that fails the declared predicate of an operation
makes the operation fail with the state as it was: this holds for
`make-structure`, `name-structure`, `set-interface`, `structure-ref`,
`structure-bound-p`, `structure-set`, `external-structure-ref`,
`structure-exports-p`, `structure-exports-all`, `get-structure`,
`intern-structure`, `open-structures`, `access-structures`,
`make-binding-immutable`, `featurep`, `provide`, `require`, `structure-walk` and
`structure-interface`.  The declared predicate of `open-structures` and of
`access-structures` is that the argument is a list; an element that is not a
symbol and not yet in the list of the current structure ends the loop in the
state that the elements before it have left. -/
theorem type_mismatch_no_effect (K : Statics) (st : State) :
    (∀ sig h b name,
      (rep_LISTP K sig && (h = K.nil || rep_FUNARGP h) && (b = K.nil || rep_FUNARGP b)
        && (name = K.nil || rep_SYMBOLP name)) = false →
      F_make_structure K st sig h b name = (.error Err.bad_arg, st)) ∧
    (∀ s name, (rep_STRUCTUREP s && rep_SYMBOLP name) = false →
      F_name_structure K st s name = (.error Err.bad_arg, st)) ∧
    (∀ s sig, (rep_STRUCTUREP s && rep_LISTP K sig) = false →
      F_set_interface K st s sig = (.error Err.bad_arg, st)) ∧
    (∀ s var, (rep_STRUCTUREP s && rep_SYMBOLP var) = false →
      F_structure_ref K st s var = (.error Err.bad_arg, st) ∧
      F_structure_bound_p K st s var = (.error Err.bad_arg, st) ∧
      F_structure_exports_p K st s var = .error Err.bad_arg) ∧
    (∀ s var v, (rep_STRUCTUREP s && rep_SYMBOLP var) = false →
      F_structure_set K st s var v = (.error Err.bad_arg, st)) ∧
    (∀ name var, (rep_SYMBOLP name && rep_SYMBOLP var) = false →
      F_external_structure_ref K st name var = (.error Err.bad_arg, st)) ∧
    (∀ s status, rep_STRUCTUREP s = false →
      F_structure_exports_all K st s status = (.error Err.bad_arg, st)) ∧
    (∀ name, rep_SYMBOLP name = false →
      F_get_structure K st name = .error Err.bad_arg ∧
      F_intern_structure K st name = (.error Err.bad_arg, st) ∧
      Fmake_binding_immutable K st name = (.error Err.bad_arg, st) ∧
      Ffeaturep K st name = (.error Err.bad_arg, st) ∧
      Fprovide K st name = (.error Err.bad_arg, st) ∧
      Frequire K st name = (.error Err.bad_arg, st)) ∧
    (∀ args, rep_LISTP K args = false →
      F_open_structures K st args = (.error Err.bad_arg, st) ∧
      F_access_structures K st args = (.error Err.bad_arg, st)) ∧
    (∀ fuel fn s, rep_STRUCTUREP s = false →
      F_structure_walk K fuel st fn s = (.error Err.bad_arg, st, []) ∧
      F_structure_interface st s = .error Err.bad_arg) ∧
    (∀ dst a rest, rep_SYMBOLP a = false →
      (Fmemq a (rep_STRUCTURE st dst).imports = [] → open_loop K dst st (a :: rest) = st) ∧
      (Fmemq a (rep_STRUCTURE st dst).accessible = [] →
        access_loop K dst st (a :: rest) = st)) := by
  have hget : ∀ name, rep_SYMBOLP name = false →
      F_get_structure K st name = .error Err.bad_arg := by
    intro name h
    unfold F_get_structure
    rw [h]
    rfl
  have hintern : ∀ name, rep_SYMBOLP name = false →
      F_intern_structure K st name = (.error Err.bad_arg, st) := by
    intro name h
    unfold F_intern_structure
    rw [hget name h]
  refine ⟨?_, ?_, ?_, ?_, ?_, ?_, ?_, ?_, ?_, ?_, ?_⟩
  · intro sig h b name hf
    unfold F_make_structure
    rw [hf]
    rfl
  · intro s name hf
    unfold F_name_structure
    rw [hf]
    rfl
  · intro s sig hf
    unfold F_set_interface
    cases s <;> simp_all [rep_STRUCTUREP]
  · intro s var hf
    have h1 : F_structure_ref K st s var = (.error Err.bad_arg, st) := by
      unfold F_structure_ref
      cases s <;> simp_all [rep_STRUCTUREP]
    refine ⟨h1, ?_, ?_⟩
    · unfold F_structure_bound_p
      rw [h1]
    · unfold F_structure_exports_p
      rw [hf]
      rfl
  · intro s var v hf
    unfold F_structure_set
    cases s <;> simp_all [rep_STRUCTUREP]
  · intro name var hf
    unfold F_external_structure_ref
    rw [hf]
    rfl
  · intro s status hf
    unfold F_structure_exports_all
    rw [hf]
    rfl
  · intro name hf
    refine ⟨hget name hf, hintern name hf, ?_, ?_, ?_, ?_⟩
    · unfold Fmake_binding_immutable
      rw [hf]
      rfl
    · unfold Ffeaturep
      rw [hf]
      rfl
    · unfold Fprovide
      rw [hf]
      rfl
    · unfold Frequire
      rw [hf]
      rfl
  · intro args hf
    constructor
    · unfold F_open_structures
      rw [hf]
      rfl
    · unfold F_access_structures
      rw [hf]
      rfl
  · intro fuel fn s hf
    constructor
    · unfold F_structure_walk
      cases s <;> simp_all [rep_STRUCTUREP]
    · unfold F_structure_interface
      cases s <;> simp_all [rep_STRUCTUREP]
  · intro dst a rest hf
    constructor
    · intro hm
      unfold open_loop
      rw [if_pos hm, hintern a hf]
    · intro hm
      unfold access_loop
      rw [if_pos hm, hintern a hf]

set_option maxRecDepth 1000000 in
/-- C19, amended, at a concrete input: `structure-set` with the variable 42
fails in `two_state` and leaves it as it was. -/
theorem type_mismatch_no_effect_witness :
    (rep_STRUCTUREP (repv.struct 0) && rep_SYMBOLP (repv.other 42)) = false ∧
    F_structure_set K0 two_state (repv.struct 0) (repv.other 42) (repv.other 1)
      = (.error Err.bad_arg, two_state) :=
  ⟨rfl, (type_mismatch_no_effect K0 two_state).2.2.2.2.1 (repv.struct 0) (repv.other 42)
    (repv.other 1) rfl⟩

/-! ## `open-structures` (C17) -/

/-- What `get-structure` returns depends on the node heap, the registry root
and the buckets of the structures only. -/
theorem F_get_structure_congr (K : Statics) (st st2 : State) (hn : st2.nodes = st.nodes)
    (hr : st2.rep_structures_structure = st.rep_structures_structure)
    (hb : ∀ r, (st2.cell r).buckets = (st.cell r).buckets) (name : repv) :
    F_get_structure K st2 name = F_get_structure K st name := by
  have hnode : ∀ m, st2.node m = st.node m := by
    intro m
    unfold State.node
    rw [hn]
  have hl : lookup K st2 (rep_STRUCTURE st2 st2.rep_structures_structure) name
      = lookup K st (rep_STRUCTURE st st.rep_structures_structure) name := by
    refine lookup_congr K name (fun m => by rw [hnode m]) ?_
    rw [hr]
    cases st.rep_structures_structure with
    | struct r => exact hb r
    | _ => rfl
  unfold F_get_structure
  rw [hl]
  simp only [hnode]

theorem cell_set_cell_buckets (st : State) (c : Nat) (S : rep_struct)
    (hb : S.buckets = (st.cell c).buckets) (r : Nat) :
    ((st.set_cell c S).cell r).buckets = (st.cell r).buckets := by
  by_cases hrc : c = r
  · subst hrc
    by_cases hv : c < st.structs.length
    · rw [cell_set_cell_eq _ hv, hb]
    · have h1 : (st.set_cell c S).cell c = default := by
        apply cell_invalid
        simp only [State.set_cell, List.length_set]
        omega
      rw [h1, cell_invalid (Nat.le_of_not_lt hv)]
  · rw [cell_set_cell_ne _ hrc]

/-- A store to a cell that keeps its buckets keeps what `get-structure` returns. -/
theorem F_get_structure_set_cell (K : Statics) (st : State) (c : Nat) (S : rep_struct)
    (hb : S.buckets = (st.cell c).buckets) (name : repv) :
    F_get_structure K (st.set_cell c S) name = F_get_structure K st name :=
  F_get_structure_congr K st (st.set_cell c S) rfl rfl (cell_set_cell_buckets st c S hb) name

theorem F_intern_structure_registered {K : Statics} {st : State} {a : repv} {q : Nat}
    (h : F_get_structure K st a = .ok (repv.struct q)) :
    F_intern_structure K st a = (.ok (repv.struct q), st) := by
  unfold F_intern_structure
  rw [h]
  have : (repv.struct q = K.nil) = False := by simp [Statics.nil]
  simp only [this, if_false]

theorem set_cell_self (st : State) (c : Nat) : st.set_cell c (st.cell c) = st := by
  unfold State.set_cell State.cell
  rw [set_getD_self]

theorem set_cell_set_cell (st : State) (c : Nat) (S S2 : rep_struct) :
    (st.set_cell c S).set_cell c S2 = st.set_cell c S2 := by
  unfold State.set_cell
  simp only [List.set_set]

/-- The loop of `open-structures` over names that are registered structures
stores the list `open_imports` in the current structure and changes nothing
else. -/
theorem open_loop_registered (K : Statics) (c : Nat) :
    ∀ (names : List repv) (st : State), c < st.structs.length →
      (∀ a ∈ names, ∃ q, F_get_structure K st a = .ok (repv.struct q)) →
      open_loop K (repv.struct c) st names
        = st.set_cell c { st.cell c with imports := open_imports (st.cell c).imports names } := by
  intro names
  induction names with
  | nil =>
    intro st _ _
    unfold open_loop open_imports
    exact (set_cell_self st c).symm
  | cons a rest ih =>
    intro st hc hreg
    obtain ⟨q, hq⟩ := hreg a (List.mem_cons_self a rest)
    unfold open_loop
    simp only [rep_STRUCTURE]
    by_cases hm : a ∈ (st.cell c).imports
    · have h1 : Fmemq a (st.cell c).imports ≠ [] := by
        rw [Ne, Fmemq_eq_nil]; exact fun h => h hm
      rw [if_neg h1, ih st hc (fun b hb => hreg b (List.mem_cons_of_mem a hb))]
      simp only [open_imports, List.foldl_cons, hm, if_true]
    · have h1 : Fmemq a (st.cell c).imports = [] := by
        rw [Fmemq_eq_nil]; exact hm
      rw [if_pos h1, F_intern_structure_registered hq]
      simp only [rep_STRUCTUREP, if_true, State.update_struct]
      have hc2 : c < (st.set_cell c
          { st.cell c with imports := a :: (st.cell c).imports }).structs.length := by
        simp only [State.set_cell, List.length_set]
        exact hc
      rw [ih _ hc2 (fun b hb => by
        obtain ⟨q2, hq2⟩ := hreg b (List.mem_cons_of_mem a hb)
        exact ⟨q2, (F_get_structure_set_cell K st c
          { st.cell c with imports := a :: (st.cell c).imports } rfl b).trans hq2⟩)]
      rw [cell_set_cell_eq _ hc, set_cell_set_cell]
      simp only [open_imports, List.foldl_cons, hm, if_false]

theorem open_imports_mem_old (names : List repv) :
    ∀ (old : List repv) (a : repv), a ∈ old → a ∈ open_imports old names := by
  induction names with
  | nil => intro old a h; exact h
  | cons b rest ih =>
    intro old a h
    simp only [open_imports, List.foldl_cons]
    apply ih
    split
    · exact h
    · exact List.mem_cons_of_mem b h

theorem open_imports_mem (names : List repv) :
    ∀ (old : List repv) (a : repv), a ∈ names → a ∈ open_imports old names := by
  induction names with
  | nil => intro old a h; cases h
  | cons b rest ih =>
    intro old a h
    simp only [open_imports, List.foldl_cons]
    rcases List.mem_cons.mp h with h1 | h1
    · subst h1
      apply open_imports_mem_old
      split
      · assumption
      · exact List.mem_cons_self _ _
    · exact ih _ a h1

theorem open_imports_front (names : List repv) :
    ∀ old : List repv, ∃ front, open_imports old names = front ++ old ∧ front.Nodup ∧
      ∀ a ∈ front, a ∈ names ∧ a ∉ old := by
  induction names with
  | nil => intro old; exact ⟨[], rfl, List.nodup_nil, fun a h => by cases h⟩
  | cons b rest ih =>
    intro old
    simp only [open_imports, List.foldl_cons]
    by_cases hb : b ∈ old
    · rw [if_pos hb]
      obtain ⟨front, h1, h2, h3⟩ := ih old
      exact ⟨front, h1, h2, fun a ha => ⟨List.mem_cons_of_mem b (h3 a ha).1, (h3 a ha).2⟩⟩
    · rw [if_neg hb]
      obtain ⟨front, h1, h2, h3⟩ := ih (b :: old)
      refine ⟨front ++ [b], ?_, ?_, ?_⟩
      · show open_imports (b :: old) rest = _
        rw [h1]
        simp
      · rw [List.nodup_append]
        refine ⟨h2, List.nodup_singleton b, ?_⟩
        intro a ha hab
        rw [List.mem_singleton] at hab
        subst hab
        exact (h3 a ha).2 (List.mem_cons_self _ _)
      · intro a ha
        rcases List.mem_append.mp ha with h4 | h4
        · exact ⟨List.mem_cons_of_mem b (h3 a h4).1,
            fun h => (h3 a h4).2 (List.mem_cons_of_mem b h)⟩
        · rw [List.mem_singleton] at h4
          subst h4
          exact ⟨List.mem_cons_self _ _, hb⟩

theorem open_imports_all_mem (names : List repv) :
    ∀ old : List repv, (∀ a ∈ names, a ∈ old) → open_imports old names = old := by
  induction names with
  | nil => intro old _; rfl
  | cons b rest ih =>
    intro old h
    simp only [open_imports, List.foldl_cons]
    rw [if_pos (h b (List.mem_cons_self _ _))]
    exact ih old (fun a ha => h a (List.mem_cons_of_mem b ha))

/-- What `open-structures` does when every element of `args` is registered to a
structure. -/
theorem F_open_structures_registered (K : Statics) (st : State) (c : Nat) (args : repv)
    (hcur : st.rep_structure = repv.struct c) (hc : c < st.structs.length)
    (hargs : rep_LISTP K args = true)
    (hreg : ∀ a ∈ list_elems args, ∃ q, F_get_structure K st a = .ok (repv.struct q)) :
    F_open_structures K st args
      = (.ok K.nil, cache_flush (st.set_cell c
          { st.cell c with imports := open_imports (st.cell c).imports (list_elems args) })) := by
  unfold F_open_structures
  rw [hargs, hcur]
  simp only [if_true]
  rw [open_loop_registered K c _ st hc hreg]

/-- C17. Let the current structure be a structure of the state and `args` a
list whose elements are all registered to structures.  After
`open-structures (args)` the imports of the current structure are the list
`open_imports`: every element of `args` is in it; it is the old list of imports
behind a front that has no element twice and holds only elements of `args` that
were not imported; and a second `open-structures (args)` leaves it as it is. -/
theorem open_structures_adds_new_names (K : Statics) (st : State) (c : Nat) (args : repv)
    (hcur : st.rep_structure = repv.struct c) (hc : c < st.structs.length)
    (hargs : rep_LISTP K args = true)
    (hreg : ∀ a ∈ list_elems args, ∃ q, F_get_structure K st a = .ok (repv.struct q)) :
    ((F_open_structures K st args).2.cell c).imports
      = open_imports (st.cell c).imports (list_elems args) ∧
    (∀ a ∈ list_elems args, a ∈ ((F_open_structures K st args).2.cell c).imports) ∧
    (∃ front, ((F_open_structures K st args).2.cell c).imports = front ++ (st.cell c).imports ∧
      front.Nodup ∧ ∀ a ∈ front, a ∈ list_elems args ∧ a ∉ (st.cell c).imports) ∧
    ((F_open_structures K (F_open_structures K st args).2 args).2.cell c).imports
      = ((F_open_structures K st args).2.cell c).imports := by
  have h0 : (F_open_structures K st args).2 = cache_flush (st.set_cell c
      { st.cell c with imports := open_imports (st.cell c).imports (list_elems args) }) := by
    rw [F_open_structures_registered K st c args hcur hc hargs hreg]
  generalize (F_open_structures K st args).2 = st1 at h0
  have hst1 := h0
  have hcell : (st1.cell c).imports = open_imports (st.cell c).imports (list_elems args) := by
    rw [hst1]
    show ((st.set_cell c _).cell c).imports = _
    rw [cell_set_cell_eq _ hc]
  have hc1 : c < st1.structs.length := by
    rw [hst1]
    show c < (st.structs.set c _).length
    rw [List.length_set]
    exact hc
  have hcur1 : st1.rep_structure = repv.struct c := by
    rw [hst1]
    exact hcur
  have hget : ∀ a, F_get_structure K st1 a = F_get_structure K st a := by
    intro a
    apply F_get_structure_congr K st st1
    · rw [hst1]; rfl
    · rw [hst1]; rfl
    · intro r
      rw [hst1]
      exact cell_set_cell_buckets st c
        { st.cell c with imports := open_imports (st.cell c).imports (list_elems args) } rfl r
  have hreg1 : ∀ a ∈ list_elems args, ∃ q, F_get_structure K st1 a = .ok (repv.struct q) := by
    intro a ha
    obtain ⟨q, hq⟩ := hreg a ha
    exact ⟨q, (hget a).trans hq⟩
  refine ⟨hcell, ?_, ?_, ?_⟩
  · intro a ha
    rw [hcell]
    exact open_imports_mem _ _ a ha
  · rw [hcell]
    exact open_imports_front _ _
  · rw [F_open_structures_registered K st1 c args hcur1 hc1 hargs hreg1]
    show ((st1.set_cell c _).cell c).imports = _
    rw [cell_set_cell_eq _ hc1]
    show open_imports _ _ = _
    apply open_imports_all_mem
    intro a ha
    rw [hcell]
    exact open_imports_mem _ _ a ha

set_option maxRecDepth 1000000 in
/-- C17 at a concrete input: in `two_state`, `open-structures` of `(A B A)`. -/
theorem open_structures_adds_new_names_witness :
    two_state.rep_structure = repv.struct 0 ∧ 0 < two_state.structs.length ∧
    rep_LISTP K0 (mk_list K0 [sym_A, sym_B, sym_A]) = true ∧
    ((F_open_structures K0 two_state (mk_list K0 [sym_A, sym_B, sym_A])).2.cell 0).imports
      = [sym_B, sym_A] ∧
    ((F_open_structures K0 two_state (mk_list K0 [sym_A, sym_B, sym_A])).2.cell 0).imports
      = open_imports (two_state.cell 0).imports (list_elems (mk_list K0 [sym_A, sym_B, sym_A])) :=
  ⟨by decide, by decide, by decide, by decide,
    (open_structures_adds_new_names K0 two_state 0 (mk_list K0 [sym_A, sym_B, sym_A])
      (by decide) (by decide) (by decide)
      (fun a ha => by
        have h : a = sym_A ∨ a = sym_B := by
          simp only [mk_list, list_elems, List.mem_cons, List.mem_singleton,
            List.not_mem_nil, or_false] at ha
          rcases ha with h | h | h
          · exact Or.inl h
          · exact Or.inr h
          · exact Or.inl h
        rcases h with h | h
        · exact ⟨3, by rw [h]; decide⟩
        · exact ⟨4, by rw [h]; decide⟩)).1⟩

/-! ## `provide` (C16) -/

theorem node_cache_only {st st2 : State} (h : cache_only st st2) (n : Nat) :
    st2.node n = st.node n := by
  unfold State.node
  rw [h.2.1]

theorem cell_cache_only {st st2 : State} (h : cache_only st st2) (p : Nat) :
    st2.cell p = st.cell p := by
  unfold State.cell
  rw [h.1]

theorem lookup_cache_only (K : Statics) {st st2 : State} (h : cache_only st st2) (p : Nat)
    (x : repv) : lookup K st2 (st2.cell p) x = lookup K st (st.cell p) x :=
  lookup_congr K x (fun m => by rw [node_cache_only h m]) (by rw [cell_cache_only h p])

/-- On a structure value and a symbol, `structure-ref` returns a value and
changes the cache only; when the structure has a binding of the symbol it
returns that binding and changes nothing. -/
theorem F_structure_ref_ok (K : Statics) (st : State) (c : Nat) (x : repv)
    (hx : rep_SYMBOLP x = true) :
    ∃ v st1, F_structure_ref K st (repv.struct c) x = (.ok v, st1) ∧ cache_only st st1 ∧
      ∀ n, lookup K st (st.cell c) x = some n → v = (st.node n).binding ∧ st1 = st := by
  unfold F_structure_ref
  simp only [hx, if_true]
  cases hl : lookup K st (st.cell c) x with
  | some n =>
    refine ⟨_, st, rfl, cache_only_refl st, ?_⟩
    intro m hm
    cases hm
    exact ⟨rfl, rfl⟩
  | none =>
    obtain ⟨st1, r, h1, h2, -⟩ := rep_search_imports_ok K st.fuel st c x (free_count_le st)
    rw [h1]
    cases r with
    | some n => exact ⟨_, st1, rfl, h2, fun m hm => by cases hm⟩
    | none => exact ⟨_, st1, rfl, h2, fun m hm => by cases hm⟩

theorem cache_invalidate_symbol_cur (st : State) (x : repv) :
    (cache_invalidate_symbol st x).rep_structure = st.rep_structure := by
  unfold cache_invalidate_symbol; dsimp only; split <;> rfl

theorem lookup_or_add_cur (K : Statics) (st : State) (s : Nat) (x : repv) :
    (lookup_or_add K st s x).1.rep_structure = st.rep_structure := by
  unfold lookup_or_add
  cases lookup K st (st.cell s) x with
  | some n => rfl
  | none => exact cache_invalidate_symbol_cur _ _

theorem F_structure_set_cur (K : Statics) (st : State) (sv x v : repv) :
    (F_structure_set K st sv x v).2.rep_structure = st.rep_structure := by
  unfold F_structure_set
  cases sv with
  | struct s =>
    dsimp only
    split
    · split
      · exact lookup_or_add_cur K st s x
      · exact lookup_or_add_cur K st s x
    · rfl
  | _ => rfl

theorem set_node_self (st : State) (n : Nat) : st.set_node n (st.node n) = st := by
  unfold State.set_node State.node
  rw [set_getD_self]

theorem memq_loop_cases (K : Statics) (f : repv) :
    ∀ v : repv, memq_loop K f v = K.nil ∨ rep_CONSP (memq_loop K f v) = true := by
  intro v
  induction v with
  | cons a d _ ihd =>
    unfold memq_loop
    split
    · exact Or.inr rfl
    · exact ihd
  | _ => exact Or.inl rfl

theorem consp_ne_nil (K : Statics) {v : repv} (h : rep_CONSP v = true) : v ≠ K.nil := by
  intro e
  rw [e] at h
  cases h

theorem memq_loop_cons_self (K : Statics) (f v : repv) :
    memq_loop K f (repv.cons f v) = repv.cons f v := by
  simp [memq_loop]

theorem listp_not_void (K : Statics) {v : repv} (h : rep_LISTP K v = true) :
    rep_VOIDP v = false := by
  cases v <;> first | rfl | (simp [rep_LISTP, rep_CONSP, Statics.nil] at h)

/-- The value `provide` stores, for a list: it is a list, and `memq` finds the
feature in it. -/
theorem provide_value_spec (K : Statics) (f v : repv) (hl : rep_LISTP K v = true) :
    rep_LISTP K (provide_value K f v) = true ∧
    rep_CONSP (memq_loop K f (provide_value K f v)) = true := by
  unfold provide_value Fmemq_value
  rw [hl]
  simp only [if_true, Except.ok.injEq]
  rcases memq_loop_cases K f v with h | h
  · rw [if_pos h]
    exact ⟨by simp [rep_LISTP, rep_CONSP], by rw [memq_loop_cons_self]; rfl⟩
  · rw [if_neg (consp_ne_nil K h)]
    exact ⟨hl, h⟩

/-- C16. Let the current structure be a structure of the state whose record
for `features`, if it has one, is not constant, and let the value that
`structure-ref` returns for `features` be void or a list.  For every symbol `f`,
`provide (f)` returns `f`; in the state it leaves, `featurep (f)` returns a
value that is not `nil`, and a second `provide (f)` returns `f` and leaves that
state as it is. -/
theorem provide_idempotent (K : Statics) (st : State) (c : Nat) (f : repv)
    (hcur : st.rep_structure = repv.struct c) (hc : c < st.structs.length)
    (hf : rep_SYMBOLP f = true)
    (hnc : ∀ m, lookup K st (st.cell c) (repv.symbol K.Qfeatures) = some m →
      (st.node m).is_constant = false)
    (hlist : ∀ v, (F_structure_ref K st (repv.struct c) (repv.symbol K.Qfeatures)).1 = .ok v →
      rep_VOIDP v = true ∨ rep_LISTP K v = true) :
    ∃ st1 v, Fprovide K st f = (.ok f, st1) ∧
      (Ffeaturep K st1 f).1 = .ok v ∧ v ≠ K.nil ∧
      Fprovide K st1 f = (.ok f, st1) := by
  obtain ⟨v0, sta, h1, h2, -⟩ := F_structure_ref_ok K st c (repv.symbol K.Qfeatures) rfl
  have hv0 : rep_LISTP K (if rep_VOIDP v0 = true then K.nil else v0) = true := by
    rcases hlist v0 (by rw [h1]) with h | h
    · rw [if_pos h]
      simp [rep_LISTP]
    · rw [if_neg (by rw [listp_not_void K h]; simp)]
      exact h
  obtain ⟨hp1, hp2⟩ := provide_value_spec K f _ hv0
  have hsc : sta.rep_structure = repv.struct c := by rw [h2.2.2.1]; exact hcur
  have hnc2 : ∀ m, lookup K sta (sta.cell c) (repv.symbol K.Qfeatures) = some m →
      (sta.node m).is_constant = false := by
    intro m hm
    rw [lookup_cache_only K h2] at hm
    rw [node_cache_only h2]
    exact hnc m hm
  obtain ⟨st1, n, g1, g2, g3, g4, -⟩ := F_structure_set_spec K sta c (repv.symbol K.Qfeatures)
    (provide_value K f (if rep_VOIDP v0 = true then K.nil else v0)) (by rw [h2.1]; exact hc) rfl hnc2
  have hcur1 : st1.rep_structure = repv.struct c := by
    have := F_structure_set_cur K sta (repv.struct c) (repv.symbol K.Qfeatures)
      (provide_value K f (if rep_VOIDP v0 = true then K.nil else v0))
    rw [g1] at this
    exact this.trans hsc
  have hfirst : Fprovide K st f = (.ok f, st1) := by
    unfold Fprovide
    rw [if_pos hf, hcur, h1]
    dsimp only
    rw [hsc, g1]
  generalize provide_value K f (if rep_VOIDP v0 = true then K.nil else v0) = w at hp1 hp2 g1 g3
  obtain ⟨v1, stb, k1, -, k3⟩ := F_structure_ref_ok K st1 c (repv.symbol K.Qfeatures) rfl
  obtain ⟨e1, e2⟩ := k3 n g2
  rw [g3] at e1
  subst e1 e2
  have hvoid : rep_VOIDP v1 = false := listp_not_void K hp1
  have hmem : Fmemq_value K f v1 = .ok (memq_loop K f v1) := by
    unfold Fmemq_value
    rw [if_pos hp1]
  refine ⟨stb, memq_loop K f v1, hfirst, ?_, consp_ne_nil K hp2, ?_⟩
  · unfold Ffeaturep
    rw [if_pos hf, hcur1, k1]
    dsimp only
    rw [hvoid]
    simp only [Bool.false_eq_true, if_false]
    exact hmem
  · unfold Fprovide
    rw [if_pos hf, hcur1, k1]
    dsimp only
    rw [hvoid, hcur1]
    simp only [Bool.false_eq_true, if_false]
    have hpv : provide_value K f v1 = v1 := by
      unfold provide_value
      rw [hmem, if_neg]
      intro e
      exact consp_ne_nil K hp2 (Except.ok.inj e)
    rw [hpv]
    unfold F_structure_set
    dsimp only
    rw [if_pos (show rep_SYMBOLP (repv.symbol K.Qfeatures) = true from rfl), lookup_or_add_found g2]
    dsimp only
    rw [g4]
    simp only [Bool.not_false, if_true]
    have hn : (⟨(stb.node n).symbol, v1, false, (stb.node n).is_exported⟩ : rep_struct_node)
        = stb.node n := by
      cases hN : stb.node n with
      | mk a b d e =>
        rw [hN] at g3 g4
        dsimp only at g3 g4
        rw [g3, g4]
    rw [hn, set_node_self]

set_option maxRecDepth 1000000 in
/-- Witness of C16 in the state with the structures `A` and `B`: the
current structure is the structure at address 0 and `features` has no record yet. -/
theorem provide_idempotent_witness :
    ∃ st1 v, Fprovide K0 two_state sym_f = (.ok sym_f, st1) ∧
      (Ffeaturep K0 st1 sym_f).1 = .ok v ∧ v ≠ K0.nil ∧
      Fprovide K0 st1 sym_f = (.ok sym_f, st1) :=
  provide_idempotent K0 two_state 0 sym_f (by decide) (by decide) rfl
    (by decide)
    (fun v h => by
      have e : (F_structure_ref K0 two_state (repv.struct 0) (repv.symbol K0.Qfeatures)).1
          = .ok repv.void := by decide
      rw [e] at h
      cases h
      exact Or.inl rfl)

set_option maxRecDepth 1000000 in
/-- C16 as stated fails.  In the reachable state `badfeat_state` the
current structure `rep` (0) has a record of `features` that is not constant and holds
the value 42, which is not a list.  `provide (f)` returns `f`, but `memq` then
rejects the value: the binding stays 42 and `featurep (f)` fails instead of
being true. -/
theorem provide_non_list_features :
    Reachable K0 badfeat_state ∧
    badfeat_state.rep_structure = repv.struct 0 ∧
    (∃ m, lookup K0 badfeat_state (badfeat_state.cell 0) (repv.symbol K0.Qfeatures) = some m ∧
      (badfeat_state.node m).is_constant = false ∧
      (badfeat_state.node m).binding = repv.other 42) ∧
    (Fprovide K0 badfeat_state sym_f).1 = .ok sym_f ∧
    (F_structure_ref K0 (Fprovide K0 badfeat_state sym_f).2 (repv.struct 0)
      (repv.symbol K0.Qfeatures)).1 = .ok (repv.other 42) ∧
    (Ffeaturep K0 (Fprovide K0 badfeat_state sym_f).2 sym_f).1 = .error Err.bad_arg := by
  refine ⟨⟨_, rfl⟩, by decide, ⟨3, by decide, by decide, by decide⟩, by decide, by decide,
    by decide⟩

/-! ## What the lookups keep -/

theorem lookup_cache_some {st : State} {s : Nat} {var : repv} {n : Nat}
    (h : lookup_cache st s var = some n) : (st.node n).symbol = var := by
  unfold lookup_cache at h
  dsimp only at h
  split at h
  · rename_i hc
    cases h
    exact hc.2
  · cases h

theorem search_loop_good {P : State → Prop} {x : repv}
    (look : State → repv → Option (State × Option Nat)) (s : Nat) (hP : lookup_stable P)
    (hlook : ∀ st nm, P st → lookup_good P x (look st nm)) :
    ∀ (imports : List repv) (st : State), P st → lookup_good P x (search_loop look s st imports) := by
  intro imports
  induction imports with
  | nil =>
    intro st hst st2 r h
    unfold search_loop at h
    cases h
    exact ⟨hst, fun n hn => by cases hn⟩
  | cons nm rest ih =>
    intro st hst
    unfold search_loop
    cases hq : look st nm with
    | none => intro st2 r h; cases h
    | some q =>
      obtain ⟨st1, o⟩ := q
      obtain ⟨g1, g2⟩ := hlook st nm hst st1 o hq
      cases o with
      | some n =>
        intro st2 r h
        cases h
        exact ⟨hP.1 _ _ _ g1, fun m hm => by cases hm; exact g2 n rfl⟩
      | none => exact ih st1 g1

theorem search_imports_with_good {P : State → Prop} {x : repv}
    (look : State → repv → Option (State × Option Nat)) (s : Nat) (hP : lookup_stable P)
    (hlook : ∀ st nm, P st → lookup_good P x (look st nm)) (st : State) (hst : P st) :
    lookup_good P x (search_imports_with look st s x) := by
  unfold search_imports_with
  cases hc : lookup_cache st s x with
  | some n =>
    intro st2 r h
    cases h
    exact ⟨hst, fun m hm => by cases hm; exact lookup_cache_some hc⟩
  | none => exact search_loop_good look s hP hlook _ st hst

theorem node_set_exclusion (st : State) (p : Nat) (b : Bool) (n : Nat) :
    (st.set_exclusion p b).node n = st.node n := rfl

theorem clear_exclusion_good {P : State → Prop} {x : repv} (hP : lookup_stable P) (p : Nat)
    {res : Option (State × Option Nat)} (h : lookup_good P x res) :
    lookup_good P x (clear_exclusion p res) := by
  cases res with
  | none => intro st2 r h2; cases h2
  | some q =>
    obtain ⟨st1, o⟩ := q
    intro st2 r h2
    unfold clear_exclusion at h2
    cases h2
    obtain ⟨g1, g2⟩ := h st1 o rfl
    exact ⟨hP.2 _ _ _ g1, fun n hn => by rw [node_set_exclusion]; exact g2 n hn⟩

theorem search_inherited_good {P : State → Prop} {x : repv}
    (look : State → repv → Option (State × Option Nat)) (hP : lookup_stable P)
    (hlook : ∀ st nm, P st → lookup_good P x (look st nm)) (st : State) (p : Nat) (hst : P st) :
    lookup_good P x (search_inherited look st p x) := by
  unfold search_inherited
  apply clear_exclusion_good hP
  split
  · exact search_imports_with_good look p hP hlook _ (hP.2 _ _ _ hst)
  · intro st2 r h
    cases h
    exact ⟨hP.2 _ _ _ hst, fun n hn => by cases hn⟩

theorem lookup_recursively_with_good {P : State → Prop} {x : repv} (K : Statics)
    (look : State → repv → Option (State × Option Nat)) (hP : lookup_stable P)
    (hlook : ∀ st nm, P st → lookup_good P x (look st nm)) (st : State) (name : repv)
    (hst : P st) : lookup_good P x (lookup_recursively_with K look st name x) := by
  unfold lookup_recursively_with
  split
  · split
    · intro st2 r h
      cases h
      exact ⟨hst, fun n hn => by cases hn⟩
    · split
      · rename_i n hn
        intro st2 r h
        cases h
        refine ⟨hst, fun m hm => ?_⟩
        split at hm
        · cases hm; exact lookup_some hn
        · cases hm
      · exact search_inherited_good look hP hlook st _ hst
  · intro st2 r h
    cases h
    exact ⟨hst, fun n hn => by cases hn⟩

theorem lookup_recursively_good {P : State → Prop} (K : Statics) (x : repv)
    (hP : lookup_stable P) :
    ∀ (fuel : Nat) (st : State) (name : repv), P st →
      lookup_good P x (lookup_recursively K fuel st name x) := by
  intro fuel
  induction fuel with
  | zero => intro st name _ st2 r h; cases h
  | succ fuel ih =>
    intro st name hst
    unfold lookup_recursively
    exact lookup_recursively_with_good K _ hP (fun st2 nm h2 => ih st2 nm h2) st name hst

theorem rep_search_imports_good {P : State → Prop} (K : Statics) (x : repv)
    (hP : lookup_stable P) (fuel : Nat) (st : State) (s : Nat) (hst : P st) :
    lookup_good P x (rep_search_imports K fuel st s x) :=
  search_imports_with_good _ s hP (fun st2 nm h2 => lookup_recursively_good K x hP fuel st2 nm h2)
    st hst

theorem cache_length_stable : lookup_stable (fun st => st.ref_cache.length = CACHE_SETS) := by
  refine ⟨fun st s n h => ?_, fun st p b h => h⟩
  unfold enter_cache
  simp only [List.length_set]
  exact h

/-- The loop of `rep_search_imports` enters what it finds in the cache. -/
theorem search_loop_entered {P : State → Prop} {x : repv}
    (look : State → repv → Option (State × Option Nat)) (s : Nat)
    (hlook : ∀ st nm, P st → lookup_good P x (look st nm)) :
    ∀ (imports : List repv) (st st2 : State) (n : Nat), P st →
      search_loop look s st imports = some (st2, some n) →
      ∃ st1, P st1 ∧ (st1.node n).symbol = x ∧ st2 = enter_cache st1 s n := by
  intro imports
  induction imports with
  | nil =>
    intro st st2 n _ h
    unfold search_loop at h
    cases h
  | cons nm rest ih =>
    intro st st2 n hst h
    unfold search_loop at h
    cases hq : look st nm with
    | none => rw [hq] at h; cases h
    | some q =>
      obtain ⟨st1, o⟩ := q
      rw [hq] at h
      obtain ⟨g1, g2⟩ := hlook st nm hst st1 o hq
      cases o with
      | some m =>
        dsimp only at h
        cases h
        exact ⟨st1, g1, g2 _ rfl, rfl⟩
      | none => exact ih st1 st2 n g1 h

theorem CACHE_HASH_lt (x : repv) : CACHE_HASH x < CACHE_SETS := by
  unfold CACHE_HASH
  exact Nat.mod_lt _ (by decide)

theorem lookup_cache_enter (st : State) (s n : Nat) (x : repv)
    (hlen : st.ref_cache.length = CACHE_SETS) (hn : (st.node n).symbol = x) :
    lookup_cache (enter_cache st s n) s x = some n := by
  unfold lookup_cache State.line enter_cache
  dsimp only
  rw [hn, getD_set_eq _ _ _ _ (by rw [hlen]; exact CACHE_HASH_lt x)]
  dsimp only
  have : ({ st with ref_cache := st.ref_cache.set (CACHE_HASH x) ⟨some s, n⟩ } : State).node n
      = st.node n := rfl
  rw [this, hn]
  simp

/-- A second `structure-ref` of the same symbol in the same structure returns
what the first returned and leaves the state the first left. -/
theorem F_structure_ref_again (K : Statics) (st : State) (c : Nat) (x : repv)
    (r : Except Err repv) (st1 : State)
    (hlen : st.ref_cache.length = CACHE_SETS)
    (h : F_structure_ref K st (repv.struct c) x = (r, st1)) :
    F_structure_ref K st1 (repv.struct c) x = (r, st1) ∧
    st1.ref_cache.length = CACHE_SETS ∧ cache_only st st1 := by
  have same : st1 = st → F_structure_ref K st1 (repv.struct c) x = (r, st1) ∧
      st1.ref_cache.length = CACHE_SETS ∧ cache_only st st1 := by
    intro e
    subst e
    exact ⟨h, hlen, cache_only_refl _⟩
  have h0 := h
  unfold F_structure_ref at h
  dsimp only at h
  split at h
  · rename_i hx
    cases hl : lookup K st (st.cell c) x with
    | some n =>
      rw [hl] at h
      exact same (Prod.mk.inj h).2.symm
    | none =>
      rw [hl] at h
      dsimp only at h
      cases hs : rep_search_imports K st.fuel st c x with
      | none =>
        rw [hs] at h
        exact same (Prod.mk.inj h).2.symm
      | some q =>
        obtain ⟨st2, o⟩ := q
        rw [hs] at h
        obtain ⟨st3, o3, k1, k2, k3⟩ := rep_search_imports_ok K st.fuel st c x (free_count_le st)
        rw [hs] at k1
        cases k1
        cases o with
        | none =>
          dsimp only at h
          have e := k3 rfl
          subst e
          exact same (Prod.mk.inj h).2.symm
        | some n =>
          dsimp only at h
          obtain ⟨e1, e2⟩ := Prod.mk.inj h
          subst e2
          unfold rep_search_imports search_imports_with at hs
          cases hc : lookup_cache st c x with
          | some m =>
            rw [hc] at hs
            cases hs
            exact same rfl
          | none =>
            rw [hc] at hs
            dsimp only at hs
            obtain ⟨st4, g1, g2, g3⟩ := search_loop_entered
              (fun st2 nm => lookup_recursively K st.fuel st2 nm x) c
              (fun st5 nm h5 => lookup_recursively_good K x cache_length_stable st.fuel st5 nm h5)
              _ st st2 n hlen hs
            have hlen2 : st2.ref_cache.length = CACHE_SETS := by
              rw [g3]
              exact cache_length_stable.1 _ _ _ g1
            refine ⟨?_, hlen2, k2⟩
            unfold F_structure_ref
            dsimp only
            rw [if_pos hx, lookup_cache_only K k2, hl]
            dsimp only
            have hfuel : st2.fuel = st.fuel := by unfold State.fuel; rw [k2.1]
            have hhit : rep_search_imports K st2.fuel st2 c x = some (st2, some n) := by
              unfold rep_search_imports search_imports_with
              rw [g3, lookup_cache_enter st4 c n x g1 g2]
            rw [hhit]
            dsimp only
            rw [← e1]
  · exact same (Prod.mk.inj h).2.symm

/-! ## `require` (C14) -/

theorem cache_invalidate_symbol_cell (st : State) (x : repv) (q : Nat) :
    (cache_invalidate_symbol st x).cell q = st.cell q := by
  unfold cache_invalidate_symbol; dsimp only; split <;> rfl

theorem migrate_export_imports (S : rep_struct) (var : repv) :
    (migrate_export S var).imports = S.imports := by
  unfold migrate_export; split <;> rfl

theorem double_buckets_imports (K : Statics) (st : State) (S : rep_struct) :
    (double_buckets K st S).imports = S.imports := by
  unfold double_buckets; split <;> rfl

theorem alloc_buckets_imports (S : rep_struct) : (alloc_buckets S).imports = S.imports := by
  unfold alloc_buckets; split <;> rfl

theorem lookup_or_add_imports (K : Statics) (st : State) (s : Nat) (x : repv) (q : Nat) :
    ((lookup_or_add K st s x).1.cell q).imports = (st.cell q).imports := by
  cases h : lookup K st (st.cell s) x with
  | some n => rw [lookup_or_add_found h]
  | none =>
    unfold lookup_or_add
    rw [h]
    dsimp only
    rw [cache_invalidate_symbol_cell]
    show ((st.set_cell s _).cell q).imports = _
    by_cases hq : s = q
    · subst hq
      by_cases hs : s < st.structs.length
      · rw [cell_set_cell_eq _ hs, migrate_export_imports]
        show (double_buckets K st (alloc_buckets (st.cell s))).imports = _
        rw [double_buckets_imports, alloc_buckets_imports]
      · have e : ∀ S, st.set_cell s S = st := by
          intro S
          unfold State.set_cell
          rw [List.set_eq_of_length_le (Nat.le_of_not_lt hs)]
        rw [e]
    · rw [cell_set_cell_ne _ hq]

/-- What `structure-set` does to a structure of the state whatever it returns:
the structure has a record of the symbol afterwards, the lists of imports, the
number of structures and the current structure are as before. -/
theorem F_structure_set_local (K : Statics) (st : State) (s : Nat) (x v : repv)
    (hs : s < st.structs.length) (hx : rep_SYMBOLP x = true) :
    (∃ n, lookup K (F_structure_set K st (repv.struct s) x v).2
      ((F_structure_set K st (repv.struct s) x v).2.cell s) x = some n) ∧
    (∀ q, ((F_structure_set K st (repv.struct s) x v).2.cell q).imports = (st.cell q).imports) ∧
    (F_structure_set K st (repv.struct s) x v).2.structs.length = st.structs.length := by
  obtain ⟨hl, -⟩ := lookup_or_add_lookup K st hs hx
  obtain ⟨f1, -⟩ := lookup_or_add_frame K st s x
  unfold F_structure_set
  dsimp only
  rw [if_pos hx]
  split
  · refine ⟨⟨(lookup_or_add K st s x).2, ?_⟩, fun q => lookup_or_add_imports K st s x q, f1⟩
    dsimp only
    refine (lookup_congr K x (fun m => ?_) rfl).trans hl
    exact symbol_set_node
      (⟨((lookup_or_add K st s x).1.node (lookup_or_add K st s x).2).symbol, v,
        ((lookup_or_add K st s x).1.node (lookup_or_add K st s x).2).is_constant,
        ((lookup_or_add K st s x).1.node (lookup_or_add K st s x).2).is_exported⟩ : rep_struct_node)
      rfl m
  · exact ⟨⟨_, hl⟩, fun q => lookup_or_add_imports K st s x q, f1⟩

theorem F_structure_set_length (K : Statics) (st : State) (sv x v : repv) :
    (F_structure_set K st sv x v).2.structs.length = st.structs.length := by
  unfold F_structure_set
  cases sv with
  | struct s =>
    dsimp only
    split
    · split
      · exact (lookup_or_add_frame K st s x).1
      · exact (lookup_or_add_frame K st s x).1
    · rfl
  | _ => rfl

theorem update_struct_length (st : State) (v : repv) (f : rep_struct → rep_struct) :
    (st.update_struct v f).structs.length = st.structs.length := by
  unfold State.update_struct
  cases v with
  | struct p => simp [State.set_cell]
  | _ => rfl

theorem update_struct_cur (st : State) (v : repv) (f : rep_struct → rep_struct) :
    (st.update_struct v f).rep_structure = st.rep_structure := by
  unfold State.update_struct
  cases v <;> rfl

theorem F_name_structure_frame (K : Statics) (st : State) (v name : repv) :
    (F_name_structure K st v name).2.rep_structure = st.rep_structure ∧
    (F_name_structure K st v name).2.structs.length = st.structs.length := by
  unfold F_name_structure
  split
  · dsimp only
    split
    · split
      · exact ⟨(update_struct_cur _ _ _).trans (F_structure_set_cur K st _ _ _),
          (update_struct_length _ _ _).trans (F_structure_set_length K st _ _ _)⟩
      · exact ⟨F_structure_set_cur K st _ _ _, F_structure_set_length K st _ _ _⟩
    · split
      · exact ⟨F_structure_set_cur K st _ _ _, F_structure_set_length K st _ _ _⟩
      · exact ⟨rfl, rfl⟩
  · exact ⟨rfl, rfl⟩

theorem Frequire_of_featurep (K : Statics) (st sta : State) (f : repv) (r0 : Except Err repv)
    (hf : rep_SYMBOLP f = true) (h : Ffeaturep K st f = (r0, sta)) (hr : r0 ≠ .ok K.nil) :
    Frequire K st f = (.ok f, sta) := by
  unfold Frequire
  rw [if_pos hf, h]
  dsimp only
  rw [if_pos hr]

theorem Frequire_of_import (K : Statics) (st sta : State) (f : repv)
    (hf : rep_SYMBOLP f = true) (h : Ffeaturep K st f = (.ok K.nil, sta))
    (hi : f ∈ (rep_STRUCTURE sta st.rep_structure).imports) :
    Frequire K st f = (.ok (repv.symbol K.Qt), sta) := by
  unfold Frequire
  rw [if_pos hf, h]
  dsimp only
  rw [if_neg (by simp), if_neg]
  rw [Fmemq_eq_nil]
  exact fun hn => hn hi

/-- A second `featurep` returns what the first returned and leaves the state
the first left. -/
theorem Ffeaturep_again (K : Statics) (st sta : State) (c : Nat) (f : repv)
    (r0 : Except Err repv) (hcur : st.rep_structure = repv.struct c)
    (hlen : st.ref_cache.length = CACHE_SETS) (h : Ffeaturep K st f = (r0, sta)) :
    Ffeaturep K sta f = (r0, sta) ∧ cache_only st sta := by
  unfold Ffeaturep at h
  split at h
  · rename_i hf
    rw [hcur] at h
    cases hq : F_structure_ref K st (repv.struct c) (repv.symbol K.Qfeatures) with
    | mk r1 st1 =>
      obtain ⟨a1, -, a3⟩ := F_structure_ref_again K st c _ r1 st1 hlen hq
      rw [hq] at h
      have e : sta = st1 := by
        cases r1 with
        | ok v =>
          dsimp only at h
          split at h <;> exact (Prod.mk.inj h).2.symm
        | error e => exact (Prod.mk.inj h).2.symm
      subst e
      refine ⟨?_, a3⟩
      unfold Ffeaturep
      rw [if_pos hf, a3.2.2.1, hcur, a1]
      exact h
  · obtain ⟨-, e⟩ := Prod.mk.inj h
    subst e
    refine ⟨?_, cache_only_refl _⟩
    unfold Ffeaturep
    rw [if_neg (by assumption)]
    exact congrArg (fun r => (r, st)) (Prod.mk.inj h).1

/-- In a current structure that has a record of `features`, `featurep` leaves
the state as it is. -/
theorem Ffeaturep_local (K : Statics) (st : State) (c n : Nat) (f : repv)
    (hcur : st.rep_structure = repv.struct c)
    (hl : lookup K st (st.cell c) (repv.symbol K.Qfeatures) = some n) :
    (Ffeaturep K st f).2 = st := by
  unfold Ffeaturep
  split
  · rw [hcur]
    obtain ⟨v, st1, k1, -, k3⟩ := F_structure_ref_ok K st c (repv.symbol K.Qfeatures) rfl
    obtain ⟨-, e⟩ := k3 n hl
    subst e
    rw [k1]
    dsimp only
    split <;> rfl
  · rfl

/-- After `require` has imported a structure under the name `f`: a further
`require (f)` returns `f` or `t` and changes nothing. -/
theorem require_after_finish (K : Statics) (stX : State) (c : Nat) (f : repv)
    (hf : rep_SYMBOLP f = true)
    (hcur : stX.rep_structure = repv.struct c) (hc : c < stX.structs.length) :
    ∃ stF r2, cache_flush (Fprovide K (stX.update_struct (repv.struct c)
        (fun S => { S with imports := f :: S.imports })) f).2 = stF ∧
      Frequire K stF f = (.ok r2, stF) ∧ (r2 = f ∨ r2 = repv.symbol K.Qt) ∧
      stF.rep_structure = repv.struct c ∧ f ∈ (stF.cell c).imports := by
  have hI1 : (stX.update_struct (repv.struct c)
      (fun S => { S with imports := f :: S.imports })).rep_structure = repv.struct c := hcur
  have hI2 : c < (stX.update_struct (repv.struct c)
      (fun S => { S with imports := f :: S.imports })).structs.length := by
    rw [update_struct_length]; exact hc
  have hI3 : f ∈ ((stX.update_struct (repv.struct c)
      (fun S => { S with imports := f :: S.imports })).cell c).imports := by
    unfold State.update_struct
    dsimp only
    rw [cell_set_cell_eq _ hc]
    exact List.mem_cons_self _ _
  generalize stX.update_struct (repv.struct c)
      (fun S => { S with imports := f :: S.imports }) = stI at hI1 hI2 hI3
  obtain ⟨v0, stR, k1, k2, -⟩ := F_structure_ref_ok K stI c (repv.symbol K.Qfeatures) rfl
  have hR1 : stR.rep_structure = repv.struct c := by rw [k2.2.2.1]; exact hI1
  have hR2 : c < stR.structs.length := by rw [k2.1]; exact hI2
  have hP : ∃ w, (Fprovide K stI f).2
      = (F_structure_set K stR (repv.struct c) (repv.symbol K.Qfeatures) w).2 := by
    unfold Fprovide
    rw [if_pos hf, hI1, k1]
    dsimp only
    rw [hR1]
    exact ⟨_, rfl⟩
  obtain ⟨w, hw⟩ := hP
  obtain ⟨⟨n, s1⟩, s2, s3⟩ := F_structure_set_local K stR c (repv.symbol K.Qfeatures) w hR2 rfl
  have s4 := F_structure_set_cur K stR (repv.struct c) (repv.symbol K.Qfeatures) w
  rw [← hw] at s1 s2 s3 s4
  generalize (Fprovide K stI f).2 = stP at s1 s2 s3 s4
  have hF1 : (cache_flush stP).rep_structure = repv.struct c := s4.trans hR1
  have hF2 : lookup K (cache_flush stP) ((cache_flush stP).cell c) (repv.symbol K.Qfeatures)
      = some n :=
    (lookup_congr K (repv.symbol K.Qfeatures)
      (show ∀ m, ((cache_flush stP).node m).symbol = (stP.node m).symbol from fun _ => rfl)
      (show ((cache_flush stP).cell c).buckets = (stP.cell c).buckets from rfl)).trans s1
  have hF3 : f ∈ ((cache_flush stP).cell c).imports := by
    show f ∈ (stP.cell c).imports
    rw [s2, cell_cache_only k2]
    exact hI3
  generalize cache_flush stP = stF at hF1 hF2 hF3
  have hfe := Ffeaturep_local K stF c n f hF1 hF2
  cases hq : Ffeaturep K stF f with
  | mk r0 sta =>
    rw [hq] at hfe
    dsimp only at hfe
    subst hfe
    by_cases hr : r0 = .ok K.nil
    · subst hr
      refine ⟨sta, _, rfl, Frequire_of_import K sta sta f hf hq ?_, Or.inr rfl, hF1, hF3⟩
      rw [hF1]
      exact hF3
    · exact ⟨sta, _, rfl, Frequire_of_featurep K sta sta f r0 hf hq hr, Or.inl rfl, hF1, hF3⟩

set_option maxRecDepth 1000000 in
/-- C14 as stated fails.  In the reachable state `two_state` the name `A` is
registered to a structure that the current structure has not imported: the
first `require (A)` returns `t`, the second returns `A`, in the state the first
left.  With a loader that runs a file of bare code (`K_plain`: each load
allocates a structure and returns `nil`), `require (f)` succeeds in the
reachable state `named_state` and the second `require (f)` loads the file
again: it changes the state the first call left. -/
theorem require_twice_differs :
    (Reachable K0 two_state ∧
      (Frequire K0 two_state sym_A).1 = .ok (repv.symbol K0.Qt) ∧
      Frequire K0 (Frequire K0 two_state sym_A).2 sym_A
        = (.ok sym_A, (Frequire K0 two_state sym_A).2) ∧
      repv.symbol K0.Qt ≠ sym_A) ∧
    (Reachable K_plain named_state ∧
      (Frequire K_plain named_state sym_f).1 = .ok (repv.symbol K0.Qt) ∧
      (Frequire K_plain (Frequire K_plain named_state sym_f).2 sym_f).1
        = .ok (repv.symbol K0.Qt) ∧
      (Frequire K_plain (Frequire K_plain named_state sym_f).2 sym_f).2
        ≠ (Frequire K_plain named_state sym_f).2) :=
  ⟨⟨⟨_, rfl⟩, by decide, by decide, by decide⟩, ⟨named_ops, by decide⟩, by decide, by decide,
    by decide⟩

/-- C14, amended.  Let `f` be a symbol, the current structure a structure of the
state, the cache have its `CACHE_SETS` lines, and let every load of `f` that
succeeds return a structure and keep the current structure and the structures
allocated.  If `require (f)` succeeds, it returns `f` or `t`, and a second
`require (f)` right after it succeeds too, returns `f` or `t` and leaves the
state exactly as the first call left it.  The second result is the first one
whenever the first call returned `f` or found `f` among the imports; after a
first call that imported a structure (and returned `t`) it can be `f`. -/
theorem require_twice (K : Statics) (st : State) (c : Nat) (f r : repv) (st1 : State)
    (hf : rep_SYMBOLP f = true)
    (hcur : st.rep_structure = repv.struct c) (hc : c < st.structs.length)
    (hlen : st.ref_cache.length = CACHE_SETS)
    (hload : ∀ sta v st2, K.Fload sta f = (.ok v, st2) →
      rep_STRUCTUREP v = true ∧ st2.rep_structure = sta.rep_structure ∧
      sta.structs.length ≤ st2.structs.length)
    (h : Frequire K st f = (.ok r, st1)) :
    (r = f ∨ r = repv.symbol K.Qt) ∧
    ∃ r2, Frequire K st1 f = (.ok r2, st1) ∧ (r2 = f ∨ r2 = repv.symbol K.Qt) ∧
      (r = f ∨ f ∈ (st.cell c).imports → r2 = r) := by
  unfold Frequire at h
  rw [if_pos hf] at h
  cases hq : Ffeaturep K st f with
  | mk r0 sta =>
    rw [hq] at h
    dsimp only at h
    obtain ⟨a1, a3⟩ := Ffeaturep_again K st sta c f r0 hcur hlen hq
    have hsc : sta.rep_structure = repv.struct c := by rw [a3.2.2.1]; exact hcur
    have hsl : c < sta.structs.length := by rw [a3.1]; exact hc
    have fin : ∀ stX : State, stX.rep_structure = repv.struct c → c < stX.structs.length →
        ((Except.ok (repv.symbol K.Qt), cache_flush (Fprovide K (stX.update_struct (repv.struct c)
          (fun S => { S with imports := f :: S.imports })) f).2) : Except Err repv × State)
          = (Except.ok r, st1) →
        f ∉ (st.cell c).imports →
        (r = f ∨ r = repv.symbol K.Qt) ∧
        ∃ r2, Frequire K st1 f = (.ok r2, st1) ∧ (r2 = f ∨ r2 = repv.symbol K.Qt) ∧
          (r = f ∨ f ∈ (st.cell c).imports → r2 = r) := by
      intro stX x1 x2 x3 x4
      obtain ⟨stF, r2, y1, y2, y3, -, -⟩ := require_after_finish K stX c f hf x1 x2
      rw [y1] at x3
      obtain ⟨e1, e2⟩ := Prod.mk.inj x3
      have e1 := Except.ok.inj e1
      subst e1 e2
      refine ⟨Or.inr rfl, r2, y2, y3, ?_⟩
      rintro (e | e)
      · rcases y3 with y | y
        · rw [y]; exact e.symm
        · exact y
      · exact absurd e x4
    by_cases hr : r0 = .ok K.nil
    · subst hr
      rw [if_neg (not_not.mpr rfl), hcur] at h
      by_cases hi : Fmemq f (rep_STRUCTURE sta (repv.struct c)).imports = []
      · rw [if_pos hi] at h
        have hnot : f ∉ (st.cell c).imports := by
          rw [Fmemq_eq_nil] at hi
          rw [← cell_cache_only a3 c]
          exact hi
        split at h
        · unfold require_finish at h
          rw [if_pos (show rep_STRUCTUREP (repv.struct _) = true from rfl)] at h
          exact fin sta hsc hsl h hnot
        · split at h
          · cases (Prod.mk.inj h).1
          · rename_i v st2 hl
            obtain ⟨l1, l2, l3⟩ := hload sta v st2 hl
            unfold require_finish at h
            rw [if_pos l1, if_pos l1] at h
            obtain ⟨n1, n2⟩ := F_name_structure_frame K st2 v f
            exact fin _ (n1.trans (l2.trans hsc)) (by rw [n2]; omega) h hnot
      · rw [if_neg hi] at h
        obtain ⟨e1, e2⟩ := Prod.mk.inj h
        have e1 := Except.ok.inj e1
        subst e1 e2
        refine ⟨Or.inr rfl, _, Frequire_of_import K sta sta f hf a1 ?_, Or.inr rfl, fun _ => rfl⟩
        rw [hsc]
        rw [Fmemq_eq_nil] at hi
        exact not_not.mp hi
    · rw [if_pos hr] at h
      obtain ⟨e1, e2⟩ := Prod.mk.inj h
      have e1 := Except.ok.inj e1
      subst e1 e2
      exact ⟨Or.inl rfl, _, Frequire_of_featurep K sta sta f r0 hf a1 hr, Or.inl rfl, fun _ => rfl⟩

set_option maxRecDepth 1000000 in
/-- Witness of the amended C14: `require (A)` in `two_state`, where `A` is a
registered structure; the loader of `K0` never succeeds. -/
theorem require_twice_witness :
    (repv.symbol K0.Qt = sym_A ∨ repv.symbol K0.Qt = repv.symbol K0.Qt) ∧
    ∃ r2, Frequire K0 (Frequire K0 two_state sym_A).2 sym_A
        = (.ok r2, (Frequire K0 two_state sym_A).2) ∧
      (r2 = sym_A ∨ r2 = repv.symbol K0.Qt) ∧
      (repv.symbol K0.Qt = sym_A ∨ sym_A ∈ (two_state.cell 0).imports →
        r2 = repv.symbol K0.Qt) :=
  require_twice K0 two_state 0 sym_A (repv.symbol K0.Qt) (Frequire K0 two_state sym_A).2
    rfl (by decide) (by decide) (by decide) (fun _ _ _ h => by cases h) (by decide)

/-! ## `structure-walk` (C20) -/

theorem chain_next_not_mem (n : Nat) : ∀ l : List Nat, n ∉ l → chain_next n l = none := by
  intro l
  induction l with
  | nil => intro _; rfl
  | cons m rest ih =>
    intro h
    unfold chain_next
    rw [if_neg (fun e => h (by rw [e]; exact List.mem_cons_self _ _))]
    exact ih (fun hm => h (List.mem_cons_of_mem _ hm))

theorem chain_next_at (n : Nat) (post : List Nat) :
    ∀ pre : List Nat, n ∉ pre → chain_next n (pre ++ n :: post) = some post.head? := by
  intro pre
  induction pre with
  | nil => intro _; simp [chain_next]
  | cons m rest ih =>
    intro h
    rw [List.cons_append]
    unfold chain_next
    rw [if_neg (fun e => h (by rw [e]; exact List.mem_cons_self _ _))]
    exact ih (fun hm => h (List.mem_cons_of_mem _ hm))

/-- In a table that holds no node twice, the `next` link of a node is the node
that follows it in its chain. -/
theorem findSome_chain_next (n : Nat) (pre post : List Nat) :
    ∀ (B : List (List Nat)) (i : Nat), B.flatten.Nodup → i < B.length →
      B.getD i [] = pre ++ n :: post →
      B.findSome? (chain_next n) = some post.head? := by
  intro B
  induction B with
  | nil => intro i _ hi; cases hi
  | cons c B ih =>
    intro i hnd hi hget
    rw [List.flatten_cons, List.nodup_append] at hnd
    obtain ⟨h1, h2, h3⟩ := hnd
    cases i with
    | zero =>
      rw [List.getD_cons_zero] at hget
      subst hget
      rw [List.findSome?_cons, chain_next_at n post pre]
      intro hm
      rw [List.nodup_append] at h1
      exact h1.2.2 hm (List.mem_cons_self _ _)
    | succ i =>
      rw [List.getD_cons_succ] at hget
      have hi2 : i < B.length := Nat.lt_of_succ_lt_succ hi
      have hmem : n ∈ B.flatten := by
        rw [List.mem_flatten]
        refine ⟨B.getD i [], ?_, ?_⟩
        · rw [List.getD_eq_getElem?_getD, List.getElem?_eq_getElem hi2]
          exact List.getElem_mem _
        · rw [hget]
          exact List.mem_append_right _ (List.mem_cons_self _ _)
      rw [List.findSome?_cons, chain_next_not_mem n c (fun hc => h3 hc hmem)]
      exact ih i h2 hi2 hget

theorem next_link_at (S : rep_struct) (n i : Nat) (pre post : List Nat)
    (hnd : S.buckets.flatten.Nodup) (hi : i < S.buckets.length)
    (hget : S.buckets.getD i [] = pre ++ n :: post) : next_link S n = post.head? := by
  unfold next_link
  rw [findSome_chain_next n pre post S.buckets i hnd hi hget]
  rfl

theorem walk_calls_nil (st : State) : walk_calls st [] = [] := rfl

theorem walk_calls_cons_void (st : State) (n : Nat) (l : List Nat)
    (h : rep_VOIDP (st.node n).binding = true) : walk_calls st (n :: l) = walk_calls st l := by
  unfold walk_calls
  rw [List.filter_cons_of_neg (by simp [h])]

theorem walk_calls_cons (st : State) (n : Nat) (l : List Nat)
    (h : rep_VOIDP (st.node n).binding = false) :
    walk_calls st (n :: l) = ((st.node n).symbol, (st.node n).binding) :: walk_calls st l := by
  unfold walk_calls
  rw [List.filter_cons_of_pos (by simp [h])]
  rfl

theorem walk_loop_none (K : Statics) (fn : repv) (s fuel : Nat) (st : State) (i : Nat)
    (ret : repv) (calls : List (repv × repv)) :
    walk_loop K fn s (fuel + 1) st i none ret calls =
      if i + 1 < (st.cell s).buckets.length then
        walk_loop K fn s fuel st (i + 1) ((st.cell s).buckets.getD (i + 1) []).head? ret calls
      else (.ok ret, st, calls) := rfl

theorem walk_loop_some (K : Statics) (fn : repv) (s fuel : Nat) (st : State) (i n : Nat)
    (ret : repv) (calls : List (repv × repv)) :
    walk_loop K fn s (fuel + 1) st i (some n) ret calls =
      if !rep_VOIDP (st.node n).binding then
        match K.rep_call_lisp2 st fn (st.node n).symbol (st.node n).binding with
        | (.error e, st1) =>
          (.error e, st1, calls ++ [((st.node n).symbol, (st.node n).binding)])
        | (.ok r, st1) =>
          walk_loop K fn s fuel st1 i (next_link (st1.cell s) n) r
            (calls ++ [((st.node n).symbol, (st.node n).binding)])
      else walk_loop K fn s fuel st i (next_link (st.cell s) n) ret calls := rfl

theorem walk_calls_append (st : State) (a b : List Nat) :
    walk_calls st (a ++ b) = walk_calls st a ++ walk_calls st b := by
  unfold walk_calls
  rw [List.filter_append, List.map_append]

/-- The inner loop of `structure-walk` from the node at the head of `rest`, the
rest of chain `i`, when the function called never fails and keeps the table and
the nodes: it makes the calls owed to `rest` and goes on as from the end of the
chain. -/
theorem walk_chain (K : Statics) (fn : repv) (s : Nat) (st0 : State)
    (hcall : ∀ st1 a b, ∃ r st2, K.rep_call_lisp2 st1 fn a b = (.ok r, st2) ∧
      st2.nodes = st1.nodes ∧ (st2.cell s).buckets = (st1.cell s).buckets)
    (hnd : (st0.cell s).buckets.flatten.Nodup)
    (i : Nat) (hi : i < (st0.cell s).buckets.length) (after : List (repv × repv)) (cost : Nat)
    (hnil : ∀ (fuel : Nat) (st : State) (ret : repv) (calls : List (repv × repv)),
      st.nodes = st0.nodes → (st.cell s).buckets = (st0.cell s).buckets → cost + 1 ≤ fuel →
      ∃ r st2, walk_loop K fn s fuel st i none ret calls = (.ok r, st2, calls ++ after)) :
    ∀ (rest pre : List Nat), (st0.cell s).buckets.getD i [] = pre ++ rest →
    ∀ (fuel : Nat) (st : State) (ret : repv) (calls : List (repv × repv)),
      st.nodes = st0.nodes → (st.cell s).buckets = (st0.cell s).buckets →
      rest.length + (cost + 1) ≤ fuel →
      ∃ r st2, walk_loop K fn s fuel st i rest.head? ret calls
        = (.ok r, st2, calls ++ (walk_calls st0 rest ++ after)) := by
  intro rest
  induction rest with
  | nil =>
    intro pre _ fuel st ret calls hn hb hfuel
    rw [List.head?_nil, walk_calls_nil, List.nil_append]
    exact hnil fuel st ret calls hn hb (by simpa using hfuel)
  | cons n rest ih =>
    intro pre hget fuel st ret calls hn hb hfuel
    cases fuel with
    | zero => simp at hfuel
    | succ fuel =>
      have hnode : st.node n = st0.node n := by unfold State.node; rw [hn]
      have hnext : ∀ st1 : State, (st1.cell s).buckets = (st0.cell s).buckets →
          next_link (st1.cell s) n = rest.head? := by
        intro st1 h1
        exact next_link_at _ n i pre rest (by rw [h1]; exact hnd) (by rw [h1]; exact hi)
          (by rw [h1]; exact hget)
      have hget2 : (st0.cell s).buckets.getD i [] = (pre ++ [n]) ++ rest := by
        rw [hget]; simp
      have hfuel2 : rest.length + (cost + 1) ≤ fuel := by
        simp only [List.length_cons] at hfuel
        omega
      rw [List.head?_cons, walk_loop_some, hnode]
      cases hv : rep_VOIDP (st0.node n).binding with
      | true =>
        simp only [Bool.not_true, Bool.false_eq_true, if_false]
        rw [hnext st hb, walk_calls_cons_void st0 n _ hv]
        exact ih (pre ++ [n]) hget2 fuel st ret calls hn hb hfuel2
      | false =>
        simp only [Bool.not_false, if_true]
        obtain ⟨r, st2, c1, c2, c3⟩ := hcall st (st0.node n).symbol (st0.node n).binding
        rw [c1]
        dsimp only
        rw [hnext st2 (c3.trans hb), walk_calls_cons st0 n _ hv]
        obtain ⟨r2, st3, hw⟩ := ih (pre ++ [n]) hget2 fuel st2 r
          (calls ++ [((st0.node n).symbol, (st0.node n).binding)]) (c2.trans hn)
          (c3.trans hb) hfuel2
        refine ⟨r2, st3, ?_⟩
        rw [hw]
        simp

/-- The outer loop of `structure-walk` from the end of chain `i`: it makes the
calls owed to the chains after `i`. -/
theorem walk_buckets (K : Statics) (fn : repv) (s : Nat) (st0 : State)
    (hcall : ∀ st1 a b, ∃ r st2, K.rep_call_lisp2 st1 fn a b = (.ok r, st2) ∧
      st2.nodes = st1.nodes ∧ (st2.cell s).buckets = (st1.cell s).buckets)
    (hnd : (st0.cell s).buckets.flatten.Nodup) :
    ∀ (d i : Nat), i + 1 + d = (st0.cell s).buckets.length →
    ∀ (fuel : Nat) (st : State) (ret : repv) (calls : List (repv × repv)),
      st.nodes = st0.nodes → (st.cell s).buckets = (st0.cell s).buckets →
      (((st0.cell s).buckets.drop (i + 1)).map (fun c => c.length + 1)).sum + 1 ≤ fuel →
      ∃ r st2, walk_loop K fn s fuel st i none ret calls
        = (.ok r, st2, calls ++ walk_calls st0 ((st0.cell s).buckets.drop (i + 1)).flatten) := by
  intro d
  induction d with
  | zero =>
    intro i hi fuel st ret calls _ hb hfuel
    cases fuel with
    | zero => simp at hfuel
    | succ fuel =>
      refine ⟨ret, st, ?_⟩
      rw [walk_loop_none, if_neg (by rw [hb]; omega), List.drop_eq_nil_of_le (by omega)]
      simp [walk_calls_nil]
  | succ d ihd =>
    intro i hi fuel st ret calls hn hb hfuel
    have hlt : i + 1 < (st0.cell s).buckets.length := by omega
    have hdrop : (st0.cell s).buckets.drop (i + 1)
        = (st0.cell s).buckets.getD (i + 1) [] :: (st0.cell s).buckets.drop (i + 1 + 1) := by
      rw [List.getD_eq_getElem?_getD, List.getElem?_eq_getElem hlt]
      exact List.drop_eq_getElem_cons hlt
    cases fuel with
    | zero => simp at hfuel
    | succ fuel =>
      rw [walk_loop_none, if_pos (by rw [hb]; exact hlt), hb, hdrop, List.flatten_cons,
        walk_calls_append]
      rw [hdrop] at hfuel
      simp only [List.map_cons, List.sum_cons] at hfuel
      exact walk_chain K fn s st0 hcall hnd (i + 1) hlt _ _
        (fun fuel2 st2 ret2 calls2 h1 h2 h3 => ihd (i + 1) (by omega) fuel2 st2 ret2 calls2 h1 h2 h3)
        ((st0.cell s).buckets.getD (i + 1) []) [] rfl fuel st ret calls hn hb (by omega)

theorem flatten_length_sum (B : List (List Nat)) :
    (B.map (fun c => c.length + 1)).sum = B.flatten.length + B.length := by
  induction B with
  | nil => rfl
  | cons c B ih =>
    simp only [List.map_cons, List.sum_cons, List.flatten_cons, List.length_append,
      List.length_cons, ih]
    omega

/-- C20, amended.  Let the function `fn` never fail and keep the binding table
of `s` and the records, and let no record occur twice in the table of `s`.  With
fuel for one iteration for each record and each bucket, `structure-walk (fn, s)`
returns, and the calls it makes are exactly these, in the order of the table:
one call for each record of `s` whose binding is not void, with that record's
symbol and binding.  A record whose binding is void gets no call. -/
theorem structure_walk_calls (K : Statics) (st : State) (fn : repv) (s fuel : Nat)
    (hcall : ∀ st1 a b, ∃ r st2, K.rep_call_lisp2 st1 fn a b = (.ok r, st2) ∧
      st2.nodes = st1.nodes ∧ (st2.cell s).buckets = (st1.cell s).buckets)
    (hnd : (st.cell s).buckets.flatten.Nodup)
    (hfuel : (st.cell s).buckets.flatten.length + (st.cell s).buckets.length ≤ fuel) :
    ∃ r st2, F_structure_walk K fuel st fn (repv.struct s)
      = (.ok r, st2, walk_calls st (st.cell s).buckets.flatten) := by
  unfold F_structure_walk
  dsimp only
  by_cases h0 : 0 < (st.cell s).buckets.length
  · rw [if_pos h0]
    have hdrop : (st.cell s).buckets
        = (st.cell s).buckets.getD 0 [] :: (st.cell s).buckets.drop 1 := by
      rw [List.getD_eq_getElem?_getD, List.getElem?_eq_getElem h0]
      exact (List.drop_eq_getElem_cons h0)
    have hf := flatten_length_sum (st.cell s).buckets
    rw [hdrop] at hf
    simp only [List.map_cons, List.sum_cons] at hf
    rw [← hdrop] at hf
    have hrest := walk_buckets K fn s st hcall hnd ((st.cell s).buckets.length - 1) 0
      (by omega)
    simp only [Nat.zero_add] at hrest
    obtain ⟨r, st2, hw⟩ := walk_chain K fn s st hcall hnd 0 h0 _ _ hrest
      ((st.cell s).buckets.getD 0 []) [] rfl fuel st K.nil [] rfl rfl (by omega)
    refine ⟨r, st2, ?_⟩
    rw [hw, List.nil_append, ← walk_calls_append, ← List.flatten_cons, ← hdrop]
  · rw [if_neg h0]
    have hnil : (st.cell s).buckets = [] := List.eq_nil_of_length_eq_zero (by omega)
    refine ⟨K.nil, st, ?_⟩
    rw [hnil]
    rfl

set_option maxRecDepth 1000000 in
/-- Witness of the amended C20: the walk of `rep` (0) in `walk_state` with a
function that returns `nil` and changes nothing makes the one call for `x`. -/
theorem structure_walk_calls_witness :
    ∃ r st2, F_structure_walk K_ok 10 walk_state (repv.other 5) (repv.struct 0)
      = (.ok r, st2, walk_calls walk_state (walk_state.cell 0).buckets.flatten) :=
  structure_walk_calls K_ok walk_state (repv.other 5) 0 10
    (fun st1 _ _ => ⟨K0.nil, st1, rfl, rfl, rfl⟩) (by decide) (by decide)

set_option maxRecDepth 1000000 in
/-- C20 as stated fails.  In the reachable state `walk_state` the table of
`rep` (0) has the records 3 (`x`, bound to 1) and 4 (`y`, whose binding is
void).  With a function that never fails and changes nothing, `structure-walk`
calls it for `x` only: the record of `y` gets no call.  With a function that
binds `z` in `rep`, the new record goes in front of the record of `x` and gets
no call, though the table holds it when the walk ends; with a function that
binds `w`, the new record goes to a later chain and gets a call, though the
table did not hold it when the walk started. -/
theorem structure_walk_skips_void :
    Reachable K_ok walk_state ∧
    (walk_state.cell 0).buckets.flatten = [3, 4] ∧
    (walk_state.node 4).symbol = sym_y ∧ (walk_state.node 4).binding = repv.void ∧
    F_structure_walk K_ok 20 walk_state (repv.other 5) (repv.struct 0)
      = (.ok K0.nil, walk_state, [(sym_x, repv.other 1)]) ∧
    ((F_structure_walk (K_grow sym_z) 20 walk_state (repv.other 5) (repv.struct 0)).1
        = .ok K0.nil ∧
      (F_structure_walk (K_grow sym_z) 20 walk_state (repv.other 5) (repv.struct 0)).2.2
        = [(sym_x, repv.other 1)] ∧
      F_structure_ref K0
          (F_structure_walk (K_grow sym_z) 20 walk_state (repv.other 5) (repv.struct 0)).2.1
          (repv.struct 0) sym_z
        = (.ok (repv.other 9),
          (F_structure_walk (K_grow sym_z) 20 walk_state (repv.other 5) (repv.struct 0)).2.1)) ∧
    ((F_structure_walk (K_grow sym_w) 20 walk_state (repv.other 5) (repv.struct 0)).1
        = .ok K0.nil ∧
      (F_structure_walk (K_grow sym_w) 20 walk_state (repv.other 5) (repv.struct 0)).2.2
        = [(sym_x, repv.other 1), (sym_w, repv.other 9)] ∧
      lookup K0 walk_state (walk_state.cell 0) sym_w = none) :=
  ⟨⟨walk_ops, by decide⟩, by decide, by decide, by decide, by decide,
    ⟨by decide, by decide, by decide⟩, by decide, by decide, by decide⟩

/-! ## Well formed binding tables -/

theorem mem_getD_flatten {B : List (List Nat)} {i n : Nat} (h : n ∈ B.getD i []) :
    i < B.length ∧ n ∈ B.flatten := by
  rw [List.getD_eq_getElem?_getD] at h
  by_cases hi : i < B.length
  · rw [List.getElem?_eq_getElem hi] at h
    exact ⟨hi, List.mem_flatten.mpr ⟨_, List.getElem_mem _, h⟩⟩
  · rw [List.getElem?_eq_none (Nat.le_of_not_lt hi)] at h
    cases h

theorem mem_flatten_getD {B : List (List Nat)} {n : Nat} (h : n ∈ B.flatten) :
    ∃ i, i < B.length ∧ n ∈ B.getD i [] := by
  obtain ⟨c, hc, hn⟩ := List.mem_flatten.mp h
  obtain ⟨i, hi, e⟩ := List.getElem_of_mem hc
  refine ⟨i, hi, ?_⟩
  rw [List.getD_eq_getElem?_getD, List.getElem?_eq_getElem hi, e]
  exact hn

theorem tbl_ok_nil (K : Statics) (sym : Nat → repv) (len k : Nat) (inh : List repv) :
    tbl_ok K sym len (List.replicate k []) inh := by
  have hf : (List.replicate k ([] : List Nat)).flatten = [] := by
    induction k with
    | zero => rfl
    | succ k ih => rw [List.replicate_succ, List.flatten_cons, ih]; rfl
  refine ⟨fun i n h => ?_, ?_, ?_, ?_⟩
  · have := (mem_getD_flatten h).2
    rw [hf] at this
    cases this
  · rw [hf]; exact List.nodup_nil
  · rw [hf]; intro n h; cases h
  · rw [hf]; intro n h; cases h

theorem tbl_ok_empty (K : Statics) (sym : Nat → repv) (len : Nat) (inh : List repv) :
    tbl_ok K sym len [] inh := tbl_ok_nil K sym len 0 inh

theorem tbl_ok_congr {K : Statics} {sym sym2 : Nat → repv} {len len2 : Nat}
    {B : List (List Nat)} {inh : List repv}
    (hs : ∀ n, n < len → sym2 n = sym n) (hl : len ≤ len2) (h : tbl_ok K sym len B inh) :
    tbl_ok K sym2 len2 B inh := by
  obtain ⟨h1, h2, h3, h4⟩ := h
  have hm : B.flatten.map sym2 = B.flatten.map sym :=
    List.map_congr_left (fun n hn => hs n (h3 n hn))
  refine ⟨fun i n hn => ?_, ?_, fun n hn => Nat.lt_of_lt_of_le (h3 n hn) hl, fun n hn => ?_⟩
  · rw [hs n (h3 n (mem_getD_flatten hn).2)]
    exact h1 i n hn
  · rw [hm]; exact h2
  · rw [hs n (h3 n hn)]
    exact h4 n hn

theorem tbl_ok_inherited {K : Statics} {sym : Nat → repv} {len : Nat}
    {B : List (List Nat)} {inh inh2 : List repv}
    (hsub : ∀ a, a ∈ inh2 → a ∈ inh) (h : tbl_ok K sym len B inh) :
    tbl_ok K sym len B inh2 :=
  ⟨h.1, h.2.1, h.2.2.1, fun n hn hm => h.2.2.2 n hn (hsub _ hm)⟩

/-- Pushing a node on the head of a chain. -/
theorem push_getD (B : List (List Nat)) (h n : Nat) (hh : h < B.length) (i m : Nat) :
    m ∈ (B.set h (n :: B.getD h [])).getD i [] ↔ (i = h ∧ m = n) ∨ m ∈ B.getD i [] := by
  by_cases hi : h = i
  · subst hi
    rw [getD_set_eq _ _ _ _ hh, List.mem_cons]
    constructor
    · rintro (e | e)
      · exact Or.inl ⟨rfl, e⟩
      · exact Or.inr e
    · rintro (⟨-, e⟩ | e)
      · exact Or.inl e
      · exact Or.inr e
  · rw [getD_set_ne _ _ _ _ _ hi]
    constructor
    · exact Or.inr
    · rintro (⟨e, -⟩ | e)
      · exact absurd e.symm hi
      · exact e

theorem push_flatten_perm :
    ∀ (B : List (List Nat)) (h n : Nat), h < B.length →
      (B.set h (n :: B.getD h [])).flatten.Perm (n :: B.flatten) := by
  intro B
  induction B with
  | nil => intro h n hh; cases hh
  | cons c B ih =>
    intro h n hh
    cases h with
    | zero =>
      rw [List.set_cons_zero, List.getD_cons_zero, List.flatten_cons, List.flatten_cons,
        List.cons_append]
    | succ h =>
      rw [List.set_cons_succ, List.getD_cons_succ, List.flatten_cons, List.flatten_cons]
      have := ih h n (Nat.lt_of_succ_lt_succ hh)
      exact (List.Perm.append_left c this).trans List.perm_middle

theorem tbl_ok_push {K : Statics} {sym : Nat → repv} {len : Nat} {B : List (List Nat)}
    {inh : List repv} (h : tbl_ok K sym len B inh) (n : Nat) (hpos : 0 < B.length)
    (hfresh : ∀ m ∈ B.flatten, sym m ≠ sym n) (hlen : n < len) (hinh : sym n ∉ inh) :
    tbl_ok K sym len
      (B.set (rep_STRUCT_HASH K (sym n) B.length)
        (n :: B.getD (rep_STRUCT_HASH K (sym n) B.length) [])) inh := by
  obtain ⟨h1, h2, h3, h4⟩ := h
  have hh := rep_STRUCT_HASH_lt K (sym n) hpos
  have hperm := push_flatten_perm B _ n hh
  have hmem : ∀ m, m ∈ (B.set (rep_STRUCT_HASH K (sym n) B.length)
      (n :: B.getD (rep_STRUCT_HASH K (sym n) B.length) [])).flatten → m = n ∨ m ∈ B.flatten := by
    intro m hm
    have := hperm.mem_iff.mp hm
    rwa [List.mem_cons] at this
  refine ⟨fun i m hm => ?_, ?_, fun m hm => ?_, fun m hm => ?_⟩
  · rw [List.length_set]
    rcases (push_getD B _ n hh i m).mp hm with ⟨e1, e2⟩ | e
    · rw [e1, e2]
    · exact h1 i m e
  · rw [(hperm.map sym).nodup_iff, List.map_cons, List.nodup_cons]
    refine ⟨fun hm => ?_, h2⟩
    obtain ⟨m, hm1, hm2⟩ := List.mem_map.mp hm
    exact hfresh m hm1 hm2
  · rcases hmem m hm with e | e
    · rw [e]; exact hlen
    · exact h3 m e
  · rcases hmem m hm with e | e
    · rw [e]; exact hinh
    · exact h4 m e

theorem rehash_chain_spec (K : Statics) (st : State) (nt : Nat) (hnt : 0 < nt) :
    ∀ (c : List Nat) (b : List (List Nat)), b.length = nt →
      (rehash_chain K st nt b c).flatten.Perm (c ++ b.flatten) ∧
      ∀ i m, m ∈ (rehash_chain K st nt b c).getD i [] →
        (m ∈ c ∧ rep_STRUCT_HASH K (st.node m).symbol nt = i) ∨ m ∈ b.getD i [] := by
  intro c
  induction c with
  | nil =>
    intro b _
    exact ⟨List.Perm.refl _, fun i m h => Or.inr h⟩
  | cons n rest ih =>
    intro b hb
    have hh : rep_STRUCT_HASH K (st.node n).symbol nt < b.length := by
      rw [hb]; exact rep_STRUCT_HASH_lt K _ hnt
    obtain ⟨p1, p2⟩ := ih (b.set (rep_STRUCT_HASH K (st.node n).symbol nt)
      (n :: b.getD (rep_STRUCT_HASH K (st.node n).symbol nt) [])) (by rw [List.length_set]; exact hb)
    unfold rehash_chain
    refine ⟨?_, fun i m hm => ?_⟩
    · refine p1.trans ?_
      refine (List.Perm.append_left rest (push_flatten_perm b _ n hh)).trans ?_
      exact List.perm_middle
    · rcases p2 i m hm with ⟨e1, e2⟩ | e
      · exact Or.inl ⟨List.mem_cons_of_mem _ e1, e2⟩
      · rcases (push_getD b _ n hh i m).mp e with ⟨e1, e2⟩ | e3
        · refine Or.inl ⟨by rw [e2]; exact List.mem_cons_self _ _, ?_⟩
          rw [e1, e2]
        · exact Or.inr e3

theorem rehash_fold_spec (K : Statics) (st : State) (nt : Nat) (hnt : 0 < nt) :
    ∀ (old b : List (List Nat)), b.length = nt →
      (old.foldl (rehash_chain K st nt) b).flatten.Perm (old.flatten ++ b.flatten) ∧
      ∀ i m, m ∈ (old.foldl (rehash_chain K st nt) b).getD i [] →
        rep_STRUCT_HASH K (st.node m).symbol nt = i ∨ m ∈ b.getD i [] := by
  intro old
  induction old with
  | nil =>
    intro b _
    exact ⟨List.Perm.refl _, fun i m h => Or.inr h⟩
  | cons c rest ih =>
    intro b hb
    obtain ⟨q1, q2⟩ := rehash_chain_spec K st nt hnt c b hb
    obtain ⟨p1, p2⟩ := ih (rehash_chain K st nt b c) (by rw [rehash_chain_length]; exact hb)
    rw [List.foldl_cons]
    refine ⟨?_, fun i m hm => ?_⟩
    · refine p1.trans ?_
      rw [List.flatten_cons, List.append_assoc]
      refine (List.Perm.append_left rest.flatten q1).trans ?_
      rw [← List.append_assoc, ← List.append_assoc]
      exact List.Perm.append_right _ List.perm_append_comm
    · rcases p2 i m hm with e | e
      · exact Or.inl e
      · rcases q2 i m e with ⟨-, e2⟩ | e3
        · exact Or.inl e2
        · exact Or.inr e3

theorem rehash_spec (K : Statics) (st : State) (nt : Nat) (hnt : 0 < nt)
    (old : List (List Nat)) :
    (rehash K st nt old).flatten.Perm old.flatten ∧
    ∀ i m, m ∈ (rehash K st nt old).getD i [] → rep_STRUCT_HASH K (st.node m).symbol nt = i := by
  obtain ⟨p1, p2⟩ := rehash_fold_spec K st nt hnt old (List.replicate nt [])
    (List.length_replicate _ _)
  have hf : (List.replicate nt ([] : List Nat)).flatten = [] := by
    induction nt with
    | zero => rfl
    | succ k _ => simp
  unfold rehash
  refine ⟨?_, fun i m hm => ?_⟩
  · rw [hf, List.append_nil] at p1
    exact p1
  · rcases p2 i m hm with e | e
    · exact e
    · have := (mem_getD_flatten e).2
      rw [hf] at this
      cases this

theorem tbl_ok_rehash {K : Statics} {st : State} {len : Nat} {B : List (List Nat)}
    {inh : List repv} (nt : Nat) (hnt : 0 < nt)
    (h : tbl_ok K (fun n => (st.node n).symbol) len B inh) :
    tbl_ok K (fun n => (st.node n).symbol) len (rehash K st nt B) inh := by
  obtain ⟨-, h2, h3, h4⟩ := h
  obtain ⟨p1, p2⟩ := rehash_spec K st nt hnt B
  refine ⟨fun i m hm => ?_, ?_, fun m hm => h3 m (p1.mem_iff.mp hm),
    fun m hm => h4 m (p1.mem_iff.mp hm)⟩
  · rw [rehash_length]
    exact p2 i m hm
  · rw [(p1.map _).nodup_iff]
    exact h2

theorem chain_find_none {st : State} {var : repv} :
    ∀ {c : List Nat}, chain_find st var c = none → ∀ n ∈ c, (st.node n).symbol ≠ var := by
  intro c
  induction c with
  | nil => intro _ n hn; cases hn
  | cons m rest ih =>
    intro h n hn
    unfold chain_find at h
    split at h
    · cases h
    · rename_i hm
      rcases List.mem_cons.mp hn with e | e
      · rw [e]; exact hm
      · exact ih h n e

theorem chain_find_mem {st : State} {var : repv} {n : Nat} :
    ∀ {c : List Nat}, chain_find st var c = some n → n ∈ c := by
  intro c
  induction c with
  | nil => intro h; cases h
  | cons m rest ih =>
    intro h
    unfold chain_find at h
    split at h
    · cases h; exact List.mem_cons_self _ _
    · exact List.mem_cons_of_mem _ (ih h)

/-- A lookup that fails in a well formed table: no record has the symbol. -/
theorem lookup_none_fresh {K : Statics} {st : State} {S : rep_struct} {var : repv} {len : Nat}
    {inh : List repv} (h : tbl_ok K (fun n => (st.node n).symbol) len S.buckets inh)
    (hl : lookup K st S var = none) : ∀ n ∈ S.buckets.flatten, (st.node n).symbol ≠ var := by
  intro n hn e
  obtain ⟨i, hi, hm⟩ := mem_flatten_getD hn
  have h1 := h.1 i n hm
  dsimp only at h1
  unfold lookup at hl
  rw [if_pos (by omega)] at hl
  rw [e] at h1
  rw [h1] at hl
  exact chain_find_none hl n hm e

theorem lookup_mem {K : Statics} {st : State} {S : rep_struct} {var : repv} {n : Nat}
    (hl : lookup K st S var = some n) : n ∈ S.buckets.flatten := by
  unfold lookup at hl
  split at hl
  · exact (mem_getD_flatten (chain_find_mem hl)).2
  · cases hl

/-! ## `lookup_or_add` keeps the tables well formed -/

theorem mem_Fdelq (x a : repv) : ∀ l : List repv, a ∈ Fdelq x l ↔ a ∈ l ∧ a ≠ x := by
  intro l
  induction l with
  | nil => simp [Fdelq]
  | cons b l ih =>
    unfold Fdelq
    by_cases h : x = b
    · rw [if_pos h, ih, List.mem_cons]
      constructor
      · rintro ⟨h1, h2⟩
        exact ⟨Or.inr h1, h2⟩
      · rintro ⟨h1 | h1, h2⟩
        · exact absurd (h1.trans h.symm) h2
        · exact ⟨h1, h2⟩
    · rw [if_neg h, List.mem_cons, ih, List.mem_cons]
      constructor
      · rintro (h1 | ⟨h1, h2⟩)
        · exact ⟨Or.inl h1, fun e => h (by rw [← e, h1])⟩
        · exact ⟨Or.inr h1, h2⟩
      · rintro ⟨h1 | h1, h2⟩
        · exact Or.inl h1
        · exact Or.inr ⟨h1, h2⟩

/-- The heaps after a `lookup_or_add` that found no record. -/
theorem lookup_or_add_miss {K : Statics} {st : State} {s : Nat} {var : repv}
    (h : lookup K st (st.cell s) var = none) :
    (lookup_or_add K st s var).1.nodes
      = st.nodes ++ [new_node (double_buckets K st (alloc_buckets (st.cell s))) var] ∧
    (lookup_or_add K st s var).1.structs
      = st.structs.set s (migrate_export
          (link_node K (double_buckets K st (alloc_buckets (st.cell s))) st.nodes.length var)
          var) ∧
    (lookup_or_add K st s var).2 = st.nodes.length := by
  unfold lookup_or_add
  rw [h]
  dsimp only
  rw [cache_invalidate_symbol_nodes, cache_invalidate_symbol_structs]
  exact ⟨rfl, rfl, rfl⟩

theorem double_buckets_ok {K : Statics} {st : State} {S : rep_struct} {len : Nat}
    (h : tbl_ok K (fun n => (st.node n).symbol) len S.buckets S.inherited) :
    tbl_ok K (fun n => (st.node n).symbol) len
      (double_buckets K st (alloc_buckets S)).buckets S.inherited ∧
    0 < (double_buckets K st (alloc_buckets S)).buckets.length ∧
    (∀ n, n ∈ (double_buckets K st (alloc_buckets S)).buckets.flatten → n ∈ S.buckets.flatten) ∧
    (double_buckets K st (alloc_buckets S)).inherited = S.inherited ∧
    (double_buckets K st (alloc_buckets S)).export_all = S.export_all := by
  have ha : tbl_ok K (fun n => (st.node n).symbol) len (alloc_buckets S).buckets S.inherited ∧
      (∀ n, n ∈ (alloc_buckets S).buckets.flatten → n ∈ S.buckets.flatten) ∧
      (alloc_buckets S).inherited = S.inherited ∧
      (alloc_buckets S).export_all = S.export_all := by
    unfold alloc_buckets
    split
    · refine ⟨tbl_ok_nil K _ len _ _, fun n hn => ?_, rfl, rfl⟩
      have := (tbl_ok_nil K (fun n => (st.node n).symbol) len MIN_BUCKETS []).2.2.1 n hn
      have h2 : (List.replicate MIN_BUCKETS ([] : List Nat)).flatten = [] := by decide
      dsimp only at hn
      rw [h2] at hn
      cases hn
    · exact ⟨h, fun n hn => hn, rfl, rfl⟩
  have hpos := alloc_buckets_pos S
  obtain ⟨a1, a2, a3, a4⟩ := ha
  generalize alloc_buckets S = S1 at a1 a2 a3 a4 hpos
  unfold double_buckets
  split
  · dsimp only
    refine ⟨tbl_ok_rehash _ (by omega) a1, by rw [rehash_length]; omega, fun n hn => ?_, a3, a4⟩
    exact a2 n ((rehash_spec K st _ (by omega) S1.buckets).1.mem_iff.mp hn)
  · exact ⟨a1, hpos, a2, a3, a4⟩

theorem wf_lookup_or_add (K : Statics) (st : State) (s : Nat) (var : repv) (h : wf K st) :
    wf K (lookup_or_add K st s var).1 := by
  cases hl : lookup K st (st.cell s) var with
  | some n => rw [lookup_or_add_found hl]; exact h
  | none =>
    obtain ⟨e1, e2, -⟩ := lookup_or_add_miss hl
    intro p
    unfold table_wf
    have hlen : (lookup_or_add K st s var).1.nodes.length = st.nodes.length + 1 := by
      rw [e1]; simp
    have hsym : ∀ n, n < st.nodes.length →
        ((lookup_or_add K st s var).1.node n).symbol = (st.node n).symbol := by
      intro n hn
      unfold State.node
      rw [e1, getD_append_lt _ _ _ _ hn]
    have hnew : ((lookup_or_add K st s var).1.node st.nodes.length).symbol = var := by
      unfold State.node
      rw [e1, getD_append_length]
      rfl
    by_cases hp : p = s ∧ s < st.structs.length
    · obtain ⟨hp1, hp2⟩ := hp
      subst hp1
      have hcell : (lookup_or_add K st p var).1.cell p = migrate_export
          (link_node K (double_buckets K st (alloc_buckets (st.cell p))) st.nodes.length var)
          var := by
        show (lookup_or_add K st p var).1.structs.getD p default = _
        rw [e2, getD_set_eq _ _ _ _ hp2]
      rw [hcell, hlen, migrate_export_buckets]
      obtain ⟨d1, d2, d3, d4, d5⟩ := double_buckets_ok (h p)
      have hfresh := lookup_none_fresh (h p) hl
      have h3 := (h p).2.2.1
      generalize double_buckets K st (alloc_buckets (st.cell p)) = D at d1 d2 d3 d4 d5
      have hinh : ∀ a, a ∈ (migrate_export (link_node K D st.nodes.length var) var).inherited →
          a ∈ (st.cell p).inherited := by
        intro a ha
        unfold migrate_export at ha
        split at ha
        · exact d4 ▸ ((mem_Fdelq var a _).mp ha).1
        · exact d4 ▸ ha
      have hvar : var ∉ (migrate_export (link_node K D st.nodes.length var) var).inherited := by
        intro ha
        unfold migrate_export at ha
        split at ha
        · exact ((mem_Fdelq var var _).mp ha).2 rfl
        · rename_i hne
          apply hne
          unfold structure_exports_inherited_p
          rw [Bool.or_eq_true]
          exact Or.inr (decide_eq_true ha)
      have base := tbl_ok_inherited hinh
        (@tbl_ok_congr K _ (fun n => ((lookup_or_add K st p var).1.node n).symbol) _ _ _ _
          (fun n hn => hsym n hn) (Nat.le_succ st.nodes.length) d1)
      have := tbl_ok_push base st.nodes.length d2
        (fun m hm => by
          show ((lookup_or_add K st p var).1.node m).symbol
            ≠ ((lookup_or_add K st p var).1.node st.nodes.length).symbol
          rw [hnew, hsym m (h3 m (d3 m hm))]
          exact hfresh m (d3 m hm))
        (Nat.lt_succ_self _)
        (by
          show ((lookup_or_add K st p var).1.node st.nodes.length).symbol ∉ _
          rw [hnew]; exact hvar)
      rw [hnew] at this
      exact this
    · have hcell : (lookup_or_add K st s var).1.cell p = st.cell p := by
        unfold State.cell
        rw [e2]
        by_cases hps : s = p
        · subst hps
          have : ¬ s < st.structs.length := fun hs => hp ⟨rfl, hs⟩
          rw [List.set_eq_of_length_le (Nat.le_of_not_lt this)]
        · rw [getD_set_ne _ _ _ _ _ hps]
      rw [hcell, hlen]
      exact tbl_ok_congr (fun n hn => hsym n hn) (Nat.le_succ _) (h p)

/-! ## Every operation keeps the tables well formed -/

/-- A change of state that keeps the symbols of the nodes, and for
every structure either leaves its table empty or keeps its chains and adds nothing to
its inherited list, keeps the tables well formed. -/
theorem wf_frame {K : Statics} (st st2 : State)
    (hlen : st.nodes.length ≤ st2.nodes.length)
    (hsym : ∀ n, n < st.nodes.length → (st2.node n).symbol = (st.node n).symbol)
    (hcell : ∀ p, (st2.cell p).buckets = [] ∨
      ((st2.cell p).buckets = (st.cell p).buckets ∧
        ∀ a, a ∈ (st2.cell p).inherited → a ∈ (st.cell p).inherited))
    (h : wf K st) : wf K st2 := by
  intro p
  unfold table_wf
  rcases hcell p with e | ⟨e1, e2⟩
  · rw [e]
    exact tbl_ok_empty K _ _ _
  · rw [e1]
    exact tbl_ok_inherited e2 (tbl_ok_congr hsym hlen (h p))

theorem wf_same {K : Statics} {st st2 : State} (hs : st2.structs = st.structs)
    (hn : st2.nodes = st.nodes) (h : wf K st) : wf K st2 := by
  refine wf_frame st st2 (by rw [hn]) (fun n _ => by unfold State.node; rw [hn])
    (fun p => Or.inr ?_) h
  unfold State.cell
  rw [hs]
  exact ⟨rfl, fun a ha => ha⟩

theorem wf_cache_only {K : Statics} {st st2 : State} (hc : cache_only st st2) (h : wf K st) :
    wf K st2 := wf_same hc.1 hc.2.1 h

theorem wf_set_node {K : Statics} {st : State} (n : Nat) (N : rep_struct_node)
    (hN : N.symbol = (st.node n).symbol) (h : wf K st) : wf K (st.set_node n N) := by
  refine wf_frame st _ (by simp [State.set_node]) (fun m _ => symbol_set_node N hN m)
    (fun p => Or.inr ⟨rfl, fun a ha => ha⟩) h

theorem cell_set_cell_cases (st : State) (p : Nat) (S : rep_struct) (q : Nat) :
    (st.set_cell p S).cell q = st.cell q ∨ (q = p ∧ (st.set_cell p S).cell q = S) := by
  by_cases hq : p = q
  · subst hq
    by_cases hp : p < st.structs.length
    · exact Or.inr ⟨rfl, cell_set_cell_eq S hp⟩
    · left
      unfold State.set_cell State.cell
      dsimp only
      rw [List.set_eq_of_length_le (Nat.le_of_not_lt hp)]
  · exact Or.inl (cell_set_cell_ne S hq)

theorem wf_set_cell {K : Statics} {st : State} (p : Nat) (S : rep_struct)
    (hb : S.buckets = (st.cell p).buckets)
    (hi : ∀ a, a ∈ S.inherited → a ∈ (st.cell p).inherited) (h : wf K st) :
    wf K (st.set_cell p S) := by
  refine wf_frame st _ (Nat.le_refl _) (fun m _ => rfl) (fun q => Or.inr ?_) h
  rcases cell_set_cell_cases st p S q with e | ⟨e1, e2⟩
  · rw [e]; exact ⟨rfl, fun a ha => ha⟩
  · subst e1
    rw [e2]; exact ⟨hb, hi⟩

theorem wf_update_struct {K : Statics} {st : State} (v : repv) (f : rep_struct → rep_struct)
    (hf : ∀ S, (f S).buckets = S.buckets ∧ (f S).inherited = S.inherited) (h : wf K st) :
    wf K (st.update_struct v f) := by
  unfold State.update_struct
  cases v with
  | struct p =>
    exact wf_set_cell p _ (hf _).1 (fun a ha => by rw [(hf _).2] at ha; exact ha) h
  | _ => exact h

theorem wf_alloc_struct {K : Statics} {st : State} (S : rep_struct) (hS : S.buckets = [])
    (h : wf K st) : wf K (st.alloc_struct S) := by
  refine wf_frame st _ (Nat.le_refl _) (fun m _ => rfl) (fun q => ?_) h
  by_cases hq : q < st.structs.length
  · right
    unfold State.alloc_struct State.cell
    dsimp only
    rw [getD_append_lt _ _ _ _ hq]
    exact ⟨rfl, fun a ha => ha⟩
  · left
    by_cases he : q = st.structs.length
    · unfold State.alloc_struct State.cell
      dsimp only
      rw [he, getD_append_length]
      exact hS
    · have : (st.alloc_struct S).structs.length ≤ q := by
        unfold State.alloc_struct
        simp only [List.length_append, List.length_singleton]
        omega
      rw [cell_invalid this]
      rfl

theorem wf_cache_flush {K : Statics} {st : State} (h : wf K st) : wf K (cache_flush st) :=
  wf_same rfl rfl h

theorem F_structure_ref_frame (K : Statics) (st : State) (sv x : repv) :
    cache_only st (F_structure_ref K st sv x).2 := by
  unfold F_structure_ref
  split
  · split
    · split
      · exact cache_only_refl st
      · rename_i s _ _ _
        obtain ⟨st1, r, h1, h2, -⟩ := rep_search_imports_ok K st.fuel st s x (free_count_le st)
        rw [h1]
        cases r <;> exact h2
    · exact cache_only_refl st
  · exact cache_only_refl st

theorem F_structure_bound_p_frame (K : Statics) (st : State) (sv x : repv) :
    cache_only st (F_structure_bound_p K st sv x).2 := by
  have h := F_structure_ref_frame K st sv x
  unfold F_structure_bound_p
  split <;> (rename_i e; rw [e] at h; exact h)

theorem F_external_structure_ref_frame (K : Statics) (st : State) (name x : repv) :
    cache_only st (F_external_structure_ref K st name x).2 := by
  rw [F_external_structure_ref_eq]
  split
  · split
    · obtain ⟨st1, r, h1, h2, -⟩ := lookup_recursively_ok K x st.fuel st name (free_count_le st)
      rw [h1]
      unfold external_result
      cases r with
      | none => exact h2
      | some n => dsimp only; split <;> exact h2
    · exact cache_only_refl st
  · exact cache_only_refl st

theorem wf_F_structure_set (K : Statics) (st : State) (sv x v : repv) (h : wf K st) :
    wf K (F_structure_set K st sv x v).2 := by
  unfold F_structure_set
  cases sv with
  | struct s =>
    dsimp only
    split
    · split
      · exact wf_set_node _ _ rfl (wf_lookup_or_add K st s x h)
      · exact wf_lookup_or_add K st s x h
    · exact h
  | _ => exact h

theorem wf_F_name_structure (K : Statics) (st : State) (v name : repv) (h : wf K st) :
    wf K (F_name_structure K st v name).2 := by
  unfold F_name_structure
  split
  · dsimp only
    apply wf_cache_flush
    split
    · split
      · exact wf_update_struct _ _ (fun S => ⟨rfl, rfl⟩) (wf_F_structure_set K st _ _ _ h)
      · exact wf_F_structure_set K st _ _ _ h
    · split
      · exact wf_F_structure_set K st _ _ _ h
      · exact h
  · exact h

theorem wf_F_make_structure (K : Statics) (hK : externals_keep K (wf K)) (st : State)
    (sig ht bt name : repv) (h : wf K st) : wf K (F_make_structure K st sig ht bt name).2 := by
  unfold F_make_structure
  split
  · dsimp only
    generalize hst1 : st.alloc_struct _ = st1
    have w1 : wf K st1 := by
      rw [← hst1]
      exact wf_alloc_struct _ rfl h
    have w2 : wf K (if name ≠ K.nil then
        (F_name_structure K st1 (repv.struct st.structs.length) name).2 else st1) := by
      split
      · exact wf_F_name_structure K _ _ _ w1
      · exact w1
    generalize (if name ≠ K.nil then
        (F_name_structure K st1 (repv.struct st.structs.length) name).2 else st1) = st2 at w2
    by_cases hht : ht ≠ K.nil
    · rw [if_pos hht]
      have w3 := wf_set_cell (K := K) st.structs.length
        { st2.cell st.structs.length with
          imports := repv.symbol K.Q_meta :: (st2.cell st.structs.length).imports }
        rfl (fun a ha => ha) w2
      have w4 := hK.2.1 _ ht (repv.struct st.structs.length) w3
      generalize K.rep_call_lisp0 _ ht (repv.struct st.structs.length) = r at w4
      have w5 := wf_set_cell (K := K) st.structs.length
        { r.2.cell st.structs.length with
          imports := Fdelq (repv.symbol K.Q_meta) (r.2.cell st.structs.length).imports }
        rfl (fun a ha => ha) w4
      generalize r.2.set_cell st.structs.length _ = st4 at w5
      cases r.1 with
      | error e => exact w5
      | ok v =>
        dsimp only
        split
        · have w6 := hK.2.1 st4 bt (repv.struct st.structs.length) w5
          split <;> (rename_i e; rw [e] at w6; exact w6)
        · exact w5
    · rw [if_neg hht]
      dsimp only
      split
      · have w6 := hK.2.1 st2 bt (repv.struct st.structs.length) w2
        split <;> (rename_i e; rw [e] at w6; exact w6)
      · exact w2
  · exact h

/-! ## `set-interface` -/

theorem inherited_p_iff (S : rep_struct) (x : repv) :
    structure_exports_inherited_p S x = true ↔ S.export_all = true ∨ x ∈ S.inherited := by
  unfold structure_exports_inherited_p
  rw [Bool.or_eq_true, decide_eq_true_iff]

/-- One iteration of the loop of `set-interface`: the nodes keep their symbols,
the tables their chains, the other structures are as before, and the symbol of
the node leaves the inherited list. -/
theorem set_interface_step_frame (p : Nat) (st : State) (n : Nat) :
    (set_interface_step p st n).nodes.length = st.nodes.length ∧
    (∀ m, ((set_interface_step p st n).node m).symbol = (st.node m).symbol) ∧
    (∀ m, m ≠ n → (set_interface_step p st n).node m = st.node m) ∧
    (∀ q, ((set_interface_step p st n).cell q).buckets = (st.cell q).buckets) ∧
    (∀ q, q ≠ p → (set_interface_step p st n).cell q = st.cell q) ∧
    ((set_interface_step p st n).cell p).export_all = (st.cell p).export_all ∧
    (∀ a, a ∈ ((set_interface_step p st n).cell p).inherited ↔
      a ∈ (st.cell p).inherited ∧ a ≠ (st.node n).symbol) ∧
    (n < st.nodes.length → ((set_interface_step p st n).node n).is_exported
      = structure_exports_inherited_p (st.cell p) (st.node n).symbol) := by
  unfold set_interface_step
  split
  · rename_i hx
    refine ⟨by simp [State.set_cell, State.set_node],
      fun m => @symbol_set_node st n { st.node n with is_exported := true } rfl m,
      fun m hm => node_set_node_ne _ (Ne.symm hm), fun q => ?_, fun q hq => ?_, ?_, fun a => ?_,
      fun hn => ?_⟩
    · rcases cell_set_cell_cases (st.set_node n { st.node n with is_exported := true }) p
        { st.cell p with inherited := Fdelq (st.node n).symbol (st.cell p).inherited } q
        with e | ⟨e1, e2⟩
      · rw [e]; rfl
      · rw [e2, e1]
    · exact cell_set_cell_ne _ (Ne.symm hq)
    · rcases cell_set_cell_cases (st.set_node n { st.node n with is_exported := true }) p
        { st.cell p with inherited := Fdelq (st.node n).symbol (st.cell p).inherited } p
        with e | ⟨-, e2⟩
      · rw [e]; rfl
      · rw [e2]
    · by_cases hp : p < st.structs.length
      · rw [@cell_set_cell_eq (st.set_node n { st.node n with is_exported := true }) p _ hp]
        exact mem_Fdelq _ _ _
      · have e1 : ((st.set_node n { st.node n with is_exported := true }).set_cell p
            { st.cell p with inherited := Fdelq (st.node n).symbol (st.cell p).inherited }).cell p
            = default := cell_invalid (by
              show (st.structs.set p _).length ≤ p
              rw [List.length_set]; exact Nat.le_of_not_lt hp)
        rw [e1, cell_invalid (Nat.le_of_not_lt hp)]
        simp [default]
    · have : ((st.set_node n { st.node n with is_exported := true }).set_cell p
          { st.cell p with inherited := Fdelq (st.node n).symbol (st.cell p).inherited }).node n
          = (st.set_node n { st.node n with is_exported := true }).node n := rfl
      rw [this, node_set_node_eq _ hn, hx]
  · rename_i hx
    refine ⟨by simp [State.set_node],
      fun m => @symbol_set_node st n { st.node n with is_exported := false } rfl m,
      fun m hm => node_set_node_ne _ (Ne.symm hm), fun q => rfl, fun q _ => rfl, rfl, fun a => ?_,
      fun hn => ?_⟩
    · show a ∈ (st.cell p).inherited ↔ _
      constructor
      · intro ha
        refine ⟨ha, fun e => hx ?_⟩
        rw [inherited_p_iff]
        exact Or.inr (e ▸ ha)
      · exact fun h => h.1
    · rw [node_set_node_eq _ hn]
      simp only [Bool.not_eq_true] at hx
      rw [hx]

theorem set_interface_loop_frame (p : Nat) :
    ∀ (l : List Nat) (st : State),
      (l.foldl (set_interface_step p) st).nodes.length = st.nodes.length ∧
      (∀ m, ((l.foldl (set_interface_step p) st).node m).symbol = (st.node m).symbol) ∧
      (∀ m, m ∉ l → (l.foldl (set_interface_step p) st).node m = st.node m) ∧
      (∀ q, ((l.foldl (set_interface_step p) st).cell q).buckets = (st.cell q).buckets) ∧
      (∀ q, q ≠ p → (l.foldl (set_interface_step p) st).cell q = st.cell q) ∧
      ((l.foldl (set_interface_step p) st).cell p).export_all = (st.cell p).export_all ∧
      (∀ a, a ∈ ((l.foldl (set_interface_step p) st).cell p).inherited ↔
        a ∈ (st.cell p).inherited ∧ ∀ n ∈ l, (st.node n).symbol ≠ a) := by
  intro l
  induction l with
  | nil =>
    intro st
    exact ⟨rfl, fun _ => rfl, fun _ _ => rfl, fun _ => rfl, fun _ _ => rfl, rfl,
      fun a => ⟨fun h => ⟨h, fun n hn => by cases hn⟩, fun h => h.1⟩⟩
  | cons n rest ih =>
    intro st
    obtain ⟨s1, s2, s3, s4, s5, s6, s7, -⟩ := set_interface_step_frame p st n
    obtain ⟨i1, i2, i3, i4, i5, i6, i7⟩ := ih (set_interface_step p st n)
    rw [List.foldl_cons]
    refine ⟨i1.trans s1, fun m => (i2 m).trans (s2 m), fun m hm => ?_,
      fun q => (i4 q).trans (s4 q), fun q hq => (i5 q hq).trans (s5 q hq), i6.trans s6,
      fun a => ?_⟩
    · rw [i3 m (fun h => hm (List.mem_cons_of_mem _ h))]
      exact s3 m (fun e => hm (e ▸ List.mem_cons_self _ _))
    · rw [i7 a, s7 a]
      constructor
      · rintro ⟨⟨h1, h2⟩, h3⟩
        refine ⟨h1, fun m hm => ?_⟩
        rcases List.mem_cons.mp hm with e | e
        · rw [e]; exact fun e2 => h2 e2.symm
        · rw [← s2 m]; exact h3 m e
      · rintro ⟨h1, h2⟩
        refine ⟨⟨h1, fun e => h2 n (List.mem_cons_self _ _) e.symm⟩, fun m hm => ?_⟩
        rw [s2 m]
        exact h2 m (List.mem_cons_of_mem _ hm)

/-- After the loop of `set-interface` over nodes of distinct symbols, a node is
exported if and only if the structure exported its symbol by inheritance when
the loop started. -/
theorem set_interface_loop_exported (p : Nat) :
    ∀ (l : List Nat) (st : State), (l.map (fun n => (st.node n).symbol)).Nodup →
      (∀ n ∈ l, n < st.nodes.length) →
      ∀ n ∈ l, ((l.foldl (set_interface_step p) st).node n).is_exported
        = structure_exports_inherited_p (st.cell p) (st.node n).symbol := by
  intro l
  induction l with
  | nil => intro st _ _ n hn; cases hn
  | cons n0 rest ih =>
    intro st hnd hv n hn
    obtain ⟨s1, s2, s3, -, -, s6, s7, s8⟩ := set_interface_step_frame p st n0
    obtain ⟨-, -, i3, -⟩ := set_interface_loop_frame p rest (set_interface_step p st n0)
    rw [List.map_cons, List.nodup_cons] at hnd
    have hmap : rest.map (fun n => ((set_interface_step p st n0).node n).symbol)
        = rest.map (fun n => (st.node n).symbol) :=
      List.map_congr_left (fun m _ => s2 m)
    rw [List.foldl_cons]
    rcases List.mem_cons.mp hn with e | e
    · subst e
      have hnot : n ∉ rest := fun h => hnd.1 (List.mem_map.mpr ⟨n, h, rfl⟩)
      rw [i3 n hnot]
      exact s8 (hv n (List.mem_cons_self _ _))
    · have := ih (set_interface_step p st n0) (by rw [hmap]; exact hnd.2)
        (fun m hm => by rw [s1]; exact hv m (List.mem_cons_of_mem _ hm)) n e
      rw [this, s2 n, Bool.eq_iff_iff, inherited_p_iff, inherited_p_iff, s6, s7]
      have hne : (st.node n).symbol ≠ (st.node n0).symbol := by
        intro e2
        exact hnd.1 (List.mem_map.mpr ⟨n, e, e2⟩)
      constructor
      · rintro (h | ⟨h, -⟩)
        · exact Or.inl h
        · exact Or.inr h
      · rintro (h | h)
        · exact Or.inl h
        · exact Or.inr ⟨h, hne⟩

/-- The state `set-interface` leaves, on a structure value and a list. -/
theorem F_set_interface_eq (K : Statics) (st : State) (p : Nat) (sig : repv)
    (hsig : rep_LISTP K sig = true) :
    F_set_interface K st (repv.struct p) sig
      = (.ok (repv.symbol K.Qt),
        cache_flush (((st.set_cell p
          { st.cell p with inherited := list_elems sig, export_all := false }).cell p).buckets.flatten.foldl
          (set_interface_step p)
          (st.set_cell p { st.cell p with inherited := list_elems sig, export_all := false }))) := by
  unfold F_set_interface
  dsimp only
  rw [if_pos hsig]

theorem wf_F_set_interface (K : Statics) (st : State) (sv sig : repv) (h : wf K st) :
    wf K (F_set_interface K st sv sig).2 := by
  cases sv with
  | struct p =>
    by_cases hsig : rep_LISTP K sig = true
    · rw [F_set_interface_eq K st p sig hsig]
      apply wf_cache_flush
      generalize hst1 : st.set_cell p
        { st.cell p with inherited := list_elems sig, export_all := false } = st1
      have hb : ∀ q, (st1.cell q).buckets = (st.cell q).buckets := by
        intro q
        rw [← hst1]
        rcases cell_set_cell_cases st p
          { st.cell p with inherited := list_elems sig, export_all := false } q with e | ⟨e1, e2⟩
        · rw [e]
        · rw [e2, e1]
      have hq : ∀ q, q ≠ p → st1.cell q = st.cell q := by
        intro q hq
        rw [← hst1]
        exact cell_set_cell_ne _ (Ne.symm hq)
      have hn : st1.nodes = st.nodes := by rw [← hst1]; rfl
      obtain ⟨i1, i2, -, i4, i5, -, i7⟩ := set_interface_loop_frame p
        (st1.cell p).buckets.flatten st1
      intro q
      unfold table_wf
      rw [i4 q, hb q, i1, hn]
      have base : tbl_ok K (fun n => (st.node n).symbol) st.nodes.length (st.cell q).buckets
          ((((st1.cell p).buckets.flatten.foldl (set_interface_step p) st1).cell q).inherited) := by
        obtain ⟨w1, w2, w3, w4⟩ := h q
        refine ⟨w1, w2, w3, fun n hn2 hm => ?_⟩
        by_cases hqp : q = p
        · subst hqp
          rw [i7] at hm
          exact hm.2 n (by rw [hb q]; exact hn2) (by unfold State.node; rw [hn])
        · rw [i5 q hqp, hq q hqp] at hm
          exact w4 n hn2 hm
      refine tbl_ok_congr (fun n _ => ?_) (Nat.le_refl _) base
      rw [i2 n]
      unfold State.node
      rw [hn]
    · have : F_set_interface K st (repv.struct p) sig = (.error Err.bad_arg, st) := by
        unfold F_set_interface
        dsimp only
        rw [if_neg hsig]
      rw [this]
      exact h
  | _ => exact h

/-! ## Reachable states have well formed tables -/

theorem wf_F_intern_structure (K : Statics) (hK : externals_keep K (wf K)) (st : State)
    (name : repv) (h : wf K st) : wf K (F_intern_structure K st name).2 := by
  unfold F_intern_structure
  split
  · exact h
  · split
    · dsimp only
      generalize hr : K.Fload _ name = r
      have w3 : wf K r.2 := by
        rw [← hr]
        refine hK.1 _ _ ?_
        split
        · split
          · exact wf_same rfl rfl h
          · exact wf_same rfl rfl h
        · exact wf_same rfl rfl h
      obtain ⟨r1, st3⟩ := r
      cases r1 with
      | error e => exact wf_same rfl rfl w3
      | ok v =>
        dsimp only
        split
        · exact wf_same rfl rfl (wf_F_name_structure K _ _ _ w3)
        · exact wf_same rfl rfl w3
    · exact h

theorem wf_open_loop (K : Statics) (hK : externals_keep K (wf K)) (dst : repv) :
    ∀ (args : List repv) (st : State), wf K st → wf K (open_loop K dst st args) := by
  intro args
  induction args with
  | nil => intro st h; exact h
  | cons a rest ih =>
    intro st h
    unfold open_loop
    split
    · have w := wf_F_intern_structure K hK st a h
      split
      · rename_i e; rw [e] at w; exact w
      · rename_i e
        rw [e] at w
        apply ih
        split
        · exact wf_update_struct _ _ (fun S => ⟨rfl, rfl⟩) w
        · exact w
    · exact ih st h

theorem wf_access_loop (K : Statics) (hK : externals_keep K (wf K)) (dst : repv) :
    ∀ (args : List repv) (st : State), wf K st → wf K (access_loop K dst st args) := by
  intro args
  induction args with
  | nil => intro st h; exact h
  | cons a rest ih =>
    intro st h
    unfold access_loop
    split
    · have w := wf_F_intern_structure K hK st a h
      split
      · rename_i e; rw [e] at w; exact w
      · rename_i e
        rw [e] at w
        split
        · exact ih _ (wf_update_struct _ _ (fun S => ⟨rfl, rfl⟩) w)
        · exact w
    · exact ih st h

theorem wf_Fprovide (K : Statics) (st : State) (f : repv) (h : wf K st) :
    wf K (Fprovide K st f).2 := by
  unfold Fprovide
  split
  · have w := wf_cache_only (F_structure_ref_frame K st st.rep_structure
      (repv.symbol K.Qfeatures)) h
    split
    · rename_i e; rw [e] at w
      exact wf_F_structure_set K _ _ _ _ w
    · rename_i e; rw [e] at w
      exact wf_F_structure_set K _ _ _ _ w
  · exact h

theorem wf_Ffeaturep (K : Statics) (st : State) (f : repv) (h : wf K st) :
    wf K (Ffeaturep K st f).2 := by
  unfold Ffeaturep
  split
  · have w := wf_cache_only (F_structure_ref_frame K st st.rep_structure
      (repv.symbol K.Qfeatures)) h
    split
    · rename_i e; rw [e] at w
      split <;> exact w
    · rename_i e; rw [e] at w
      exact w
  · exact h

theorem wf_require_finish (K : Statics) (st : State) (dst f tem : repv) (h : wf K st) :
    wf K (require_finish K st dst f tem).2 := by
  unfold require_finish
  split
  · exact wf_cache_flush (wf_Fprovide K _ f (wf_update_struct _ _ (fun S => ⟨rfl, rfl⟩) h))
  · exact h

theorem wf_Frequire (K : Statics) (hK : externals_keep K (wf K)) (st : State) (f : repv)
    (h : wf K st) : wf K (Frequire K st f).2 := by
  unfold Frequire
  split
  · have w := wf_Ffeaturep K st f h
    generalize Ffeaturep K st f = r at w
    obtain ⟨r0, st1⟩ := r
    dsimp only
    split
    · exact w
    · split
      · split
        · exact wf_require_finish K _ _ _ _ w
        · have w2 := hK.1 st1 f w
          split
          · rename_i e; rw [e] at w2; exact w2
          · rename_i e; rw [e] at w2
            apply wf_require_finish
            split
            · exact wf_F_name_structure K _ _ _ w2
            · exact w2
      · exact w
  · exact h

theorem wf_walk_loop (K : Statics) (hK : externals_keep K (wf K)) (fn : repv) (s : Nat) :
    ∀ (fuel : Nat) (st : State) (i : Nat) (ptr : Option Nat) (ret : repv)
      (calls : List (repv × repv)), wf K st →
      wf K (walk_loop K fn s fuel st i ptr ret calls).2.1 := by
  intro fuel
  induction fuel with
  | zero => intro st i ptr ret calls h; exact h
  | succ fuel ih =>
    intro st i ptr ret calls h
    cases ptr with
    | none =>
      rw [walk_loop_none]
      split
      · exact ih _ _ _ _ _ h
      · exact h
    | some n =>
      rw [walk_loop_some]
      split
      · have w := hK.2.2 st fn (st.node n).symbol (st.node n).binding h
        split
        · rename_i e; rw [e] at w; exact w
        · rename_i e; rw [e] at w; exact ih _ _ _ _ _ w
      · exact ih _ _ _ _ _ h

theorem wf_F_structure_walk (K : Statics) (hK : externals_keep K (wf K)) (fuel : Nat)
    (st : State) (fn sv : repv) (h : wf K st) : wf K (F_structure_walk K fuel st fn sv).2.1 := by
  unfold F_structure_walk
  split
  · split
    · exact wf_walk_loop K hK fn _ fuel st _ _ _ _ h
    · exact h
  · exact h

theorem wf_rep_push_structure (K : Statics) (hK : externals_keep K (wf K)) (st : State)
    (sym : repv) (h : wf K st) : wf K (rep_push_structure K st sym).2 := by
  unfold rep_push_structure
  split
  · exact wf_same rfl rfl h
  · split
    · have w := wf_F_make_structure K hK st K.nil K.nil K.nil sym h
      split
      · rename_i e; rw [e] at w; exact wf_same rfl rfl w
      · rename_i e; rw [e] at w; exact wf_same rfl rfl w
    · exact wf_same rfl rfl h

theorem wf_rep_add_subr (K : Statics) (st : State) (sym subr : repv) (exported : Bool)
    (h : wf K st) : wf K (rep_add_subr K st sym subr exported).2 := by
  unfold rep_add_subr
  split
  · split
    · exact wf_set_node _ _ rfl (wf_lookup_or_add K st _ sym h)
    · exact h
  · exact h

theorem wf_exec (K : Statics) (hK : externals_keep K (wf K)) (st : State) (op : Op)
    (h : wf K st) : wf K (op.exec K st) := by
  cases op with
  | make_structure sig ht bt name => exact wf_F_make_structure K hK st sig ht bt name h
  | name_structure s name => exact wf_F_name_structure K st s name h
  | structure_ref s var => exact wf_cache_only (F_structure_ref_frame K st s var) h
  | structure_bound_p s var => exact wf_cache_only (F_structure_bound_p_frame K st s var) h
  | structure_set s var value => exact wf_F_structure_set K st s var value h
  | external_structure_ref name var =>
    exact wf_cache_only (F_external_structure_ref_frame K st name var) h
  | set_interface s sig => exact wf_F_set_interface K st s sig h
  | intern_structure name => exact wf_F_intern_structure K hK st name h
  | open_structures args =>
    show wf K (F_open_structures K st args).2
    unfold F_open_structures
    split
    · exact wf_cache_flush (wf_open_loop K hK _ _ st h)
    · exact h
  | access_structures args =>
    show wf K (F_access_structures K st args).2
    unfold F_access_structures
    split
    · exact wf_cache_flush (wf_access_loop K hK _ _ st h)
    · exact h
  | make_binding_immutable var =>
    show wf K (Fmake_binding_immutable K st var).2
    unfold Fmake_binding_immutable
    split
    · split
      · exact wf_set_node _ _ rfl h
      · exact h
    · exact h
  | push_structure sym => exact wf_rep_push_structure K hK st sym h
  | pop_structure old => exact wf_same rfl rfl h
  | add_subr sym subr exported => exact wf_rep_add_subr K st sym subr exported h
  | structure_exports_all s status =>
    show wf K (F_structure_exports_all K st s status).2
    unfold F_structure_exports_all rep_structure_exports_all
    split
    · exact wf_update_struct _ _ (fun S => ⟨rfl, rfl⟩) h
    · exact h
  | featurep f => exact wf_Ffeaturep K st f h
  | provide f => exact wf_Fprovide K st f h
  | require f => exact wf_Frequire K hK st f h
  | structure_walk fuel fn s => exact wf_F_structure_walk K hK fuel st fn s h

theorem wf_zero_state (K : Statics) : wf K zero_state := by
  intro p
  unfold table_wf
  have : zero_state.cell p = default := cell_invalid (Nat.zero_le _)
  rw [this]
  exact tbl_ok_empty K _ _ _

theorem wf_init (K : Statics) (hK : externals_keep K (wf K)) :
    wf K (rep_pre_structures_init K zero_state) := by
  unfold rep_pre_structures_init
  dsimp only
  refine wf_same rfl rfl (wf_F_make_structure K hK _ _ _ _ _ ?_)
  refine wf_same rfl rfl (wf_F_make_structure K hK _ _ _ _ _ ?_)
  exact wf_same rfl rfl (wf_F_make_structure K hK _ _ _ _ _ (wf_zero_state K))

theorem wf_run (K : Statics) (hK : externals_keep K (wf K)) :
    ∀ (ops : List Op) (st : State), wf K st → wf K (run K st ops) := by
  intro ops
  induction ops with
  | nil => intro st h; exact h
  | cons op rest ih =>
    intro st h
    exact ih _ (wf_exec K hK st op h)

/-- Every reachable state has well formed binding tables, when the external
parts keep them well formed. -/
theorem wf_reachable (K : Statics) (hK : externals_keep K (wf K)) (st : State)
    (h : Reachable K st) : wf K st := by
  obtain ⟨ops, e⟩ := h
  rw [← e]
  exact wf_run K hK ops _ (wf_init K hK)

theorem externals_keep_K0 (P : State → Prop) : externals_keep K0 P :=
  ⟨fun _ _ h => h, fun _ _ _ h => h, fun _ _ _ _ h => h⟩

/-! ## The interface of a structure (C11, C12, C13) -/

/-- The state `set-interface` leaves in a structure whose table is well formed. -/
theorem set_interface_spec (K : Statics) (st : State) (p : Nat) (sig : repv)
    (hwf : table_wf K st p) (hp : p < st.structs.length) (hsig : rep_LISTP K sig = true) :
    F_set_interface K st (repv.struct p) sig
      = (.ok (repv.symbol K.Qt), (F_set_interface K st (repv.struct p) sig).2) ∧
    ((F_set_interface K st (repv.struct p) sig).2.cell p).buckets = (st.cell p).buckets ∧
    ((F_set_interface K st (repv.struct p) sig).2.cell p).export_all = false ∧
    (∀ m, ((F_set_interface K st (repv.struct p) sig).2.node m).symbol = (st.node m).symbol) ∧
    (∀ n ∈ (st.cell p).buckets.flatten,
      (((F_set_interface K st (repv.struct p) sig).2.node n).is_exported = true ↔
        (st.node n).symbol ∈ list_elems sig)) ∧
    (∀ a, a ∈ ((F_set_interface K st (repv.struct p) sig).2.cell p).inherited ↔
      a ∈ list_elems sig ∧ ∀ n ∈ (st.cell p).buckets.flatten, (st.node n).symbol ≠ a) := by
  rw [F_set_interface_eq K st p sig hsig]
  dsimp only
  have hc : (st.set_cell p
      { st.cell p with inherited := list_elems sig, export_all := false }).cell p
      = { st.cell p with inherited := list_elems sig, export_all := false } :=
    cell_set_cell_eq _ hp
  have hn : ∀ m, (st.set_cell p
      { st.cell p with inherited := list_elems sig, export_all := false }).node m = st.node m :=
    fun _ => rfl
  have hl : (st.set_cell p
      { st.cell p with inherited := list_elems sig, export_all := false }).nodes.length
      = st.nodes.length := rfl
  generalize st.set_cell p
    { st.cell p with inherited := list_elems sig, export_all := false } = st1 at hc hn hl
  have hb : (st1.cell p).buckets = (st.cell p).buckets := by rw [hc]
  obtain ⟨-, i2, -, i4, -, i6, i7⟩ := set_interface_loop_frame p (st1.cell p).buckets.flatten st1
  have hmap : (st1.cell p).buckets.flatten.map (fun n => (st1.node n).symbol)
      = (st.cell p).buckets.flatten.map (fun n => (st.node n).symbol) := by
    rw [hb]
    exact List.map_congr_left (fun m _ => by rw [hn m])
  have iexp := set_interface_loop_exported p (st1.cell p).buckets.flatten st1
    (by rw [hmap]; exact hwf.2.1)
    (fun n hn2 => by rw [hl]; exact hwf.2.2.1 n (by rw [← hb]; exact hn2))
  refine ⟨rfl, (i4 p).trans hb, by rw [show ∀ s : State, (cache_flush s).cell p = s.cell p from
    fun _ => rfl, i6, hc], fun m => ?_, fun n hn2 => ?_, fun a => ?_⟩
  · show (((st1.cell p).buckets.flatten.foldl (set_interface_step p) st1).node m).symbol = _
    rw [i2 m, hn m]
  · show (((st1.cell p).buckets.flatten.foldl (set_interface_step p) st1).node n).is_exported
      = true ↔ _
    rw [iexp n (by rw [hb]; exact hn2), inherited_p_iff, hn n, hc]
    constructor
    · rintro (h | h)
      · cases h
      · exact h
    · exact Or.inr
  · show a ∈ (((st1.cell p).buckets.flatten.foldl (set_interface_step p) st1).cell p).inherited
      ↔ _
    rw [i7 a, hb, hc]
    constructor
    · rintro ⟨h1, h2⟩
      exact ⟨h1, fun n hn2 => by rw [← hn n]; exact h2 n hn2⟩
    · rintro ⟨h1, h2⟩
      exact ⟨h1, fun n hn2 => by rw [hn n]; exact h2 n hn2⟩

/-- The members of the list `structure-interface` builds. -/
theorem interface_fold_mem (st : State) (a : repv) :
    ∀ (l : List Nat) (init : List repv),
      a ∈ l.foldl (fun list n => if (st.node n).is_exported then (st.node n).symbol :: list
        else list) init ↔
      a ∈ init ∨ ∃ n ∈ l, (st.node n).is_exported = true ∧ (st.node n).symbol = a := by
  intro l
  induction l with
  | nil =>
    intro init
    simp
  | cons n rest ih =>
    intro init
    rw [List.foldl_cons, ih]
    constructor
    · rintro (h | ⟨m, hm, h1, h2⟩)
      · split at h
        · rename_i he
          rcases List.mem_cons.mp h with e | e
          · exact Or.inr ⟨n, List.mem_cons_self _ _, he, e.symm⟩
          · exact Or.inl e
        · exact Or.inl h
      · exact Or.inr ⟨m, List.mem_cons_of_mem _ hm, h1, h2⟩
    · rintro (h | ⟨m, hm, h1, h2⟩)
      · left
        split
        · exact List.mem_cons_of_mem _ h
        · exact h
      · rcases List.mem_cons.mp hm with e | e
        · subst e
          left
          rw [if_pos h1, h2]
          exact List.mem_cons_self _ _
        · exact Or.inr ⟨m, e, h1, h2⟩

/-- C11. Export migration.  Let the external parts keep the binding tables well
formed.  In every reachable state, for every structure `s` and symbol `x`: after
`lookup_or_add (s, x)`, and so after `structure-set (s, x, v)`, `x` is not in the
inherited list of `s`, and if `x` was in that list before the call then the
record of `x` is exported.  In every reachable state no symbol is both in the
inherited list of a structure and the symbol of a record in its table. -/
theorem export_migration (K : Statics) (hK : externals_keep K (wf K)) (st : State)
    (hreach : Reachable K st) (s : Nat) (x v : repv) (hx : rep_SYMBOLP x = true) :
    (x ∉ ((lookup_or_add K st s x).1.cell s).inherited ∧
      (x ∈ (st.cell s).inherited →
        ((lookup_or_add K st s x).1.node (lookup_or_add K st s x).2).is_exported = true)) ∧
    (x ∉ ((F_structure_set K st (repv.struct s) x v).2.cell s).inherited ∧
      (x ∈ (st.cell s).inherited →
        ∃ n, lookup K (F_structure_set K st (repv.struct s) x v).2
            ((F_structure_set K st (repv.struct s) x v).2.cell s) x = some n ∧
          ((F_structure_set K st (repv.struct s) x v).2.node n).is_exported = true)) ∧
    (∀ p y n, lookup K st (st.cell p) y = some n → y ∉ (st.cell p).inherited) ∧
    (∀ p, ∀ n ∈ (st.cell p).buckets.flatten, (st.node n).symbol ∉ (st.cell p).inherited) := by
  have hwf := wf_reachable K hK st hreach
  have hinv : ∀ (st : State), wf K st →
      ∀ p y n, lookup K st (st.cell p) y = some n → y ∉ (st.cell p).inherited := by
    intro st2 h2 p y n hl
    have := (h2 p).2.2.2 n (lookup_mem hl)
    dsimp only at this
    rw [lookup_some hl] at this
    exact this
  have hadd : x ∉ ((lookup_or_add K st s x).1.cell s).inherited ∧
      (x ∈ (st.cell s).inherited →
        ((lookup_or_add K st s x).1.node (lookup_or_add K st s x).2).is_exported = true ∧
        ((lookup_or_add K st s x).1.node (lookup_or_add K st s x).2).is_constant = false) := by
    have hs := @lookup_or_add_lookup K st s x
    refine ⟨fun hm => ?_, fun hm => ?_⟩
    · by_cases hv : s < st.structs.length
      · exact hinv _ (wf_lookup_or_add K st s x hwf) s x _ (hs hv hx).1 hm
      · have : (lookup_or_add K st s x).1.structs.length ≤ s := by
          rw [(lookup_or_add_frame K st s x).1]
          exact Nat.le_of_not_lt hv
        rw [cell_invalid this] at hm
        cases hm
    · cases hl : lookup K st (st.cell s) x with
      | some n => exact absurd hm (hinv st hwf s x n hl)
      | none =>
        obtain ⟨e1, -, e3⟩ := lookup_or_add_miss hl
        have hnode : (lookup_or_add K st s x).1.node (lookup_or_add K st s x).2
            = new_node (double_buckets K st (alloc_buckets (st.cell s))) x := by
          unfold State.node
          rw [e1, e3, getD_append_length]
        rw [hnode]
        obtain ⟨-, -, -, d4, -⟩ := double_buckets_ok (hwf s)
        refine ⟨?_, rfl⟩
        unfold new_node
        dsimp only
        rw [Bool.or_eq_true]
        right
        rw [inherited_p_iff]
        right
        rw [d4]
        exact hm
  refine ⟨⟨hadd.1, fun hm => (hadd.2 hm).1⟩, ?_, hinv st hwf, fun p => (hwf p).2.2.2⟩
  have hcell : ∀ q, (F_structure_set K st (repv.struct s) x v).2.cell q
      = (lookup_or_add K st s x).1.cell q := by
    intro q
    unfold F_structure_set
    dsimp only
    rw [if_pos hx]
    split <;> rfl
  refine ⟨by rw [hcell]; exact hadd.1, fun hm => ?_⟩
  have hv : s < st.structs.length := by
    by_contra hv
    rw [cell_invalid (Nat.le_of_not_lt hv)] at hm
    cases hm
  obtain ⟨h1, h2⟩ := hadd.2 hm
  obtain ⟨hl, hn⟩ := lookup_or_add_lookup K st hv hx
  have hst : (F_structure_set K st (repv.struct s) x v).2
      = (lookup_or_add K st s x).1.set_node (lookup_or_add K st s x).2
        { (lookup_or_add K st s x).1.node (lookup_or_add K st s x).2 with binding := v } := by
    unfold F_structure_set
    dsimp only
    rw [if_pos hx, h2]
    rfl
  rw [hst]
  refine ⟨(lookup_or_add K st s x).2, ?_, ?_⟩
  · refine (lookup_congr K x (fun m => ?_) rfl).trans hl
    exact @symbol_set_node (lookup_or_add K st s x).1 (lookup_or_add K st s x).2
      { (lookup_or_add K st s x).1.node (lookup_or_add K st s x).2 with binding := v } rfl m
  · rw [node_set_node_eq _ hn]
    exact h1

set_option maxRecDepth 1000000 in
/-- Witness of C11: in the reachable state `iface_state` the structure `A` (3)
has `y` in its inherited list; the external parts of `K0` change no state. -/
theorem export_migration_witness :
    sym_y ∈ (iface_state.cell 3).inherited ∧
    ((sym_y ∉ ((lookup_or_add K0 iface_state 3 sym_y).1.cell 3).inherited ∧
      (sym_y ∈ (iface_state.cell 3).inherited →
        ((lookup_or_add K0 iface_state 3 sym_y).1.node
          (lookup_or_add K0 iface_state 3 sym_y).2).is_exported = true)) ∧
    (sym_y ∉ ((F_structure_set K0 iface_state (repv.struct 3) sym_y (repv.other 5)).2.cell
        3).inherited ∧
      (sym_y ∈ (iface_state.cell 3).inherited →
        ∃ n, lookup K0 (F_structure_set K0 iface_state (repv.struct 3) sym_y (repv.other 5)).2
            ((F_structure_set K0 iface_state (repv.struct 3) sym_y (repv.other 5)).2.cell 3)
            sym_y = some n ∧
          ((F_structure_set K0 iface_state (repv.struct 3) sym_y (repv.other 5)).2.node
            n).is_exported = true)) ∧
    (∀ p y n, lookup K0 iface_state (iface_state.cell p) y = some n →
      y ∉ (iface_state.cell p).inherited) ∧
    (∀ p, ∀ n ∈ (iface_state.cell p).buckets.flatten,
      (iface_state.node n).symbol ∉ (iface_state.cell p).inherited)) :=
  ⟨by decide,
    export_migration K0 (externals_keep_K0 _) iface_state ⟨iface_ops, rfl⟩ 3 sym_y
      (repv.other 5) rfl⟩

/-- C12. Let the external parts keep the binding tables well formed.  In every
reachable state, for every structure `p` of the state and every list `sig`,
`set-interface (p, sig)` returns `t` and leaves the table of `p` with the same
records, every record of which is exported if and only if its symbol is a member
of `sig`, and the EXPORT_ALL flag of `p` is clear. -/
theorem set_interface_exports (K : Statics) (hK : externals_keep K (wf K)) (st : State)
    (hreach : Reachable K st) (p : Nat) (sig : repv) (hp : p < st.structs.length)
    (hsig : rep_LISTP K sig = true) :
    ∃ st2, F_set_interface K st (repv.struct p) sig = (.ok (repv.symbol K.Qt), st2) ∧
      (st2.cell p).buckets = (st.cell p).buckets ∧
      (st2.cell p).export_all = false ∧
      (∀ n ∈ (st2.cell p).buckets.flatten,
        ((st2.node n).is_exported = true ↔ (st2.node n).symbol ∈ list_elems sig)) ∧
      (∀ x n, lookup K st2 (st2.cell p) x = some n →
        ((st2.node n).is_exported = true ↔ x ∈ list_elems sig)) := by
  obtain ⟨h1, h2, h3, h4, h5, -⟩ :=
    set_interface_spec K st p sig (wf_reachable K hK st hreach p) hp hsig
  refine ⟨_, h1, h2, h3, fun n hn => ?_, fun x n hl => ?_⟩
  · rw [h2] at hn
    rw [h4 n]
    exact h5 n hn
  · have hm := lookup_mem hl
    rw [h2] at hm
    rw [← lookup_some hl, h4 n]
    exact h5 n hm

set_option maxRecDepth 1000000 in
/-- Witness of C12: `set-interface (A, (z))` in the reachable state
`iface_state`. -/
theorem set_interface_exports_witness :
    ∃ st2, F_set_interface K0 iface_state (repv.struct 3) (mk_list K0 [sym_z])
        = (.ok (repv.symbol K0.Qt), st2) ∧
      (st2.cell 3).buckets = (iface_state.cell 3).buckets ∧
      (st2.cell 3).export_all = false ∧
      (∀ n ∈ (st2.cell 3).buckets.flatten,
        ((st2.node n).is_exported = true ↔ (st2.node n).symbol ∈ list_elems (mk_list K0 [sym_z]))) ∧
      (∀ x n, lookup K0 st2 (st2.cell 3) x = some n →
        ((st2.node n).is_exported = true ↔ x ∈ list_elems (mk_list K0 [sym_z]))) :=
  set_interface_exports K0 (externals_keep_K0 _) iface_state ⟨iface_ops, rfl⟩ 3
    (mk_list K0 [sym_z]) (by decide) (by decide)

/-- C13. Interface round trip.  Let the external parts keep the binding tables
well formed.  In every reachable state, for every structure `p` of the state and
every list `sig`, the list that `structure-interface (p)` returns right after
`set-interface (p, sig)` has exactly the members of `sig`; a member of `sig`
stays in the inherited list if and only if no record of `p` has it as its
symbol, and the symbol of a record is in the returned list if and only if the
record is exported. -/
theorem interface_round_trip (K : Statics) (hK : externals_keep K (wf K)) (st : State)
    (hreach : Reachable K st) (p : Nat) (sig : repv) (hp : p < st.structs.length)
    (hsig : rep_LISTP K sig = true) :
    ∃ l, F_structure_interface (F_set_interface K st (repv.struct p) sig).2 (repv.struct p)
        = .ok l ∧
      (∀ a, a ∈ l ↔ a ∈ list_elems sig) ∧
      (∀ a, a ∈ ((F_set_interface K st (repv.struct p) sig).2.cell p).inherited ↔
        a ∈ list_elems sig ∧
          lookup K (F_set_interface K st (repv.struct p) sig).2
            ((F_set_interface K st (repv.struct p) sig).2.cell p) a = none) ∧
      (∀ a n, lookup K (F_set_interface K st (repv.struct p) sig).2
          ((F_set_interface K st (repv.struct p) sig).2.cell p) a = some n →
        (a ∈ l ↔ ((F_set_interface K st (repv.struct p) sig).2.node n).is_exported = true)) := by
  have hwf := wf_reachable K hK st hreach
  obtain ⟨-, h2, -, h4, h5, h6⟩ := set_interface_spec K st p sig (hwf p) hp hsig
  have hwf2 := wf_F_set_interface K st (repv.struct p) sig hwf
  generalize (F_set_interface K st (repv.struct p) sig).2 = st2 at h2 h4 h5 h6 hwf2
  have hmem : ∀ a, a ∈ (st2.cell p).buckets.flatten.foldl
      (fun list n => if (st2.node n).is_exported then (st2.node n).symbol :: list else list)
      (st2.cell p).inherited ↔ a ∈ list_elems sig := by
    intro a
    rw [interface_fold_mem, h6, h2]
    constructor
    · rintro (⟨h, -⟩ | ⟨n, hn, e1, e2⟩)
      · exact h
      · rw [← e2, h4 n]
        exact (h5 n hn).mp e1
    · intro ha
      by_cases hex : ∃ n ∈ (st.cell p).buckets.flatten, (st.node n).symbol = a
      · obtain ⟨n, hn, e⟩ := hex
        exact Or.inr ⟨n, hn, (h5 n hn).mpr (e ▸ ha), (h4 n).trans e⟩
      · exact Or.inl ⟨ha, fun n hn e => hex ⟨n, hn, e⟩⟩
  have hnone : ∀ a, lookup K st2 (st2.cell p) a = none ↔
      ∀ n ∈ (st.cell p).buckets.flatten, (st.node n).symbol ≠ a := by
    intro a
    constructor
    · intro hl n hn
      rw [← h4 n]
      exact lookup_none_fresh (hwf2 p) hl n (by rw [h2]; exact hn)
    · intro hall
      cases hl : lookup K st2 (st2.cell p) a with
      | none => rfl
      | some n =>
        have hm := lookup_mem hl
        rw [h2] at hm
        exact absurd ((h4 n).symm.trans (lookup_some hl)) (hall n hm)
  refine ⟨_, rfl, hmem, fun a => ?_, fun a n hl => ?_⟩
  · rw [h6, hnone]
  · have hm := lookup_mem hl
    rw [h2] at hm
    rw [hmem, h5 n hm, ← h4 n, lookup_some hl]

set_option maxRecDepth 1000000 in
/-- Witness of C13: `set-interface (A, (z y))` in the reachable state
`iface_state`, where `A` binds `x` and `z`. -/
theorem interface_round_trip_witness :
    ∃ l, F_structure_interface
          (F_set_interface K0 iface_state (repv.struct 3) (mk_list K0 [sym_z, sym_y])).2
          (repv.struct 3) = .ok l ∧
      (∀ a, a ∈ l ↔ a ∈ list_elems (mk_list K0 [sym_z, sym_y])) ∧
      (∀ a, a ∈ ((F_set_interface K0 iface_state (repv.struct 3)
            (mk_list K0 [sym_z, sym_y])).2.cell 3).inherited ↔
        a ∈ list_elems (mk_list K0 [sym_z, sym_y]) ∧
          lookup K0 (F_set_interface K0 iface_state (repv.struct 3) (mk_list K0 [sym_z, sym_y])).2
            ((F_set_interface K0 iface_state (repv.struct 3)
              (mk_list K0 [sym_z, sym_y])).2.cell 3) a = none) ∧
      (∀ a n, lookup K0 (F_set_interface K0 iface_state (repv.struct 3)
            (mk_list K0 [sym_z, sym_y])).2
          ((F_set_interface K0 iface_state (repv.struct 3) (mk_list K0 [sym_z, sym_y])).2.cell 3)
          a = some n →
        (a ∈ l ↔ ((F_set_interface K0 iface_state (repv.struct 3)
          (mk_list K0 [sym_z, sym_y])).2.node n).is_exported = true)) :=
  interface_round_trip K0 (externals_keep_K0 _) iface_state ⟨iface_ops, rfl⟩ 3
    (mk_list K0 [sym_z, sym_y]) (by decide) (by decide)

/-! ## The EXCLUSION flags after a lookup (C22) -/

theorem exclusion_cache_only {st st1 : State} (h : cache_only st st1) (p : Nat) :
    (st1.cell p).exclusion = (st.cell p).exclusion := by
  rw [cell_cache_only h p]

/-- C22. EXCLUSION is always cleared.  For every state, structure, name and
symbol: `lookup_recursively` and `rep_search_imports` return as soon as the fuel
exceeds the number of structures whose flag is clear, and `structure-ref` and
`external-structure-ref` always return; the state each of them leaves has
the structure heap, the node heap and the four roots of the state before, so it
differs from it in lines of the cache only, and every structure has the
EXCLUSION flag it had before the call; if no flag was set before, none is set
after. -/
theorem exclusion_restored (K : Statics) (st : State) (s : Nat) (name x sv : repv) (fuel : Nat)
    (hf : free_count st < fuel) :
    (∃ st1 r, lookup_recursively K fuel st name x = some (st1, r) ∧ cache_only st st1 ∧
      ∀ p, (st1.cell p).exclusion = (st.cell p).exclusion) ∧
    (∃ st1 r, rep_search_imports K fuel st s x = some (st1, r) ∧ cache_only st st1 ∧
      ∀ p, (st1.cell p).exclusion = (st.cell p).exclusion) ∧
    (cache_only st (F_structure_ref K st sv x).2 ∧
      ∀ p, ((F_structure_ref K st sv x).2.cell p).exclusion = (st.cell p).exclusion) ∧
    (cache_only st (F_external_structure_ref K st name x).2 ∧
      ∀ p, ((F_external_structure_ref K st name x).2.cell p).exclusion
        = (st.cell p).exclusion) ∧
    ((∀ p, (st.cell p).exclusion = false) →
      (∀ p, ((F_structure_ref K st sv x).2.cell p).exclusion = false) ∧
      (∀ p, ((F_external_structure_ref K st name x).2.cell p).exclusion = false)) := by
  obtain ⟨st1, r1, a1, a2, -⟩ := lookup_recursively_ok K x fuel st name hf
  obtain ⟨st2, r2, b1, b2, -⟩ := rep_search_imports_ok K fuel st s x hf
  have c := F_structure_ref_frame K st sv x
  have d := F_external_structure_ref_frame K st name x
  refine ⟨⟨st1, r1, a1, a2, exclusion_cache_only a2⟩, ⟨st2, r2, b1, b2, exclusion_cache_only b2⟩,
    ⟨c, exclusion_cache_only c⟩, ⟨d, exclusion_cache_only d⟩, fun h => ⟨fun p => ?_, fun p => ?_⟩⟩
  · rw [exclusion_cache_only c]; exact h p
  · rw [exclusion_cache_only d]; exact h p

set_option maxRecDepth 1000000 in
/-- C22 at a concrete input: the cyclic graph of `cyc_state`, with the fuel of
the entry points. -/
theorem exclusion_restored_witness :
    free_count cyc_state < cyc_state.fuel ∧
    ((∃ st1 r, lookup_recursively K0 cyc_state.fuel cyc_state sym_X sym_x = some (st1, r) ∧
        cache_only cyc_state st1 ∧
        ∀ p, (st1.cell p).exclusion = (cyc_state.cell p).exclusion) ∧
    (∃ st1 r, rep_search_imports K0 cyc_state.fuel cyc_state 3 sym_x = some (st1, r) ∧
        cache_only cyc_state st1 ∧
        ∀ p, (st1.cell p).exclusion = (cyc_state.cell p).exclusion) ∧
    (cache_only cyc_state (F_structure_ref K0 cyc_state (repv.struct 3) sym_x).2 ∧
      ∀ p, ((F_structure_ref K0 cyc_state (repv.struct 3) sym_x).2.cell p).exclusion
        = (cyc_state.cell p).exclusion) ∧
    (cache_only cyc_state (F_external_structure_ref K0 cyc_state sym_X sym_x).2 ∧
      ∀ p, ((F_external_structure_ref K0 cyc_state sym_X sym_x).2.cell p).exclusion
        = (cyc_state.cell p).exclusion) ∧
    ((∀ p, (cyc_state.cell p).exclusion = false) →
      (∀ p, ((F_structure_ref K0 cyc_state (repv.struct 3) sym_x).2.cell p).exclusion = false) ∧
      (∀ p, ((F_external_structure_ref K0 cyc_state sym_X sym_x).2.cell p).exclusion
        = false))) :=
  ⟨free_count_le cyc_state,
    exclusion_restored K0 cyc_state 3 sym_X sym_x (repv.struct 3) cyc_state.fuel
      (free_count_le cyc_state)⟩

/-! ## The flush of the whole cache (C27) -/

theorem cache_empty_flush (st : State) : cache_empty (cache_flush st) := by
  intro l hl
  have : l = ⟨none, 0⟩ := List.eq_of_mem_replicate hl
  rw [this]

/-- C27. Whole-cache flush.  In the state that `set-interface`,
`open-structures`, `access-structures` or `name-structure` leaves when it
returns a value, every line of the cache is empty.  So, in that state, no pair
of a structure and a symbol hits the cache, and `rep_search_imports (s, x)` is
the loop over the imports that `s` has in that state. -/
theorem flush_after_structural_change (K : Statics) (st st2 : State) (v : repv) :
    ((∃ sv sig, F_set_interface K st sv sig = (.ok v, st2)) ∨
      (∃ args, F_open_structures K st args = (.ok v, st2)) ∨
      (∃ args, F_access_structures K st args = (.ok v, st2)) ∨
      (∃ sv name, F_name_structure K st sv name = (.ok v, st2))) →
    cache_empty st2 ∧
    (∀ s x, lookup_cache st2 s x = none) ∧
    (∀ fuel s x, rep_search_imports K fuel st2 s x
      = search_loop (fun st3 nm => lookup_recursively K fuel st3 nm x) s st2
          (st2.cell s).imports) := by
  intro h
  have he : cache_empty st2 := by
    rcases h with ⟨sv, sig, h⟩ | ⟨args, h⟩ | ⟨args, h⟩ | ⟨sv, name, h⟩
    · unfold F_set_interface at h
      split at h
      · split at h
        · rw [← (Prod.mk.inj h).2]; exact cache_empty_flush _
        · cases (Prod.mk.inj h).1
      · cases (Prod.mk.inj h).1
    · unfold F_open_structures at h
      split at h
      · rw [← (Prod.mk.inj h).2]; exact cache_empty_flush _
      · cases (Prod.mk.inj h).1
    · unfold F_access_structures at h
      split at h
      · rw [← (Prod.mk.inj h).2]; exact cache_empty_flush _
      · cases (Prod.mk.inj h).1
    · unfold F_name_structure at h
      split at h
      · rw [← (Prod.mk.inj h).2]; exact cache_empty_flush _
      · cases (Prod.mk.inj h).1
  have hm : ∀ s x, lookup_cache st2 s x = none :=
    fun s x => lookup_cache_miss st2 (line_empty he _) s
  refine ⟨he, hm, fun fuel s x => ?_⟩
  unfold rep_search_imports search_imports_with
  rw [hm s x]

set_option maxRecDepth 1000000 in
/-- C27 at a concrete input: `name-structure (T, Q)` in the state `warm_state`,
whose cache holds the line `(T, x)`. -/
theorem flush_after_structural_change_witness :
    ¬ cache_empty warm_state ∧
    (cache_empty (F_name_structure K0 warm_state (repv.struct 6) sym_Q).2 ∧
    (∀ s x, lookup_cache (F_name_structure K0 warm_state (repv.struct 6) sym_Q).2 s x = none) ∧
    (∀ fuel s x, rep_search_imports K0 fuel
        (F_name_structure K0 warm_state (repv.struct 6) sym_Q).2 s x
      = search_loop (fun st3 nm => lookup_recursively K0 fuel st3 nm x) s
          (F_name_structure K0 warm_state (repv.struct 6) sym_Q).2
          ((F_name_structure K0 warm_state (repv.struct 6) sym_Q).2.cell s).imports)) :=
  ⟨by decide,
    flush_after_structural_change K0 warm_state
      (F_name_structure K0 warm_state (repv.struct 6) sym_Q).2 sym_Q
      (Or.inr (Or.inr (Or.inr ⟨repv.struct 6, sym_Q, by decide⟩)))⟩

/-! ## One record for each symbol (C25) -/

/-- In a well formed table `lookup` returns the record of the symbol. -/
theorem lookup_iff {K : Statics} {st : State} {S : rep_struct} {len : Nat} {inh : List repv}
    (h : tbl_ok K (fun n => (st.node n).symbol) len S.buckets inh) (x : repv) (n : Nat) :
    lookup K st S x = some n ↔ n ∈ S.buckets.flatten ∧ (st.node n).symbol = x := by
  constructor
  · intro hl
    exact ⟨lookup_mem hl, lookup_some hl⟩
  · rintro ⟨hn, hs⟩
    cases hl : lookup K st S x with
    | none => exact absurd hs (lookup_none_fresh h hl n hn)
    | some m =>
      have e : m = n := List.inj_on_of_nodup_map h.2.1 (lookup_mem hl) hn
        ((lookup_some hl).trans hs.symm)
      rw [e]

theorem lookup_none_iff {K : Statics} {st : State} {S : rep_struct} {len : Nat}
    {inh : List repv} (h : tbl_ok K (fun n => (st.node n).symbol) len S.buckets inh) (x : repv) :
    lookup K st S x = none ↔ ∀ n ∈ S.buckets.flatten, (st.node n).symbol ≠ x := by
  constructor
  · exact lookup_none_fresh h
  · intro hall
    cases hl : lookup K st S x with
    | none => rfl
    | some m => exact absurd (lookup_some hl) (hall m (lookup_mem hl))

/-- C25. Let the external parts keep the binding tables well formed.  In every
reachable state and for every structure `s`: no two records of the table of `s`
have the same symbol; for every `x`, `lookup (s, x)` returns the record `n` if
and only if `n` is a record of the table whose symbol is `x`, and it returns
none if and only if the table holds no record of `x`; for `x ≠ y` the records
that `lookup` returns for `x` and for `y` are distinct. -/
theorem lookup_unique (K : Statics) (hK : externals_keep K (wf K)) (st : State)
    (hreach : Reachable K st) (s : Nat) :
    ((st.cell s).buckets.flatten.map (fun n => (st.node n).symbol)).Nodup ∧
    (∀ n ∈ (st.cell s).buckets.flatten, ∀ m ∈ (st.cell s).buckets.flatten,
      (st.node n).symbol = (st.node m).symbol → n = m) ∧
    (∀ x n, lookup K st (st.cell s) x = some n ↔
      n ∈ (st.cell s).buckets.flatten ∧ (st.node n).symbol = x) ∧
    (∀ x, lookup K st (st.cell s) x = none ↔
      ∀ n ∈ (st.cell s).buckets.flatten, (st.node n).symbol ≠ x) ∧
    (∀ x y n m, x ≠ y → lookup K st (st.cell s) x = some n →
      lookup K st (st.cell s) y = some m → n ≠ m) := by
  have h := wf_reachable K hK st hreach s
  refine ⟨h.2.1, fun n hn m hm e => List.inj_on_of_nodup_map h.2.1 hn hm e,
    fun x n => lookup_iff h x n, fun x => lookup_none_iff h x, fun x y n m hxy hx hy e => ?_⟩
  subst e
  exact hxy ((lookup_some hx).symm.trans (lookup_some hy))

set_option maxRecDepth 1000000 in
/-- C25 at a concrete input: the structure `A` (3) of the reachable state
`iface_state`, which binds `x` and `z`. -/
theorem lookup_unique_witness :
    ((iface_state.cell 3).buckets.flatten.map (fun n => (iface_state.node n).symbol)).Nodup ∧
    (∀ n ∈ (iface_state.cell 3).buckets.flatten, ∀ m ∈ (iface_state.cell 3).buckets.flatten,
      (iface_state.node n).symbol = (iface_state.node m).symbol → n = m) ∧
    (∀ x n, lookup K0 iface_state (iface_state.cell 3) x = some n ↔
      n ∈ (iface_state.cell 3).buckets.flatten ∧ (iface_state.node n).symbol = x) ∧
    (∀ x, lookup K0 iface_state (iface_state.cell 3) x = none ↔
      ∀ n ∈ (iface_state.cell 3).buckets.flatten, (iface_state.node n).symbol ≠ x) ∧
    (∀ x y n m, x ≠ y → lookup K0 iface_state (iface_state.cell 3) x = some n →
      lookup K0 iface_state (iface_state.cell 3) y = some m → n ≠ m) :=
  lookup_unique K0 (externals_keep_K0 _) iface_state ⟨iface_ops, rfl⟩ 3

/-! ## `structure-exports-p` and `structure-interface` (C29) -/

/-- C29. Let the external parts keep the binding tables well formed.  In every
reachable state, for every structure `s` whose EXPORT_ALL flag is clear and every
symbol `x`: `structure-exports-p (s, x)` returns `t` if `x` is a member of the
list that `structure-interface (s)` returns, and `nil` if it is not; so, `t` and
`nil` being distinct, it returns `t` if and only if `x` is a member. -/
theorem exports_p_iff_interface (K : Statics) (hK : externals_keep K (wf K)) (st : State)
    (hreach : Reachable K st) (s : Nat) (x : repv) (hx : rep_SYMBOLP x = true)
    (hflag : (st.cell s).export_all = false) :
    ∃ l, F_structure_interface st (repv.struct s) = .ok l ∧
      (x ∈ l → F_structure_exports_p K st (repv.struct s) x = .ok (repv.symbol K.Qt)) ∧
      (x ∉ l → F_structure_exports_p K st (repv.struct s) x = .ok K.nil) ∧
      (K.Qt ≠ K.Qnil →
        (F_structure_exports_p K st (repv.struct s) x = .ok (repv.symbol K.Qt) ↔ x ∈ l)) := by
  have h := wf_reachable K hK st hreach s
  have hmem := interface_fold_mem st x (st.cell s).buckets.flatten (st.cell s).inherited
  have hexp : F_structure_exports_p K st (repv.struct s) x =
      .ok (if x ∈ (st.cell s).buckets.flatten.foldl
          (fun list n => if (st.node n).is_exported then (st.node n).symbol :: list else list)
          (st.cell s).inherited then repv.symbol K.Qt else K.nil) := by
    unfold F_structure_exports_p
    rw [show (rep_STRUCTUREP (repv.struct s) && rep_SYMBOLP x) = true by rw [hx]; rfl, if_pos rfl]
    show (match lookup K st (st.cell s) x with
      | some n => Except.ok (if (st.node n).is_exported then repv.symbol K.Qt else K.nil)
      | none => .ok (if structure_exports_inherited_p (st.cell s) x then repv.symbol K.Qt
          else K.nil)) = _
    cases hl : lookup K st (st.cell s) x with
    | some n =>
      dsimp only
      have hn := lookup_mem hl
      have hs := lookup_some hl
      have hnot : x ∉ (st.cell s).inherited := by
        have := h.2.2.2 n hn
        dsimp only at this
        rw [hs] at this
        exact this
      congr 1
      by_cases he : (st.node n).is_exported = true
      · rw [if_pos he, if_pos (hmem.mpr (Or.inr ⟨n, hn, he, hs⟩))]
      · rw [if_neg he, if_neg]
        rw [hmem]
        rintro (h1 | ⟨m, hm, h1, h2⟩)
        · exact hnot h1
        · have e : m = n := List.inj_on_of_nodup_map h.2.1 hm hn (h2.trans hs.symm)
          rw [e] at h1
          exact he h1
    | none =>
      dsimp only
      congr 1
      have hfresh := lookup_none_fresh h hl
      by_cases hi : structure_exports_inherited_p (st.cell s) x = true
      · rw [if_pos hi, if_pos]
        rw [hmem]
        rw [inherited_p_iff, hflag] at hi
        rcases hi with hi | hi
        · cases hi
        · exact Or.inl hi
      · rw [if_neg hi, if_neg]
        rw [hmem]
        rintro (h1 | ⟨m, hm, -, h2⟩)
        · exact hi ((inherited_p_iff _ _).mpr (Or.inr h1))
        · exact hfresh m hm h2
  refine ⟨_, rfl, fun hm => by rw [hexp, if_pos hm], fun hm => by rw [hexp, if_neg hm],
    fun hne => ?_⟩
  rw [hexp]
  constructor
  · intro e
    by_contra hm
    rw [if_neg hm] at e
    have e2 := Except.ok.inj e
    unfold Statics.nil at e2
    exact hne (repv.symbol.inj e2).symm
  · intro hm
    rw [if_pos hm]

set_option maxRecDepth 1000000 in
/-- C29 at a concrete input: the structure `A` (3) of the reachable state
`iface_state` and the symbol `y` of its inherited list. -/
theorem exports_p_iff_interface_witness :
    (iface_state.cell 3).export_all = false ∧
    ∃ l, F_structure_interface iface_state (repv.struct 3) = .ok l ∧
      (sym_y ∈ l →
        F_structure_exports_p K0 iface_state (repv.struct 3) sym_y = .ok (repv.symbol K0.Qt)) ∧
      (sym_y ∉ l → F_structure_exports_p K0 iface_state (repv.struct 3) sym_y = .ok K0.nil) ∧
      (K0.Qt ≠ K0.Qnil →
        (F_structure_exports_p K0 iface_state (repv.struct 3) sym_y = .ok (repv.symbol K0.Qt) ↔
          sym_y ∈ l)) :=
  ⟨by decide,
    exports_p_iff_interface K0 (externals_keep_K0 _) iface_state ⟨iface_ops, rfl⟩ 3 sym_y rfl
      (by decide)⟩

/-! ## The structures a lookup enters (C21) -/

theorem search_loop_untrace
    (look : State → repv → Option (State × Option Nat × List (List Nat × Nat))) (s : Nat) :
    ∀ (imports : List repv) (st : State),
      untrace (search_loop_tr look s st imports)
        = search_loop (fun st2 nm => untrace (look st2 nm)) s st imports := by
  intro imports
  induction imports with
  | nil => intro st; rfl
  | cons nm rest ih =>
    intro st
    unfold search_loop_tr search_loop
    cases hq : look st nm with
    | none => rfl
    | some q =>
      obtain ⟨st1, o, tr⟩ := q
      cases o with
      | some n => rfl
      | none =>
        have := ih st1
        unfold untrace at this ⊢
        simp only [Option.map_map, Option.map_some']
        rw [← this]
        rfl

theorem search_imports_untrace
    (look : State → repv → Option (State × Option Nat × List (List Nat × Nat)))
    (st : State) (s : Nat) (var : repv) :
    untrace (search_imports_tr look st s var)
      = search_imports_with (fun st2 nm => untrace (look st2 nm)) st s var := by
  unfold search_imports_tr search_imports_with
  cases lookup_cache st s var with
  | some n => rfl
  | none => exact search_loop_untrace look s _ st

theorem clear_exclusion_untrace (p : Nat)
    (r : Option (State × Option Nat × List (List Nat × Nat))) :
    untrace (clear_exclusion_tr p r) = clear_exclusion p (untrace r) := by
  cases r with
  | none => rfl
  | some q => rfl

theorem search_inherited_untrace
    (look : State → repv → Option (State × Option Nat × List (List Nat × Nat)))
    (st : State) (p : Nat) (var : repv) :
    untrace (search_inherited_tr look st p var)
      = search_inherited (fun st2 nm => untrace (look st2 nm)) st p var := by
  unfold search_inherited_tr search_inherited
  rw [clear_exclusion_untrace]
  split
  · rw [search_imports_untrace]
  · rfl

theorem lookup_recursively_with_untrace (K : Statics)
    (look : Nat → State → repv → Option (State × Option Nat × List (List Nat × Nat)))
    (look0 : State → repv → Option (State × Option Nat))
    (hlook : ∀ p st2 nm, untrace (look p st2 nm) = look0 st2 nm)
    (path : List Nat) (st : State) (name var : repv) :
    untrace (lookup_recursively_with_tr K look path st name var)
      = lookup_recursively_with K look0 st name var := by
  unfold lookup_recursively_with_tr lookup_recursively_with
  cases F_get_structure K st name with
  | error e => rfl
  | ok v =>
    cases v with
    | struct p =>
      dsimp only
      by_cases hex : (st.cell p).exclusion = true
      · rw [if_pos hex, if_pos hex]
        rfl
      · rw [if_neg hex, if_neg hex]
        cases lookup K st (st.cell p) var with
        | some n => rfl
        | none =>
          dsimp only
          have h := search_inherited_untrace (look p) st p var
          have e : (fun st2 nm => untrace (look p st2 nm)) = look0 := by
            funext st2 nm
            exact hlook p st2 nm
          rw [e] at h
          rw [← h]
          unfold untrace
          rw [Option.map_map]
          rfl
    | _ => rfl

/-- The lookup with the list of entries returns what `lookup_recursively`
returns. -/
theorem lookup_recursively_untrace (K : Statics) (var : repv) :
    ∀ (fuel : Nat) (path : List Nat) (st : State) (name : repv),
      untrace (lookup_recursively_tr K fuel path st name var)
        = lookup_recursively K fuel st name var := by
  intro fuel
  induction fuel with
  | zero => intro path st name; rfl
  | succ fuel ih =>
    intro path st name
    unfold lookup_recursively_tr lookup_recursively
    exact lookup_recursively_with_untrace K _ _ (fun p st2 nm => ih (p :: path) st2 nm) path st
      name var

theorem rep_search_imports_untrace (K : Statics) (fuel : Nat) (st : State) (s : Nat)
    (var : repv) :
    untrace (rep_search_imports_tr K fuel st s var) = rep_search_imports K fuel st s var := by
  unfold rep_search_imports_tr rep_search_imports
  rw [search_imports_untrace]
  have e : (fun st2 nm => untrace (lookup_recursively_tr K fuel [] st2 nm var))
      = (fun st2 nm => lookup_recursively K fuel st2 nm var) := by
    funext st2 nm
    exact lookup_recursively_untrace K var fuel [] st2 nm
  rw [e]

theorem flags_set_cache_only {st st1 : State} {path : List Nat} (h : cache_only st st1)
    (hp : flags_set st path) : flags_set st1 path :=
  ⟨hp.1, fun q hq => by rw [cell_cache_only h q]; exact hp.2 q hq⟩

theorem search_loop_entries
    (look : State → repv → Option (State × Option Nat × List (List Nat × Nat)))
    (s c : Nat) (path : List Nat)
    (hlook : ∀ st nm, free_count st = c → flags_set st path → entries_ok st (look st nm)) :
    ∀ (imports : List repv) (st : State), free_count st = c → flags_set st path →
      entries_ok st (search_loop_tr look s st imports) := by
  intro imports
  induction imports with
  | nil =>
    intro st _ _
    exact ⟨st, none, [], rfl, cache_only_refl st, fun _ => rfl, fun v hv => by cases hv⟩
  | cons nm rest ih =>
    intro st hc hp
    obtain ⟨st1, r, tr, h1, h2, h3, h4⟩ := hlook st nm hc hp
    unfold search_loop_tr
    rw [h1]
    cases r with
    | some n =>
      exact ⟨_, some n, tr, rfl, cache_only_trans h2 (cache_only_enter st1 s n),
        (fun h => by cases h), h4⟩
    | none =>
      dsimp only
      have e := h3 rfl
      subst e
      obtain ⟨st2, r2, tr2, k1, k2, k3, k4⟩ := ih st1 hc hp
      rw [k1]
      refine ⟨st2, r2, tr ++ tr2, rfl, k2, k3, fun v hv => ?_⟩
      rcases List.mem_append.mp hv with e | e
      · exact h4 v e
      · exact k4 v e

theorem search_imports_entries
    (look : State → repv → Option (State × Option Nat × List (List Nat × Nat)))
    (s c : Nat) (path : List Nat)
    (hlook : ∀ st nm, free_count st = c → flags_set st path → entries_ok st (look st nm))
    (st : State) (var : repv) (hc : free_count st = c) (hp : flags_set st path) :
    entries_ok st (search_imports_tr look st s var) := by
  unfold search_imports_tr
  cases lookup_cache st s var with
  | some n =>
    exact ⟨st, some n, [], rfl, cache_only_refl st, (fun h => by cases h),
      fun v hv => by cases hv⟩
  | none => exact search_loop_entries look s c path hlook _ st hc hp

theorem search_inherited_entries
    (look : State → repv → Option (State × Option Nat × List (List Nat × Nat)))
    (st : State) (p : Nat) (var : repv) (path : List Nat)
    (hex : (st.cell p).exclusion = false) (hp : flags_set st path)
    (hlook : ∀ st2 nm, free_count st2 + 1 = free_count st → flags_set st2 (p :: path) →
      entries_ok st2 (look st2 nm)) :
    entries_ok st (search_inherited_tr look st p var) := by
  unfold search_inherited_tr
  have hrest : ∀ st3 : State, cache_only (st.set_exclusion p true) st3 →
      cache_only st (st3.set_exclusion p false) := by
    intro st3 h
    exact ⟨clear_flag_restores hex h.1, h.2.1, h.2.2.1, h.2.2.2.1, h.2.2.2.2.1, h.2.2.2.2.2⟩
  split
  · rename_i hinh
    have hv : p < st.structs.length := by
      by_contra hv
      have h1 : (st.set_exclusion p true).cell p = default := by
        apply cell_invalid
        simp only [State.set_exclusion, State.set_cell, List.length_set]
        omega
      rw [h1, structure_exports_inherited_p_default] at hinh
      cases hinh
    have hfc : free_count (st.set_exclusion p true) + 1 = free_count st :=
      free_count_set_flag hv hex
    have hnot : p ∉ path := by
      intro hm
      rw [hp.2 p hm] at hex
      cases hex
    have hp2 : flags_set (st.set_exclusion p true) (p :: path) := by
      refine ⟨List.nodup_cons.mpr ⟨hnot, hp.1⟩, fun q hq => ?_⟩
      unfold State.set_exclusion
      by_cases e : q = p
      · subst e
        rw [cell_set_cell_eq _ hv]
      · rw [cell_set_cell_ne _ (Ne.symm e)]
        rcases List.mem_cons.mp hq with h | h
        · exact absurd h e
        · exact hp.2 q h
    obtain ⟨st3, r, tr, h1, h2, h3, h4⟩ := search_imports_entries look p
      (free_count (st.set_exclusion p true)) (p :: path)
      (fun st2 nm hc hf => hlook st2 nm (by omega) hf) (st.set_exclusion p true) var rfl hp2
    rw [h1]
    refine ⟨_, r, tr, rfl, hrest st3 h2, ?_, h4⟩
    intro hr
    apply State.ext_cache (hrest st3 h2)
    rw [h3 hr]
    rfl
  · exact ⟨_, none, [], rfl, hrest _ (cache_only_refl _),
      fun _ => State.ext_cache (hrest _ (cache_only_refl _)) rfl, fun v hv => by cases hv⟩

theorem lookup_recursively_with_entries (K : Statics)
    (look : Nat → State → repv → Option (State × Option Nat × List (List Nat × Nat)))
    (path : List Nat) (st : State) (name var : repv) (hp : flags_set st path)
    (hlook : ∀ p st2 nm, free_count st2 + 1 = free_count st → flags_set st2 (p :: path) →
      entries_ok st2 (look p st2 nm)) :
    entries_ok st (lookup_recursively_with_tr K look path st name var) := by
  have triv : ∀ r, entries_ok st (some (st, r, [])) :=
    fun r => ⟨st, r, [], rfl, cache_only_refl st, fun _ => rfl, fun v hv => by cases hv⟩
  unfold lookup_recursively_with_tr
  split
  · rename_i p hget
    split
    · exact triv _
    · rename_i hex
      have hex : (st.cell p).exclusion = false := by simpa using hex
      have hnot : p ∉ path := by
        intro hm
        rw [hp.2 p hm] at hex
        cases hex
      split
      · refine ⟨st, _, _, rfl, cache_only_refl st, fun _ => rfl, fun v hv => ?_⟩
        rw [List.mem_singleton] at hv
        rw [hv]
        exact ⟨hnot, hp.1⟩
      · obtain ⟨st1, r, tr, h1, h2, h3, h4⟩ :=
          search_inherited_entries (look p) st p var path hex hp (hlook p)
        rw [h1]
        refine ⟨st1, r, (path, p) :: tr, rfl, h2, h3, fun v hv => ?_⟩
        rcases List.mem_cons.mp hv with e | e
        · rw [e]
          exact ⟨hnot, hp.1⟩
        · exact h4 v e
  · exact triv _

theorem lookup_recursively_entries (K : Statics) (var : repv) :
    ∀ (fuel : Nat) (path : List Nat) (st : State) (name : repv), free_count st < fuel →
      flags_set st path → entries_ok st (lookup_recursively_tr K fuel path st name var) := by
  intro fuel
  induction fuel with
  | zero => intro path st name h; cases h
  | succ fuel ih =>
    intro path st name hf hp
    unfold lookup_recursively_tr
    exact lookup_recursively_with_entries K _ path st name var hp
      (fun p st2 nm hc hp2 => ih (p :: path) st2 nm (by omega) hp2)

theorem flags_set_nil (st : State) : flags_set st [] :=
  ⟨List.nodup_nil, fun q hq => by cases hq⟩

set_option maxRecDepth 1000000 in
/-- C21 as stated fails.  The state `diamond_state` is reachable, its cache is
empty and no EXCLUSION flag is set.  `rep_search_imports (S, x)` enters the
structures 4, 6, 5, 6 in this order and `lookup_recursively (S, x)` enters 3, 4,
6, 5, 6: the structure `D` (6), which `A` and `B` both open, is entered twice.
The flag of `D` is cleared when the search below `A` leaves it. -/
theorem diamond_entered_twice :
    Reachable K0 diamond_state ∧ cache_empty diamond_state ∧
    (∀ p, (diamond_state.cell p).exclusion = false) ∧
    entered (rep_search_imports_tr K0 diamond_state.fuel diamond_state 3 sym_x)
      = some [4, 6, 5, 6] ∧
    entered (lookup_recursively_tr K0 diamond_state.fuel [] diamond_state sym_S sym_x)
      = some [3, 4, 6, 5, 6] ∧
    untrace (rep_search_imports_tr K0 diamond_state.fuel diamond_state 3 sym_x)
      = rep_search_imports K0 diamond_state.fuel diamond_state 3 sym_x ∧
    (F_external_structure_ref K0 diamond_state sym_S sym_x).1 = .error Err.void_value := by
  refine ⟨⟨diamond_ops, rfl⟩, by decide, fun p => ?_, by decide, by decide, by decide, by decide⟩
  by_cases hp : p < diamond_state.structs.length
  · have h7 : diamond_state.structs.length = 7 := by decide
    rw [h7] at hp
    interval_cases p <;> decide
  · rw [cell_invalid (Nat.le_of_not_lt hp)]
    rfl

/-- C21, amended.  For every state, name, structure and symbol, with the fuel of
the entry points (or any fuel that exceeds the number of structures whose flag
is clear): the lookup with the list of entries returns what `lookup_recursively`
(`rep_search_imports`) returns, and every entry is into a structure that is not
among the structures whose search is in progress, which are pairwise distinct.
So no structure is entered while its own search is in progress, and a chain of
nested calls enters no structure twice; a structure that two import paths reach
can be entered once on each path. -/
theorem entered_once_per_path (K : Statics) (st : State) (s : Nat) (name x : repv)
    (fuel : Nat) (hf : free_count st < fuel) :
    (∃ st1 r tr, lookup_recursively_tr K fuel [] st name x = some (st1, r, tr) ∧
      lookup_recursively K fuel st name x = some (st1, r) ∧
      ∀ v ∈ tr, v.2 ∉ v.1 ∧ v.1.Nodup) ∧
    (∃ st1 r tr, rep_search_imports_tr K fuel st s x = some (st1, r, tr) ∧
      rep_search_imports K fuel st s x = some (st1, r) ∧
      ∀ v ∈ tr, v.2 ∉ v.1 ∧ v.1.Nodup) := by
  constructor
  · obtain ⟨st1, r, tr, h1, -, -, h4⟩ :=
      lookup_recursively_entries K x fuel [] st name hf (flags_set_nil st)
    refine ⟨st1, r, tr, h1, ?_, h4⟩
    rw [← lookup_recursively_untrace K x fuel [] st name, h1]
    rfl
  · obtain ⟨st1, r, tr, h1, -, -, h4⟩ := search_imports_entries
      (fun st2 nm => lookup_recursively_tr K fuel [] st2 nm x) s (free_count st) []
      (fun st2 nm hc hp => lookup_recursively_entries K x fuel [] st2 nm (by omega) hp)
      st x rfl (flags_set_nil st)
    refine ⟨st1, r, tr, h1, ?_, h4⟩
    rw [← rep_search_imports_untrace K fuel st s x]
    unfold rep_search_imports_tr
    rw [h1]
    rfl

set_option maxRecDepth 1000000 in
/-- C21, amended, at a concrete input: the diamond, with the fuel of the entry
points. -/
theorem entered_once_per_path_witness :
    free_count diamond_state < diamond_state.fuel ∧
    ((∃ st1 r tr, lookup_recursively_tr K0 diamond_state.fuel [] diamond_state sym_S sym_x
        = some (st1, r, tr) ∧
      lookup_recursively K0 diamond_state.fuel diamond_state sym_S sym_x = some (st1, r) ∧
      ∀ v ∈ tr, v.2 ∉ v.1 ∧ v.1.Nodup) ∧
    (∃ st1 r tr, rep_search_imports_tr K0 diamond_state.fuel diamond_state 3 sym_x
        = some (st1, r, tr) ∧
      rep_search_imports K0 diamond_state.fuel diamond_state 3 sym_x = some (st1, r) ∧
      ∀ v ∈ tr, v.2 ∉ v.1 ∧ v.1.Nodup)) :=
  ⟨free_count_le diamond_state,
    entered_once_per_path K0 diamond_state 3 sym_S sym_x diamond_state.fuel
      (free_count_le diamond_state)⟩

/-! ## The lookups keep an invariant -/

theorem search_loop_kept {P : State → Prop} {x : repv}
    (look : State → repv → Option (State × Option Nat)) (s : Nat)
    (hE : ∀ st s n, (st.node n).symbol = x → P st → P (enter_cache st s n))
    (hlook : ∀ st nm, P st → lookup_good P x (look st nm)) :
    ∀ (imports : List repv) (st : State), P st → lookup_good P x (search_loop look s st imports) := by
  intro imports
  induction imports with
  | nil =>
    intro st hst st2 r h
    unfold search_loop at h
    cases h
    exact ⟨hst, fun n hn => by cases hn⟩
  | cons nm rest ih =>
    intro st hst
    unfold search_loop
    cases hq : look st nm with
    | none => intro st2 r h; cases h
    | some q =>
      obtain ⟨st1, o⟩ := q
      obtain ⟨g1, g2⟩ := hlook st nm hst st1 o hq
      cases o with
      | some n =>
        intro st2 r h
        cases h
        exact ⟨hE _ _ _ (g2 n rfl) g1, fun m hm => by cases hm; exact g2 n rfl⟩
      | none => exact ih st1 g1

theorem search_imports_with_kept {P : State → Prop} {x : repv}
    (look : State → repv → Option (State × Option Nat)) (s : Nat)
    (hE : ∀ st s n, (st.node n).symbol = x → P st → P (enter_cache st s n))
    (hlook : ∀ st nm, P st → lookup_good P x (look st nm)) (st : State) (hst : P st) :
    lookup_good P x (search_imports_with look st s x) := by
  unfold search_imports_with
  cases hc : lookup_cache st s x with
  | some n =>
    intro st2 r h
    cases h
    exact ⟨hst, fun m hm => by cases hm; exact lookup_cache_some hc⟩
  | none => exact search_loop_kept look s hE hlook _ st hst

theorem clear_exclusion_kept {P : State → Prop} {x : repv}
    (hX : ∀ st p b, P st → P (st.set_exclusion p b)) (p : Nat)
    {res : Option (State × Option Nat)} (h : lookup_good P x res) :
    lookup_good P x (clear_exclusion p res) := by
  cases res with
  | none => intro st2 r h2; cases h2
  | some q =>
    obtain ⟨st1, o⟩ := q
    intro st2 r h2
    unfold clear_exclusion at h2
    cases h2
    obtain ⟨g1, g2⟩ := h st1 o rfl
    exact ⟨hX _ _ _ g1, fun n hn => by rw [node_set_exclusion]; exact g2 n hn⟩

theorem search_inherited_kept {P : State → Prop} {x : repv}
    (look : State → repv → Option (State × Option Nat))
    (hE : ∀ st s n, (st.node n).symbol = x → P st → P (enter_cache st s n))
    (hX : ∀ st p b, P st → P (st.set_exclusion p b))
    (hlook : ∀ st nm, P st → lookup_good P x (look st nm)) (st : State) (p : Nat) (hst : P st) :
    lookup_good P x (search_inherited look st p x) := by
  unfold search_inherited
  apply clear_exclusion_kept hX
  split
  · exact search_imports_with_kept look p hE hlook _ (hX _ _ _ hst)
  · intro st2 r h
    cases h
    exact ⟨hX _ _ _ hst, fun n hn => by cases hn⟩

theorem lookup_recursively_with_kept {P : State → Prop} {x : repv} (K : Statics)
    (look : State → repv → Option (State × Option Nat))
    (hE : ∀ st s n, (st.node n).symbol = x → P st → P (enter_cache st s n))
    (hX : ∀ st p b, P st → P (st.set_exclusion p b))
    (hlook : ∀ st nm, P st → lookup_good P x (look st nm)) (st : State) (name : repv)
    (hst : P st) : lookup_good P x (lookup_recursively_with K look st name x) := by
  unfold lookup_recursively_with
  split
  · split
    · intro st2 r h
      cases h
      exact ⟨hst, fun n hn => by cases hn⟩
    · split
      · rename_i n hn
        intro st2 r h
        cases h
        refine ⟨hst, fun m hm => ?_⟩
        split at hm
        · cases hm; exact lookup_some hn
        · cases hm
      · exact search_inherited_kept look hE hX hlook st _ hst
  · intro st2 r h
    cases h
    exact ⟨hst, fun n hn => by cases hn⟩

theorem lookup_recursively_kept {P : State → Prop} (K : Statics) (x : repv)
    (hE : ∀ st s n, (st.node n).symbol = x → P st → P (enter_cache st s n))
    (hX : ∀ st p b, P st → P (st.set_exclusion p b)) :
    ∀ (fuel : Nat) (st : State) (name : repv), P st →
      lookup_good P x (lookup_recursively K fuel st name x) := by
  intro fuel
  induction fuel with
  | zero => intro st name _ st2 r h; cases h
  | succ fuel ih =>
    intro st name hst
    unfold lookup_recursively
    exact lookup_recursively_with_kept K _ hE hX (fun st2 nm h2 => ih st2 nm h2) st name hst

theorem rep_search_imports_kept {P : State → Prop} (K : Statics) (x : repv)
    (hE : ∀ st s n, (st.node n).symbol = x → P st → P (enter_cache st s n))
    (hX : ∀ st p b, P st → P (st.set_exclusion p b))
    (fuel : Nat) (st : State) (s : Nat) (hst : P st) :
    lookup_good P x (rep_search_imports K fuel st s x) :=
  search_imports_with_kept _ s hE
    (fun st2 nm h2 => lookup_recursively_kept K x hE hX fuel st2 nm h2) st hst

/-! ## Every operation keeps an invariant -/

theorem kit_roots {K : Statics} {P : State → Prop} (k : Kit K P) {st st2 : State} (h : P st)
    (h1 : st2.structs = st.structs) (h2 : st2.nodes = st.nodes)
    (h3 : st2.ref_cache = st.ref_cache) : P st2 :=
  k.roots st st2 h1 h2 h3 h

theorem kit_exclusion {K : Statics} {P : State → Prop} (k : Kit K P) (st : State) (p : Nat)
    (b : Bool) (h : P st) : P (st.set_exclusion p b) :=
  k.cell st p _ rfl rfl h

theorem kit_update {K : Statics} {P : State → Prop} (k : Kit K P) (st : State) (v : repv)
    (f : rep_struct → rep_struct)
    (hf : ∀ S, (f S).buckets = S.buckets ∧ (f S).total_bindings = S.total_bindings)
    (h : P st) : P (st.update_struct v f) := by
  unfold State.update_struct
  cases v with
  | struct p => exact k.cell st p _ (hf _).1 (hf _).2 h
  | _ => exact h

theorem kit_structure_ref {K : Statics} {P : State → Prop} (k : Kit K P) (st : State)
    (sv x : repv) (h : P st) : P (F_structure_ref K st sv x).2 := by
  unfold F_structure_ref
  split
  · split
    · rename_i s hx
      split
      · exact h
      · have g := rep_search_imports_kept K x (fun st s n hs hp => k.enter st s n x hx hs hp)
          (kit_exclusion k) st.fuel st s h
        split
        · rename_i e; exact (g _ _ e).1
        · rename_i e; exact (g _ _ e).1
        · exact h
    · exact h
  · exact h

theorem kit_structure_bound_p {K : Statics} {P : State → Prop} (k : Kit K P) (st : State)
    (sv x : repv) (h : P st) : P (F_structure_bound_p K st sv x).2 := by
  have g := kit_structure_ref k st sv x h
  unfold F_structure_bound_p
  split <;> (rename_i e; rw [e] at g; exact g)

theorem kit_external_structure_ref {K : Statics} {P : State → Prop} (k : Kit K P) (st : State)
    (name x : repv) (h : P st) : P (F_external_structure_ref K st name x).2 := by
  rw [F_external_structure_ref_eq]
  split
  · rename_i hs
    have hx : rep_SYMBOLP x = true := by
      rw [Bool.and_eq_true] at hs
      exact hs.2
    split
    · have g := lookup_recursively_kept K x (fun st s n hs hp => k.enter st s n x hx hs hp)
        (kit_exclusion k) st.fuel st name h
      cases hq : lookup_recursively K st.fuel st name x with
      | none => exact h
      | some q =>
        obtain ⟨st1, r⟩ := q
        have g1 := (g st1 r hq).1
        unfold external_result
        cases r with
        | none => exact g1
        | some n => dsimp only; split <;> exact g1
    · exact h
  · exact h

theorem kit_structure_set {K : Statics} {P : State → Prop} (k : Kit K P) (st : State)
    (sv x v : repv) (h : P st) : P (F_structure_set K st sv x v).2 := by
  unfold F_structure_set
  cases sv with
  | struct s =>
    dsimp only
    split
    · split
      · exact k.node _ _ _ rfl (k.add st s x h)
      · exact k.add st s x h
    · exact h
  | _ => exact h

theorem kit_name_structure {K : Statics} {P : State → Prop} (k : Kit K P) (st : State)
    (v name : repv) (h : P st) : P (F_name_structure K st v name).2 := by
  unfold F_name_structure
  split
  · dsimp only
    apply k.flush
    split
    · split
      · exact kit_update k _ _ _ (fun S => ⟨rfl, rfl⟩) (kit_structure_set k st _ _ _ h)
      · exact kit_structure_set k st _ _ _ h
    · split
      · exact kit_structure_set k st _ _ _ h
      · exact h
  · exact h

theorem kit_make_structure {K : Statics} {P : State → Prop} (k : Kit K P) (st : State)
    (sig ht bt name : repv) (h : P st) : P (F_make_structure K st sig ht bt name).2 := by
  unfold F_make_structure
  split
  · dsimp only
    generalize hst1 : st.alloc_struct _ = st1
    have w1 : P st1 := by
      rw [← hst1]
      exact k.alloc _ _ rfl rfl h
    have w2 : P (if name ≠ K.nil then
        (F_name_structure K st1 (repv.struct st.structs.length) name).2 else st1) := by
      split
      · exact kit_name_structure k _ _ _ w1
      · exact w1
    generalize (if name ≠ K.nil then
        (F_name_structure K st1 (repv.struct st.structs.length) name).2 else st1) = st2 at w2
    by_cases hht : ht ≠ K.nil
    · rw [if_pos hht]
      have w3 := k.cell st2 st.structs.length
        { st2.cell st.structs.length with
          imports := repv.symbol K.Q_meta :: (st2.cell st.structs.length).imports }
        rfl rfl w2
      have w4 := k.externals.2.1 _ ht (repv.struct st.structs.length) w3
      generalize K.rep_call_lisp0 _ ht (repv.struct st.structs.length) = r at w4
      have w5 := k.cell r.2 st.structs.length
        { r.2.cell st.structs.length with
          imports := Fdelq (repv.symbol K.Q_meta) (r.2.cell st.structs.length).imports }
        rfl rfl w4
      generalize r.2.set_cell st.structs.length _ = st4 at w5
      cases r.1 with
      | error e => exact w5
      | ok v =>
        dsimp only
        split
        · have w6 := k.externals.2.1 st4 bt (repv.struct st.structs.length) w5
          split <;> (rename_i e; rw [e] at w6; exact w6)
        · exact w5
    · rw [if_neg hht]
      dsimp only
      split
      · have w6 := k.externals.2.1 st2 bt (repv.struct st.structs.length) w2
        split <;> (rename_i e; rw [e] at w6; exact w6)
      · exact w2
  · exact h

theorem kit_set_interface_step {K : Statics} {P : State → Prop} (k : Kit K P) (p : Nat)
    (st : State) (n : Nat) (h : P st) : P (set_interface_step p st n) := by
  unfold set_interface_step
  split
  · exact k.cell _ p _ rfl rfl (k.node st n _ rfl h)
  · exact k.node st n _ rfl h

theorem kit_set_interface_loop {K : Statics} {P : State → Prop} (k : Kit K P) (p : Nat) :
    ∀ (l : List Nat) (st : State), P st → P (l.foldl (set_interface_step p) st) := by
  intro l
  induction l with
  | nil => intro st h; exact h
  | cons n rest ih => intro st h; exact ih _ (kit_set_interface_step k p st n h)

theorem kit_set_interface {K : Statics} {P : State → Prop} (k : Kit K P) (st : State)
    (sv sig : repv) (h : P st) : P (F_set_interface K st sv sig).2 := by
  unfold F_set_interface
  split
  · split
    · exact k.flush _ (kit_set_interface_loop k _ _ _ (k.cell st _ _ rfl rfl h))
    · exact h
  · exact h

theorem kit_intern_structure {K : Statics} {P : State → Prop} (k : Kit K P) (st : State)
    (name : repv) (h : P st) : P (F_intern_structure K st name).2 := by
  unfold F_intern_structure
  split
  · exact h
  · split
    · dsimp only
      generalize hr : K.Fload _ name = r
      have w3 : P r.2 := by
        rw [← hr]
        refine k.externals.1 _ _ ?_
        split
        · split
          · exact kit_roots k h rfl rfl rfl
          · exact kit_roots k h rfl rfl rfl
        · exact kit_roots k h rfl rfl rfl
      obtain ⟨r1, st3⟩ := r
      cases r1 with
      | error e => exact kit_roots k w3 rfl rfl rfl
      | ok v =>
        dsimp only
        split
        · exact kit_roots k (kit_name_structure k _ _ _ w3) rfl rfl rfl
        · exact kit_roots k w3 rfl rfl rfl
    · exact h

theorem kit_open_loop {K : Statics} {P : State → Prop} (k : Kit K P) (dst : repv) :
    ∀ (args : List repv) (st : State), P st → P (open_loop K dst st args) := by
  intro args
  induction args with
  | nil => intro st h; exact h
  | cons a rest ih =>
    intro st h
    unfold open_loop
    split
    · have w := kit_intern_structure k st a h
      split
      · rename_i e; rw [e] at w; exact w
      · rename_i e
        rw [e] at w
        apply ih
        split
        · exact kit_update k _ _ _ (fun S => ⟨rfl, rfl⟩) w
        · exact w
    · exact ih st h

theorem kit_access_loop {K : Statics} {P : State → Prop} (k : Kit K P) (dst : repv) :
    ∀ (args : List repv) (st : State), P st → P (access_loop K dst st args) := by
  intro args
  induction args with
  | nil => intro st h; exact h
  | cons a rest ih =>
    intro st h
    unfold access_loop
    split
    · have w := kit_intern_structure k st a h
      split
      · rename_i e; rw [e] at w; exact w
      · rename_i e
        rw [e] at w
        split
        · exact ih _ (kit_update k _ _ _ (fun S => ⟨rfl, rfl⟩) w)
        · exact w
    · exact ih st h

theorem kit_provide {K : Statics} {P : State → Prop} (k : Kit K P) (st : State) (f : repv)
    (h : P st) : P (Fprovide K st f).2 := by
  unfold Fprovide
  split
  · have w := kit_structure_ref k st st.rep_structure (repv.symbol K.Qfeatures) h
    split
    · rename_i e; rw [e] at w
      exact kit_structure_set k _ _ _ _ w
    · rename_i e; rw [e] at w
      exact kit_structure_set k _ _ _ _ w
  · exact h

theorem kit_featurep {K : Statics} {P : State → Prop} (k : Kit K P) (st : State) (f : repv)
    (h : P st) : P (Ffeaturep K st f).2 := by
  unfold Ffeaturep
  split
  · have w := kit_structure_ref k st st.rep_structure (repv.symbol K.Qfeatures) h
    split
    · rename_i e; rw [e] at w
      split <;> exact w
    · rename_i e; rw [e] at w
      exact w
  · exact h

theorem kit_require_finish {K : Statics} {P : State → Prop} (k : Kit K P) (st : State)
    (dst f tem : repv) (h : P st) : P (require_finish K st dst f tem).2 := by
  unfold require_finish
  split
  · exact k.flush _ (kit_provide k _ f (kit_update k _ _ _ (fun S => ⟨rfl, rfl⟩) h))
  · exact h

theorem kit_require {K : Statics} {P : State → Prop} (k : Kit K P) (st : State) (f : repv)
    (h : P st) : P (Frequire K st f).2 := by
  unfold Frequire
  split
  · have w := kit_featurep k st f h
    generalize Ffeaturep K st f = r at w
    obtain ⟨r0, st1⟩ := r
    dsimp only
    split
    · exact w
    · split
      · split
        · exact kit_require_finish k _ _ _ _ w
        · have w2 := k.externals.1 st1 f w
          split
          · rename_i e; rw [e] at w2; exact w2
          · rename_i e; rw [e] at w2
            apply kit_require_finish k
            split
            · exact kit_name_structure k _ _ _ w2
            · exact w2
      · exact w
  · exact h

theorem kit_walk_loop {K : Statics} {P : State → Prop} (k : Kit K P) (fn : repv) (s : Nat) :
    ∀ (fuel : Nat) (st : State) (i : Nat) (ptr : Option Nat) (ret : repv)
      (calls : List (repv × repv)), P st →
      P (walk_loop K fn s fuel st i ptr ret calls).2.1 := by
  intro fuel
  induction fuel with
  | zero => intro st i ptr ret calls h; exact h
  | succ fuel ih =>
    intro st i ptr ret calls h
    cases ptr with
    | none =>
      rw [walk_loop_none]
      split
      · exact ih _ _ _ _ _ h
      · exact h
    | some n =>
      rw [walk_loop_some]
      split
      · have w := k.externals.2.2 st fn (st.node n).symbol (st.node n).binding h
        split
        · rename_i e; rw [e] at w; exact w
        · rename_i e; rw [e] at w; exact ih _ _ _ _ _ w
      · exact ih _ _ _ _ _ h

theorem kit_structure_walk {K : Statics} {P : State → Prop} (k : Kit K P) (fuel : Nat)
    (st : State) (fn sv : repv) (h : P st) : P (F_structure_walk K fuel st fn sv).2.1 := by
  unfold F_structure_walk
  split
  · split
    · exact kit_walk_loop k fn _ fuel st _ _ _ _ h
    · exact h
  · exact h

theorem kit_push_structure {K : Statics} {P : State → Prop} (k : Kit K P) (st : State)
    (sym : repv) (h : P st) : P (rep_push_structure K st sym).2 := by
  unfold rep_push_structure
  split
  · exact kit_roots k h rfl rfl rfl
  · split
    · have w := kit_make_structure k st K.nil K.nil K.nil sym h
      split
      · rename_i e; rw [e] at w; exact kit_roots k w rfl rfl rfl
      · rename_i e; rw [e] at w; exact kit_roots k w rfl rfl rfl
    · exact kit_roots k h rfl rfl rfl

theorem kit_add_subr {K : Statics} {P : State → Prop} (k : Kit K P) (st : State)
    (sym subr : repv) (exported : Bool) (h : P st) :
    P (rep_add_subr K st sym subr exported).2 := by
  unfold rep_add_subr
  split
  · split
    · exact k.node _ _ _ rfl (k.add st _ sym h)
    · exact h
  · exact h

theorem kit_exec {K : Statics} {P : State → Prop} (k : Kit K P) (st : State) (op : Op)
    (h : P st) : P (op.exec K st) := by
  cases op with
  | make_structure sig ht bt name => exact kit_make_structure k st sig ht bt name h
  | name_structure s name => exact kit_name_structure k st s name h
  | structure_ref s var => exact kit_structure_ref k st s var h
  | structure_bound_p s var => exact kit_structure_bound_p k st s var h
  | structure_set s var value => exact kit_structure_set k st s var value h
  | external_structure_ref name var => exact kit_external_structure_ref k st name var h
  | set_interface s sig => exact kit_set_interface k st s sig h
  | intern_structure name => exact kit_intern_structure k st name h
  | open_structures args =>
    show P (F_open_structures K st args).2
    unfold F_open_structures
    split
    · exact k.flush _ (kit_open_loop k _ _ st h)
    · exact h
  | access_structures args =>
    show P (F_access_structures K st args).2
    unfold F_access_structures
    split
    · exact k.flush _ (kit_access_loop k _ _ st h)
    · exact h
  | make_binding_immutable var =>
    show P (Fmake_binding_immutable K st var).2
    unfold Fmake_binding_immutable
    split
    · split
      · exact k.node _ _ _ rfl h
      · exact h
    · exact h
  | push_structure sym => exact kit_push_structure k st sym h
  | pop_structure old => exact kit_roots k h rfl rfl rfl
  | add_subr sym subr exported => exact kit_add_subr k st sym subr exported h
  | structure_exports_all s status =>
    show P (F_structure_exports_all K st s status).2
    unfold F_structure_exports_all rep_structure_exports_all
    split
    · exact kit_update k st s (fun S => { S with export_all := decide (status ≠ K.nil) })
        (fun S => ⟨rfl, rfl⟩) h
    · exact h
  | featurep f => exact kit_featurep k st f h
  | provide f => exact kit_provide k st f h
  | require f => exact kit_require k st f h
  | structure_walk fuel fn s => exact kit_structure_walk k fuel st fn s h

theorem kit_run {K : Statics} {P : State → Prop} (k : Kit K P) :
    ∀ (ops : List Op) (st : State), P st → P (run K st ops) := by
  intro ops
  induction ops with
  | nil => intro st h; exact h
  | cons op rest ih =>
    intro st h
    exact ih _ (kit_exec k st op h)

theorem kit_init {K : Statics} {P : State → Prop} (k : Kit K P) (h : P zero_state) :
    P (rep_pre_structures_init K zero_state) := by
  unfold rep_pre_structures_init
  dsimp only
  refine kit_roots k (kit_make_structure k _ _ _ _ _ ?_) rfl rfl rfl
  refine kit_roots k (kit_make_structure k _ _ _ _ _ ?_) rfl rfl rfl
  exact kit_roots k (kit_make_structure k _ _ _ _ _ h) rfl rfl rfl

/-- A property that the steps of the operations keep and that holds before
`rep_pre_structures_init` holds in every reachable state. -/
theorem kit_reachable {K : Statics} {P : State → Prop} (k : Kit K P) (h0 : P zero_state)
    (st : State) (h : Reachable K st) : P st := by
  obtain ⟨ops, e⟩ := h
  rw [← e]
  exact kit_run k ops _ (kit_init k h0)

/-! ## Invariants of the structure cells -/

/-- A property of every structure cell that depends on the binding table and on
`total_bindings` only is an invariant when `lookup_or_add` and the external
parts keep it and an empty table has it where the default cell has it. -/
theorem kit_cellwise (K : Statics) (Q : Nat → rep_struct → Prop)
    (hcong : ∀ p (S S2 : rep_struct), S2.buckets = S.buckets →
      S2.total_bindings = S.total_bindings → Q p S → Q p S2)
    (halloc : ∀ p (S : rep_struct), S.buckets = [] → S.total_bindings = 0 → Q p default → Q p S)
    (hadd : ∀ st s x p, (∀ q, Q q (st.cell q)) → Q p ((lookup_or_add K st s x).1.cell p))
    (hext : externals_keep K (fun st => ∀ p, Q p (st.cell p))) :
    Kit K (fun st => ∀ p, Q p (st.cell p)) where
  roots := by
    intro st st2 h1 _ _ h p
    have : st2.cell p = st.cell p := by unfold State.cell; rw [h1]
    rw [this]
    exact h p
  flush := fun st h p => h p
  cell := by
    intro st p S hb ht h q
    rcases cell_set_cell_cases st p S q with e | ⟨e1, e2⟩
    · rw [e]; exact h q
    · subst e1
      rw [e2]
      exact hcong q _ S hb ht (h q)
  node := fun st n N _ h p => h p
  alloc := by
    intro st S hb ht h q
    by_cases hq : q < st.structs.length
    · rw [cell_alloc_struct_lt st S hq]
      exact h q
    · by_cases he : q = st.structs.length
      · subst he
        rw [cell_alloc_struct_last]
        have hd := h st.structs.length
        rw [cell_invalid (Nat.le_refl _)] at hd
        exact halloc _ S hb ht hd
      · have hl : (st.alloc_struct S).structs.length ≤ q := by
          unfold State.alloc_struct
          simp only [List.length_append, List.length_singleton]
          omega
        have hd := h q
        rw [cell_invalid (Nat.le_of_not_lt hq)] at hd
        rw [cell_invalid hl]
        exact hd
  add := fun st s x h p => hadd st s x p h
  enter := fun st s n x _ _ h p => h p
  externals := hext

theorem size_ok_default : size_ok default :=
  ⟨rfl, Or.inl rfl, ⟨fun _ => rfl, fun _ => rfl⟩, Nat.zero_le _⟩

theorem replicate_nil_flatten (k : Nat) : (List.replicate k ([] : List Nat)).flatten = [] := by
  induction k with
  | zero => rfl
  | succ k ih => rw [List.replicate_succ, List.flatten_cons, ih]; rfl

/-- The table `lookup_or_add` links the new node in: it has the records of the
table before, a number of buckets that is `MIN_BUCKETS` times a power of two
and not less than before, and at most `MAX_MULTIPLIER` records for each bucket. -/
theorem double_buckets_size (K : Statics) (st : State) (S : rep_struct) (h : size_ok S) :
    (double_buckets K st (alloc_buckets S)).total_bindings = S.total_bindings ∧
    (double_buckets K st (alloc_buckets S)).buckets.flatten.Perm S.buckets.flatten ∧
    (∃ k, (double_buckets K st (alloc_buckets S)).buckets.length = MIN_BUCKETS * 2 ^ k) ∧
    S.buckets.length ≤ (double_buckets K st (alloc_buckets S)).buckets.length ∧
    (double_buckets K st (alloc_buckets S)).total_bindings
      ≤ (double_buckets K st (alloc_buckets S)).buckets.length * MAX_MULTIPLIER := by
  obtain ⟨h1, h2, h3, h4⟩ := h
  have ha : (alloc_buckets S).total_bindings = S.total_bindings ∧
      (alloc_buckets S).buckets.flatten.Perm S.buckets.flatten ∧
      (∃ k, (alloc_buckets S).buckets.length = MIN_BUCKETS * 2 ^ k) ∧
      S.buckets.length ≤ (alloc_buckets S).buckets.length ∧
      (alloc_buckets S).total_bindings
        ≤ (alloc_buckets S).buckets.length * MAX_MULTIPLIER + 1 := by
    unfold alloc_buckets
    split
    · rename_i h0
      have hnil : S.buckets = [] := List.eq_nil_of_length_eq_zero h0
      refine ⟨rfl, ?_, ⟨0, by simp⟩, by rw [h0]; exact Nat.zero_le _, ?_⟩
      · dsimp only
        rw [replicate_nil_flatten, hnil]
        exact List.Perm.refl _
      · dsimp only
        rw [h3.mp h0]
        exact Nat.zero_le _
    · rename_i h0
      rcases h2 with e | e
      · exact absurd e h0
      · exact ⟨rfl, List.Perm.refl _, e, Nat.le_refl _, h4⟩
  obtain ⟨a1, a2, ⟨k, a3⟩, a4, a5⟩ := ha
  have hpos : 0 < (alloc_buckets S).buckets.length := alloc_buckets_pos S
  generalize alloc_buckets S = A at a1 a2 a3 a4 a5 hpos
  unfold double_buckets
  split
  · rename_i hgt
    dsimp only
    have hr := rehash_spec K st (A.buckets.length * 2) (by omega) A.buckets
    refine ⟨a1, hr.1.trans a2, ⟨k + 1, ?_⟩, ?_, ?_⟩
    · rw [rehash_length, a3, pow_succ]
      ring
    · rw [rehash_length]
      omega
    · rw [rehash_length]
      unfold MAX_MULTIPLIER at a5 ⊢
      omega
  · rename_i hgt
    exact ⟨a1, a2, ⟨k, a3⟩, a4, Nat.le_of_not_lt hgt⟩

theorem lookup_or_add_cell (K : Statics) (st : State) (s : Nat) (x : repv) (p : Nat) :
    (lookup_or_add K st s x).1.cell p = st.cell p ∨
    (p = s ∧ s < st.structs.length ∧ lookup K st (st.cell s) x = none ∧
      (lookup_or_add K st s x).1.cell p = migrate_export
        (link_node K (double_buckets K st (alloc_buckets (st.cell s))) st.nodes.length x) x) := by
  cases hl : lookup K st (st.cell s) x with
  | some n => rw [lookup_or_add_found hl]; exact Or.inl rfl
  | none =>
    obtain ⟨-, e2, -⟩ := lookup_or_add_miss hl
    by_cases hp : p = s ∧ s < st.structs.length
    · obtain ⟨hp1, hp2⟩ := hp
      subst hp1
      right
      refine ⟨rfl, hp2, rfl, ?_⟩
      show (lookup_or_add K st p x).1.structs.getD p default = _
      rw [e2, getD_set_eq _ _ _ _ hp2]
    · left
      show (lookup_or_add K st s x).1.structs.getD p default = _
      rw [e2]
      by_cases hps : s = p
      · subst hps
        have : ¬ s < st.structs.length := fun hs => hp ⟨rfl, hs⟩
        rw [List.set_eq_of_length_le (Nat.le_of_not_lt this)]
        rfl
      · rw [getD_set_ne _ _ _ _ _ hps]
        rfl

theorem size_ok_lookup_or_add (K : Statics) (st : State) (s : Nat) (x : repv) (p : Nat)
    (h : size_ok (st.cell p)) : size_ok ((lookup_or_add K st s x).1.cell p) := by
  rcases lookup_or_add_cell K st s x p with e | ⟨e1, -, -, e2⟩
  · rw [e]; exact h
  · subst e1
    rw [e2]
    obtain ⟨d1, d2, ⟨k, d3⟩, d4, d5⟩ := double_buckets_size K st (st.cell p) h
    have hpos : 0 < (double_buckets K st (alloc_buckets (st.cell p))).buckets.length := by
      rw [d3]
      exact Nat.mul_pos (by decide) (pow_pos (by decide) k)
    generalize double_buckets K st (alloc_buckets (st.cell p)) = D at d1 d2 d3 d4 d5 hpos
    have hh := rep_STRUCT_HASH_lt K x hpos
    have hperm := push_flatten_perm D.buckets _ st.nodes.length hh
    unfold size_ok
    rw [migrate_export_buckets]
    have ht : (migrate_export (link_node K D st.nodes.length x) x).total_bindings
        = D.total_bindings + 1 := by
      unfold migrate_export
      split <;> rfl
    have hlen : (link_node K D st.nodes.length x).buckets.length = D.buckets.length :=
      link_node_length K D _ x
    have hfl : (link_node K D st.nodes.length x).buckets.flatten.length
        = D.buckets.flatten.length + 1 := by
      have := hperm.length_eq
      rw [List.length_cons] at this
      exact this
    rw [ht, hlen, hfl]
    refine ⟨?_, Or.inr ⟨k, d3⟩, ⟨fun e => by omega, fun e => by omega⟩, by omega⟩
    rw [d1, h.1, d2.length_eq]

theorem size_ok_congr {S S2 : rep_struct} (hb : S2.buckets = S.buckets)
    (ht : S2.total_bindings = S.total_bindings) (h : size_ok S) : size_ok S2 := by
  unfold size_ok at h ⊢
  rw [hb, ht]
  exact h

theorem size_ok_empty {S : rep_struct} (hb : S.buckets = []) (ht : S.total_bindings = 0) :
    size_ok S :=
  size_ok_congr (S := default) hb ht size_ok_default

theorem sized_kit (K : Statics) (hK : externals_keep K sized) : Kit K sized :=
  kit_cellwise K (fun _ S => size_ok S)
    (fun _ _ _ hb ht h => size_ok_congr hb ht h)
    (fun _ _ hb ht _ => size_ok_empty hb ht)
    (fun st s x p h => size_ok_lookup_or_add K st s x p (h p))
    hK

theorem sized_zero : sized zero_state := by
  intro p
  rw [show zero_state.cell p = default from cell_invalid (Nat.zero_le _)]
  exact size_ok_default

theorem sized_reachable (K : Statics) (hK : externals_keep K sized) (st : State)
    (h : Reachable K st) : sized st :=
  kit_reachable (sized_kit K hK) sized_zero st h

theorem lookup_or_add_buckets_le (K : Statics) (st : State) (s : Nat) (x : repv) (p : Nat)
    (h : size_ok (st.cell p)) :
    (st.cell p).buckets.length ≤ ((lookup_or_add K st s x).1.cell p).buckets.length := by
  rcases lookup_or_add_cell K st s x p with e | ⟨e1, -, -, e2⟩
  · rw [e]
  · subst e1
    rw [e2, migrate_export_buckets, link_node_length]
    exact (double_buckets_size K st (st.cell p) h).2.2.2.1

/-- The tables keep their sizes and never lose a bucket: an invariant for every
state `st0`. -/
theorem grows_kit (K : Statics) (st0 : State)
    (hK : externals_keep K (fun st => sized st ∧ grows_from st0 st)) :
    Kit K (fun st => ∀ p, size_ok (st.cell p) ∧
      (st0.cell p).buckets.length ≤ (st.cell p).buckets.length) :=
  kit_cellwise K (fun p S => size_ok S ∧ (st0.cell p).buckets.length ≤ S.buckets.length)
    (fun p S S2 hb ht h => ⟨size_ok_congr hb ht h.1, by rw [hb]; exact h.2⟩)
    (fun p S hb ht h => ⟨size_ok_empty hb ht, by rw [hb]; exact h.2⟩)
    (fun st s x p h =>
      ⟨size_ok_lookup_or_add K st s x p (h p).1,
        Nat.le_trans (h p).2 (lookup_or_add_buckets_le K st s x p (h p).1)⟩)
    ⟨fun st name h => by
        have := hK.1 st name ⟨fun p => (h p).1, fun p => (h p).2⟩
        exact fun p => ⟨this.1 p, this.2 p⟩,
      fun st t hm h => by
        have := hK.2.1 st t hm ⟨fun p => (h p).1, fun p => (h p).2⟩
        exact fun p => ⟨this.1 p, this.2 p⟩,
      fun st fn a b h => by
        have := hK.2.2 st fn a b ⟨fun p => (h p).1, fun p => (h p).2⟩
        exact fun p => ⟨this.1 p, this.2 p⟩⟩

/-! ## The sizes of the binding tables (C23, C24) -/

set_option maxRecDepth 1000000 in
/-- C23 as stated fails.  In the reachable state `load_state`, which seventeen
calls of `structure-set` on the structure `A` (3) make, the table of `A` has 8
buckets and 17 records, and `total_bindings` is 17, more than twice 8:
`lookup_or_add` compares `total_bindings` with `total_buckets * MAX_MULTIPLIER`
before it counts the new record, so the seventeenth record finds 16 and no
doubling.  The next `structure-set` of a new symbol doubles the table. -/
theorem seventeen_in_eight_buckets :
    Reachable K0 load_state ∧
    (load_state.cell 3).buckets.length = 8 ∧
    (load_state.cell 3).total_bindings = 17 ∧
    (load_state.cell 3).buckets.flatten.length = 17 ∧
    ¬ (load_state.cell 3).total_bindings ≤ 2 * (load_state.cell 3).buckets.length ∧
    ((Op.exec K0 load_state
        (.structure_set (repv.struct 3) (repv.symbol 8192) (repv.other 0))).cell 3).buckets.length
      = 16 ∧
    ((Op.exec K0 load_state
        (.structure_set (repv.struct 3) (repv.symbol 8192) (repv.other 0))).cell 3).total_bindings
      = 18 :=
  ⟨⟨load_ops, rfl⟩, by decide, by decide, by decide, by decide, by decide, by decide⟩

/-- C23, amended.  Let the external parts keep the sizes of the binding tables.
In every reachable state and for every structure: `total_bindings` is the
number of records of the table; when the table has buckets,
`total_bindings ≤ 2 × total_buckets + 1`; and when it has none, it has no
record. -/
theorem load_factor_bound (K : Statics) (hK : externals_keep K sized) (st : State)
    (hreach : Reachable K st) (p : Nat) :
    (st.cell p).total_bindings = (st.cell p).buckets.flatten.length ∧
    (0 < (st.cell p).buckets.length →
      (st.cell p).total_bindings ≤ 2 * (st.cell p).buckets.length + 1) ∧
    ((st.cell p).buckets.length = 0 → (st.cell p).total_bindings = 0) := by
  obtain ⟨h1, -, h3, h4⟩ := sized_reachable K hK st hreach p
  refine ⟨h1, fun _ => ?_, h3.mp⟩
  unfold MAX_MULTIPLIER at h4
  omega

set_option maxRecDepth 1000000 in
/-- C23, amended, at a concrete input: the structure `A` (3) of `load_state`,
with 8 buckets and 17 records. -/
theorem load_factor_bound_witness :
    (load_state.cell 3).total_bindings = (load_state.cell 3).buckets.flatten.length ∧
    (0 < (load_state.cell 3).buckets.length →
      (load_state.cell 3).total_bindings ≤ 2 * (load_state.cell 3).buckets.length + 1) ∧
    ((load_state.cell 3).buckets.length = 0 → (load_state.cell 3).total_bindings = 0) :=
  load_factor_bound K0 (externals_keep_K0 _) load_state ⟨load_ops, rfl⟩ 3

/-- C24.  Let the external parts keep the sizes of the binding tables and take no
bucket away.  In every reachable state and for every structure, the number of
buckets is 0 or `8 × 2^k`; it is 0 if and only if the table has no record, that
is, `total_bindings` is 0; and no sequence of operations makes it smaller. -/
theorem bucket_count_shape (K : Statics)
    (hK : ∀ st0, externals_keep K (fun st => sized st ∧ grows_from st0 st)) (st : State)
    (hreach : Reachable K st) (p : Nat) :
    ((st.cell p).buckets.length = 0 ∨ ∃ k, (st.cell p).buckets.length = 8 * 2 ^ k) ∧
    ((st.cell p).buckets.length = 0 ↔ (st.cell p).buckets.flatten = []) ∧
    ((st.cell p).buckets.length = 0 ↔ (st.cell p).total_bindings = 0) ∧
    (∀ ops : List Op, (st.cell p).buckets.length ≤ ((run K st ops).cell p).buckets.length) := by
  have hs : externals_keep K sized := by
    have h0 := hK zero_state
    have triv : ∀ st, grows_from zero_state st := by
      intro st q
      rw [show zero_state.cell q = default from cell_invalid (Nat.zero_le _)]
      exact Nat.zero_le _
    exact ⟨fun st name h => (h0.1 st name ⟨h, triv st⟩).1,
      fun st t hm h => (h0.2.1 st t hm ⟨h, triv st⟩).1,
      fun st fn a b h => (h0.2.2 st fn a b ⟨h, triv st⟩).1⟩
  have hsz := sized_reachable K hs st hreach
  obtain ⟨h1, h2, h3, -⟩ := hsz p
  refine ⟨h2, ?_, h3, fun ops => ?_⟩
  · rw [h3, h1]
    exact List.length_eq_zero
  · exact (kit_run (grows_kit K st (hK st)) ops st
      (fun q => ⟨hsz q, Nat.le_refl _⟩) p).2

set_option maxRecDepth 1000000 in
/-- C24 at a concrete input: the structure `A` (3) of `load_state`; the external
parts of `K0` change no state. -/
theorem bucket_count_shape_witness :
    ((load_state.cell 3).buckets.length = 0 ∨
      ∃ k, (load_state.cell 3).buckets.length = 8 * 2 ^ k) ∧
    ((load_state.cell 3).buckets.length = 0 ↔ (load_state.cell 3).buckets.flatten = []) ∧
    ((load_state.cell 3).buckets.length = 0 ↔ (load_state.cell 3).total_bindings = 0) ∧
    (∀ ops : List Op,
      (load_state.cell 3).buckets.length ≤ ((run K0 load_state ops).cell 3).buckets.length) :=
  bucket_count_shape K0 (fun _ => externals_keep_K0 _) load_state ⟨load_ops, rfl⟩ 3

/-! ## Adding a binding keeps the others (C26) -/

theorem double_buckets_perm (K : Statics) (st : State) (S : rep_struct) :
    (double_buckets K st (alloc_buckets S)).buckets.flatten.Perm S.buckets.flatten := by
  have ha : (alloc_buckets S).buckets.flatten.Perm S.buckets.flatten := by
    unfold alloc_buckets
    split
    · rename_i h0
      dsimp only
      rw [replicate_nil_flatten, List.eq_nil_of_length_eq_zero h0]
      exact List.Perm.refl _
    · exact List.Perm.refl _
  have hpos := alloc_buckets_pos S
  generalize alloc_buckets S = A at ha hpos
  unfold double_buckets
  split
  · exact (rehash_spec K st (A.buckets.length * 2) (by omega) A.buckets).1.trans ha
  · exact ha

/-- The records of the table of `p` after `lookup_or_add (s, x)`: those it had
before and, when the call added a record, the new node. -/
theorem lookup_or_add_mem (K : Statics) (st : State) (s : Nat) (x : repv) (p n : Nat) :
    n ∈ ((lookup_or_add K st s x).1.cell p).buckets.flatten ↔
      n ∈ (st.cell p).buckets.flatten ∨
      (n = st.nodes.length ∧ p = s ∧ s < st.structs.length ∧
        lookup K st (st.cell s) x = none) := by
  rcases lookup_or_add_cell K st s x p with e | ⟨e1, e2, e3, e4⟩
  · rw [e]
    constructor
    · exact Or.inl
    · rintro (h | ⟨-, h2, h3, h4⟩)
      · exact h
      · exfalso
        subst h2
        obtain ⟨-, e2, -⟩ := lookup_or_add_miss h4
        have hc : (lookup_or_add K st p x).1.cell p = migrate_export
            (link_node K (double_buckets K st (alloc_buckets (st.cell p))) st.nodes.length x)
            x := by
          show (lookup_or_add K st p x).1.structs.getD p default = _
          rw [e2, getD_set_eq _ _ _ _ h3]
        rw [hc] at e
        have hb := congrArg (fun S => S.buckets.flatten.length) e
        dsimp only at hb
        rw [migrate_export_buckets] at hb
        have hpos := double_buckets_pos K st _ (alloc_buckets_pos (st.cell p))
        have hperm := push_flatten_perm (double_buckets K st (alloc_buckets (st.cell p))).buckets
          _ st.nodes.length (rep_STRUCT_HASH_lt K x hpos)
        have h5 := hperm.length_eq
        have h6 := (double_buckets_perm K st (st.cell p)).length_eq
        rw [List.length_cons] at h5
        have h7 : (link_node K (double_buckets K st (alloc_buckets (st.cell p))) st.nodes.length
            x).buckets.flatten.length = (st.cell p).buckets.flatten.length := hb
        unfold link_node at h7
        dsimp only at h7
        omega
  · subst e1
    rw [e4, migrate_export_buckets]
    have hpos := double_buckets_pos K st _ (alloc_buckets_pos (st.cell p))
    have hperm := push_flatten_perm (double_buckets K st (alloc_buckets (st.cell p))).buckets
      _ st.nodes.length (rep_STRUCT_HASH_lt K x hpos)
    have hm : n ∈ (link_node K (double_buckets K st (alloc_buckets (st.cell p))) st.nodes.length
        x).buckets.flatten ↔ n = st.nodes.length ∨ n ∈ (st.cell p).buckets.flatten := by
      unfold link_node
      dsimp only
      rw [hperm.mem_iff, List.mem_cons, (double_buckets_perm K st (st.cell p)).mem_iff]
    rw [hm]
    constructor
    · rintro (h | h)
      · exact Or.inr ⟨h, rfl, e2, e3⟩
      · exact Or.inl h
    · rintro (h | ⟨h, -⟩)
      · exact Or.inr h
      · exact Or.inl h

/-- After `lookup_or_add (s, x)` the lookup of another symbol in any structure
returns what it returned before. -/
theorem lookup_or_add_other (K : Statics) (st : State) (s : Nat) (x y : repv) (p : Nat)
    (hwf : wf K st) (hxy : x ≠ y) :
    lookup K (lookup_or_add K st s x).1 ((lookup_or_add K st s x).1.cell p) y
      = lookup K st (st.cell p) y := by
  have hwf2 := wf_lookup_or_add K st s x hwf
  have hnode := (lookup_or_add_frame K st s x).2.2.2.1
  apply Option.ext
  intro n
  rw [Option.mem_def, Option.mem_def, lookup_iff (hwf2 p), lookup_iff (hwf p), lookup_or_add_mem]
  constructor
  · rintro ⟨h1 | ⟨h1, -, -, h4⟩, h2⟩
    · refine ⟨h1, ?_⟩
      rw [← hnode n ((hwf p).2.2.1 n h1)]
      exact h2
    · exfalso
      obtain ⟨e1, -, -⟩ := lookup_or_add_miss h4
      have : ((lookup_or_add K st s x).1.node st.nodes.length).symbol = x := by
        unfold State.node
        rw [e1, getD_append_length]
        rfl
      rw [h1, this] at h2
      exact hxy h2
  · rintro ⟨h1, h2⟩
    refine ⟨Or.inl h1, ?_⟩
    rw [hnode n ((hwf p).2.2.1 n h1)]
    exact h2

/-- C26. Adding a binding keeps all the others.  Let the external parts keep the
binding tables well formed and their sizes.  In every reachable state, for
every structure `s` and `x ≠ y`: after `structure-set (s, x, v)`, whatever it returns
and whether or not it allocates the first buckets or doubles the table,
`lookup (s, y)` returns the record it returned before, and that record is
unchanged (symbol, binding, `is_constant`, `is_exported`); every record of `s`
is in the bucket its symbol hashes to, no two records have the same symbol, and
`total_bindings` is the number of records. -/
theorem structure_set_keeps_others (K : Statics) (hK1 : externals_keep K (wf K))
    (hK2 : externals_keep K sized) (st : State) (hreach : Reachable K st) (s : Nat)
    (x y v : repv) (hxy : x ≠ y) :
    lookup K (F_structure_set K st (repv.struct s) x v).2
        ((F_structure_set K st (repv.struct s) x v).2.cell s) y
      = lookup K st (st.cell s) y ∧
    (∀ n, lookup K st (st.cell s) y = some n →
      (F_structure_set K st (repv.struct s) x v).2.node n = st.node n) ∧
    (∀ i n, n ∈ ((F_structure_set K st (repv.struct s) x v).2.cell s).buckets.getD i [] →
      rep_STRUCT_HASH K ((F_structure_set K st (repv.struct s) x v).2.node n).symbol
        ((F_structure_set K st (repv.struct s) x v).2.cell s).buckets.length = i) ∧
    (((F_structure_set K st (repv.struct s) x v).2.cell s).buckets.flatten.map
      (fun n => ((F_structure_set K st (repv.struct s) x v).2.node n).symbol)).Nodup ∧
    ((F_structure_set K st (repv.struct s) x v).2.cell s).total_bindings
      = ((F_structure_set K st (repv.struct s) x v).2.cell s).buckets.flatten.length := by
  have hwf := wf_reachable K hK1 st hreach
  have hsz := sized_reachable K hK2 st hreach
  have hwf2 := wf_F_structure_set K st (repv.struct s) x v hwf
  have hsz2 := kit_structure_set (sized_kit K hK2) st (repv.struct s) x v hsz
  refine ⟨?_, ?_, (hwf2 s).1, (hwf2 s).2.1, (hsz2 s).1⟩
  · unfold F_structure_set
    dsimp only
    split
    · split
      · refine (lookup_congr K y (fun m => ?_) rfl).trans (lookup_or_add_other K st s x y s hwf hxy)
        exact @symbol_set_node (lookup_or_add K st s x).1 (lookup_or_add K st s x).2
          { (lookup_or_add K st s x).1.node (lookup_or_add K st s x).2 with binding := v } rfl m
      · exact lookup_or_add_other K st s x y s hwf hxy
    · rfl
  · intro n hl
    have hn : n < st.nodes.length := (hwf s).2.2.1 n (lookup_mem hl)
    have hnode := (lookup_or_add_frame K st s x).2.2.2.1 n hn
    unfold F_structure_set
    dsimp only
    split
    · rename_i hx
      split
      · have hs : s < st.structs.length := by
          by_contra hs
          rw [cell_invalid (Nat.le_of_not_lt hs)] at hl
          cases hl
        have hne : (lookup_or_add K st s x).2 ≠ n := by
          intro e
          have h1 := lookup_some (lookup_or_add_lookup K st hs hx).1
          rw [e, hnode, lookup_some hl] at h1
          exact hxy h1.symm
        rw [node_set_node_ne _ hne]
        exact hnode
      · exact hnode
    · rfl

set_option maxRecDepth 1000000 in
/-- C26 at a concrete input: the eighteenth binding of the structure `A` (3) of
`load_state`, which doubles the table and rehashes every record. -/
theorem structure_set_keeps_others_witness :
    repv.symbol 8192 ≠ repv.symbol 4096 ∧
    (lookup K0 (F_structure_set K0 load_state (repv.struct 3) (repv.symbol 8192) (repv.other 0)).2
        ((F_structure_set K0 load_state (repv.struct 3) (repv.symbol 8192)
          (repv.other 0)).2.cell 3) (repv.symbol 4096)
      = lookup K0 load_state (load_state.cell 3) (repv.symbol 4096) ∧
    (∀ n, lookup K0 load_state (load_state.cell 3) (repv.symbol 4096) = some n →
      (F_structure_set K0 load_state (repv.struct 3) (repv.symbol 8192) (repv.other 0)).2.node n
        = load_state.node n) ∧
    (∀ i n, n ∈ ((F_structure_set K0 load_state (repv.struct 3) (repv.symbol 8192)
          (repv.other 0)).2.cell 3).buckets.getD i [] →
      rep_STRUCT_HASH K0 ((F_structure_set K0 load_state (repv.struct 3) (repv.symbol 8192)
          (repv.other 0)).2.node n).symbol
        ((F_structure_set K0 load_state (repv.struct 3) (repv.symbol 8192)
          (repv.other 0)).2.cell 3).buckets.length = i) ∧
    (((F_structure_set K0 load_state (repv.struct 3) (repv.symbol 8192)
        (repv.other 0)).2.cell 3).buckets.flatten.map
      (fun n => ((F_structure_set K0 load_state (repv.struct 3) (repv.symbol 8192)
        (repv.other 0)).2.node n).symbol)).Nodup ∧
    ((F_structure_set K0 load_state (repv.struct 3) (repv.symbol 8192)
        (repv.other 0)).2.cell 3).total_bindings
      = ((F_structure_set K0 load_state (repv.struct 3) (repv.symbol 8192)
        (repv.other 0)).2.cell 3).buckets.flatten.length) :=
  ⟨by decide,
    structure_set_keeps_others K0 (externals_keep_K0 _) (externals_keep_K0 _) load_state
      ⟨load_ops, rfl⟩ 3 (repv.symbol 8192) (repv.symbol 4096) (repv.other 0) (by decide)⟩

/-! ## The cache lines and the symbols they hold (C28) -/

theorem line_flush (st : State) (i : Nat) : ((cache_flush st).line i).s = none := by
  unfold State.line cache_flush
  dsimp only
  rw [List.getD_eq_getElem?_getD, List.getElem?_replicate]
  split <;> rfl

theorem line_set (st : State) (c : List cache_line) (h : Nat) (l : cache_line)
    (hc : c = st.ref_cache.set h l) (i : Nat) :
    c.getD i default = if h = i ∧ i < st.ref_cache.length then l else st.line i := by
  subst hc
  unfold State.line
  by_cases e : h = i
  · subst e
    by_cases hl : h < st.ref_cache.length
    · rw [getD_set_eq _ _ _ _ hl, if_pos ⟨rfl, hl⟩]
    · rw [if_neg (fun w => hl w.2), getD_ge _ _ _ (by rw [List.length_set]; omega),
        getD_ge _ _ _ (Nat.le_of_not_lt hl)]
  · rw [getD_set_ne _ _ _ _ _ e, if_neg (fun w => e w.1)]

theorem cache_ok_enter (st : State) (s n : Nat) (x : repv) (hx : rep_SYMBOLP x = true)
    (hn : (st.node n).symbol = x) (h : cache_ok st) : cache_ok (enter_cache st s n) := by
  intro i hi
  have hl : (enter_cache st s n).line i
      = if CACHE_HASH (st.node n).symbol = i ∧ i < st.ref_cache.length then ⟨some s, n⟩
        else st.line i :=
    line_set st _ _ _ rfl i
  have hnode : ∀ m, (enter_cache st s n).node m = st.node m := fun _ => rfl
  have hlen : (enter_cache st s n).nodes.length = st.nodes.length := rfl
  rw [hl] at hi ⊢
  rw [hlen]
  split
  · rename_i hc
    rw [hnode]
    exact ⟨symbol_node_valid hx hn, hc.1⟩
  · rename_i hc
    rw [if_neg hc] at hi
    rw [hnode]
    exact h i hi

theorem line_invalidate (st : State) (x : repv) (i : Nat) :
    (cache_invalidate_symbol st x).line i = st.line i ∨
    (((cache_invalidate_symbol st x).line i).s = none ∧ i = CACHE_HASH x) := by
  unfold cache_invalidate_symbol
  dsimp only
  split
  · have hl := line_set st (st.ref_cache.set (CACHE_HASH x) ⟨none, (st.line (CACHE_HASH x)).n⟩)
      (CACHE_HASH x) ⟨none, (st.line (CACHE_HASH x)).n⟩ rfl i
    by_cases hc : CACHE_HASH x = i ∧ i < st.ref_cache.length
    · right
      rw [if_pos hc] at hl
      refine ⟨?_, hc.1.symm⟩
      exact congrArg cache_line.s hl
    · left
      rw [if_neg hc] at hl
      exact hl
  · exact Or.inl rfl

/-- After `cache_invalidate_symbol x` the line `x` hashes to is empty or holds a
node of another symbol. -/
theorem line_invalidate_at (st : State) (x : repv) :
    ((cache_invalidate_symbol st x).line (CACHE_HASH x)).s = none ∨
    ((cache_invalidate_symbol st x).node
      ((cache_invalidate_symbol st x).line (CACHE_HASH x)).n).symbol ≠ x := by
  unfold cache_invalidate_symbol
  dsimp only
  split
  · rename_i hc
    left
    have hl := line_set st (st.ref_cache.set (CACHE_HASH x) ⟨none, (st.line (CACHE_HASH x)).n⟩)
      (CACHE_HASH x) ⟨none, (st.line (CACHE_HASH x)).n⟩ rfl (CACHE_HASH x)
    have hv : CACHE_HASH x < st.ref_cache.length := by
      by_contra hv
      apply hc.1
      unfold State.line
      rw [getD_ge _ _ _ (Nat.le_of_not_lt hv)]
      rfl
    rw [if_pos ⟨rfl, hv⟩] at hl
    exact congrArg cache_line.s hl
  · rename_i hc
    by_cases h1 : (st.line (CACHE_HASH x)).s = none
    · exact Or.inl h1
    · right
      intro h2
      exact hc ⟨h1, h2⟩

theorem cache_ok_invalidate (st : State) (x : repv) (h : cache_ok st) :
    cache_ok (cache_invalidate_symbol st x) := by
  intro i hi
  have hnode : ∀ m, (cache_invalidate_symbol st x).node m = st.node m := by
    intro m
    unfold State.node
    rw [cache_invalidate_symbol_nodes]
  rw [cache_invalidate_symbol_nodes, hnode]
  rcases line_invalidate st x i with e | ⟨e, -⟩
  · rw [e] at hi ⊢
    exact h i hi
  · exact absurd e hi

theorem cache_ok_alloc_node (st : State) (N : rep_struct_node) (h : cache_ok st) :
    cache_ok (st.alloc_node N) := by
  intro i hi
  have hl : (st.alloc_node N).line i = st.line i := rfl
  rw [hl] at hi ⊢
  obtain ⟨h1, h2⟩ := h i hi
  have hn : (st.alloc_node N).node (st.line i).n = st.node (st.line i).n :=
    getD_append_lt _ _ _ _ h1
  rw [hn]
  refine ⟨?_, h2⟩
  show (st.line i).n < (st.nodes ++ [N]).length
  rw [List.length_append]
  omega

theorem cache_ok_lookup_or_add (K : Statics) (st : State) (s : Nat) (x : repv)
    (h : cache_ok st) : cache_ok (lookup_or_add K st s x).1 := by
  unfold lookup_or_add
  split
  · exact h
  · exact cache_ok_invalidate _ _ (cache_ok_alloc_node _ _ (fun i hi => h i hi))

theorem cache_ok_kit (K : Statics) (hK : externals_keep K cache_ok) : Kit K cache_ok where
  roots := by
    intro st st2 _ h2 h3 h i hi
    have hl : st2.line i = st.line i := by unfold State.line; rw [h3]
    have hn : ∀ m, st2.node m = st.node m := by intro m; unfold State.node; rw [h2]
    rw [hl] at hi ⊢
    rw [hn, h2]
    exact h i hi
  flush := fun st _ i hi => absurd (line_flush st i) hi
  cell := fun _ _ _ _ _ h i hi => h i hi
  node := by
    intro st n N hN h i hi
    have hl : (st.set_node n N).line i = st.line i := rfl
    rw [hl] at hi ⊢
    rw [symbol_set_node N hN]
    refine ⟨?_, (h i hi).2⟩
    show (st.line i).n < (st.nodes.set n N).length
    rw [List.length_set]
    exact (h i hi).1
  alloc := fun _ _ _ _ h i hi => h i hi
  add := fun st s x h => cache_ok_lookup_or_add K st s x h
  enter := fun st s n x hx hn h => cache_ok_enter st s n x hx hn h
  externals := hK

theorem cache_ok_zero : cache_ok zero_state := by
  intro i hi
  exact absurd (line_flush zero_state i) hi

/-- C28. Per-symbol invalidation.  Let the external parts keep the cache lines
valid.  In every reachable state each populated cache line `i` holds a node of
the heap whose symbol hashes to `i`; and after `lookup_or_add (s, x)` has made a
new record for `x` (the lookup of `x` in `s` found none), no populated cache
line holds a record whose symbol is `x`, so `lookup_cache (p, x)` misses for
every structure `p`. -/
theorem invalidation_per_symbol (K : Statics) (hK : externals_keep K cache_ok) (st : State)
    (hreach : Reachable K st) (s : Nat) (x : repv)
    (hmiss : lookup K st (st.cell s) x = none) :
    (∀ i, (st.line i).s ≠ none →
      (st.line i).n < st.nodes.length ∧ CACHE_HASH (st.node (st.line i).n).symbol = i) ∧
    (lookup_or_add K st s x).2 = st.nodes.length ∧
    ((lookup_or_add K st s x).1.node (lookup_or_add K st s x).2).symbol = x ∧
    (∀ i, ((lookup_or_add K st s x).1.line i).s ≠ none →
      ((lookup_or_add K st s x).1.node ((lookup_or_add K st s x).1.line i).n).symbol ≠ x) ∧
    (∀ p, lookup_cache (lookup_or_add K st s x).1 p x = none) := by
  have hok : cache_ok st := kit_reachable (cache_ok_kit K hK) cache_ok_zero st hreach
  have hok2 := cache_ok_lookup_or_add K st s x hok
  obtain ⟨e1, -, e3⟩ := lookup_or_add_miss hmiss
  have hall : ∀ i, ((lookup_or_add K st s x).1.line i).s ≠ none →
      ((lookup_or_add K st s x).1.node ((lookup_or_add K st s x).1.line i).n).symbol ≠ x := by
    intro i hi hsym
    have hh := (hok2 i hi).2
    rw [hsym] at hh
    subst hh
    revert hi hsym
    unfold lookup_or_add
    rw [hmiss]
    dsimp only
    intro hi hsym
    rcases line_invalidate_at _ x with w | w
    · exact hi w
    · exact w hsym
  refine ⟨hok, e3, ?_, hall, ?_⟩
  · rw [e3]
    unfold State.node
    rw [e1, getD_append_length]
    rfl
  · intro p
    unfold lookup_cache
    dsimp only
    split
    · rename_i hc
      exfalso
      refine hall (CACHE_HASH x) ?_ hc.2
      rw [hc.1]
      exact fun w => Option.noConfusion w
    · rfl

set_option maxRecDepth 1000000 in
/-- C28 at a concrete input: in `warm_state` the cache holds `(T, x)`; making a
record for `x` in `T` (6) itself empties that line. -/
theorem invalidation_per_symbol_witness :
    lookup K0 warm_state (warm_state.cell 6) sym_x = none ∧
    lookup_cache warm_state 6 sym_x ≠ none ∧
    ((∀ i, (warm_state.line i).s ≠ none →
      (warm_state.line i).n < warm_state.nodes.length ∧
        CACHE_HASH (warm_state.node (warm_state.line i).n).symbol = i) ∧
    (lookup_or_add K0 warm_state 6 sym_x).2 = warm_state.nodes.length ∧
    ((lookup_or_add K0 warm_state 6 sym_x).1.node
      (lookup_or_add K0 warm_state 6 sym_x).2).symbol = sym_x ∧
    (∀ i, ((lookup_or_add K0 warm_state 6 sym_x).1.line i).s ≠ none →
      ((lookup_or_add K0 warm_state 6 sym_x).1.node
        ((lookup_or_add K0 warm_state 6 sym_x).1.line i).n).symbol ≠ sym_x) ∧
    (∀ p, lookup_cache (lookup_or_add K0 warm_state 6 sym_x).1 p sym_x = none)) :=
  ⟨by decide, by decide,
    invalidation_per_symbol K0 (externals_keep_K0 _) warm_state
      ⟨_, rfl⟩ 6 sym_x (by decide)⟩

end Librep
